import Mathlib

/-!
patrick: synthesising a struct and method stubs from a Go interface

A shallow embedding of `patrick.go` (package `patrick`): `Pour`, `getFuncDecls`
and `newFuncDecl`, together with the part of `go/ast` they read and build.

Modelling conventions

* Go pointers into the syntax tree that the code only reads through are plain
  values.  `*ast.FieldList` is `Option (List Field)` where the pointer may be
  nil (`FuncType.Params`, `FuncType.Results`, `FuncDecl.Recv`) and `List Field`
  where the parser never leaves it nil (`InterfaceType.Methods`,
  `StructType.Fields`).  A nil slice and an empty slice are both `[]`.
* `ast.Object` is a value `Object`; its `Decl` field, a pointer back into the
  tree, is an address into the node store `File.Nodes` (the tree is cyclic
  through `Ident.Obj.Decl`, so the back pointer cannot be a sub-term).
* Source positions, comments, doc strings and struct tags are left out: the
  code neither reads them nor sets them to anything but `token.NoPos`.
* A Go `int` loop counter is a `Nat`: the counters count parameters and results
  of one method and stay far below `2^63`.
* Go strings are Lean strings (valid UTF-8 only); indexing a Go string yields a
  byte, so `firstByte` computes the first byte of the UTF-8 encoding.
* `Type` is a reserved word of Lean, so a Go field `Type` is spelled `Typ`.
* A run either returns, panics, or exhausts the recursion budget of the model
  (`Outcome`).
-/

namespace Patrick

/-! ## The fragment of `go/token` and `go/ast` -/

/-- Tokens of `go/token` that occur in declarations. -/
inductive Token
  | IMPORT | CONST | TYPE | VAR
  deriving DecidableEq, Repr

/-- Kinds of `ast.Object` (`ast.ObjKind`). -/
inductive ObjKind
  | Bad | Pkg | Con | Typ | Var | Fun | Lbl
  deriving DecidableEq, Repr

/-- An `ast.Object`.  `Decl` is the address, in the node store of the file, of
the node that declares the object; `none` is the nil interface value. -/
structure Object where
  Kind : ObjKind
  Name : String
  Decl : Option Nat
  deriving DecidableEq, Repr

/-- An `ast.Ident`: a name and the object it denotes, if it was resolved. -/
structure Ident where
  Name : String
  Obj : Option Object
  deriving DecidableEq, Repr

mutual
/-- Expressions and type expressions (`ast.Expr`). -/
inductive Expr
  | Ident (id : Ident)
  | Ellipsis (Elt : Option Expr)
  | BasicLit (Value : String)
  | FuncLit (Typ : FuncType) (Body : List Stmt)
  | ParenExpr (X : Expr)
  | SelectorExpr (X : Expr) (Sel : Ident)
  | CallExpr (Fun : Expr) (Args : List Expr)
  | StarExpr (X : Expr)
  | ArrayType (Len : Option Expr) (Elt : Expr)
  | StructType (Fields : List Field)
  | FuncType (t : FuncType)
  | InterfaceType (Methods : List Field)
  | MapType (Key : Expr) (Value : Expr)
  | ChanType (Value : Expr)
/-- An `ast.FuncType`: parameter and result lists, each possibly nil. -/
inductive FuncType
  | mk (Params : Option (List Field)) (Results : Option (List Field))
/-- An `ast.Field`: the names sharing one type, and that type. -/
inductive Field
  | mk (Names : List Ident) (Typ : Expr)
/-- Statements (`ast.Stmt`). -/
inductive Stmt
  | DeclStmt (Decl : GenDecl)
  | ExprStmt (X : Expr)
  | ReturnStmt (Results : List Expr)
  | BlockStmt (List : List Stmt)
/-- Specs of a general declaration (`ast.Spec`). -/
inductive Spec
  | ImportSpec (Path : String)
  | ValueSpec (Names : List Ident) (Typ : Option Expr) (Values : List Expr)
  | TypeSpec (Name : Ident) (Typ : Expr)
/-- An `ast.GenDecl`. -/
inductive GenDecl
  | mk (Tok : Token) (Specs : List Spec)
end

/-- An `ast.FuncDecl`; `Body` is the statement list of its block, `none` for a
declaration without body. -/
structure FuncDecl where
  Recv : Option (List Field)
  Name : Ident
  Typ : FuncType
  Body : Option (List Stmt)

/-- Top-level declarations (`ast.Decl`). -/
inductive Decl
  | GenDecl (d : Patrick.GenDecl)
  | FuncDecl (d : Patrick.FuncDecl)

/-- What an `Object.Decl` pointer can point at. -/
inductive Node
  | Spec (s : Patrick.Spec)
  | Field (f : Patrick.Field)
  | FuncDecl (d : Patrick.FuncDecl)

/-- An `ast.File` as the parser hands it over: the declarations in source
order and the store of nodes that `Object.Decl` pointers address. -/
structure File where
  Name : Ident
  Decls : List Decl
  Nodes : List Node

/-- The accessor `field.Names`. -/
def Field.Names : Field → List Ident
  | .mk names _ => names

/-- The accessor `field.Type`. -/
def Field.Typ : Field → Expr
  | .mk _ typ => typ

/-- The accessor `funcType.Params`. -/
def FuncType.Params : FuncType → Option (List Field)
  | .mk params _ => params

/-- The accessor `funcType.Results`. -/
def FuncType.Results : FuncType → Option (List Field)
  | .mk _ results => results

/-- The accessor `genDecl.Tok`. -/
def GenDecl.Tok : GenDecl → Token
  | .mk tok _ => tok

/-- The accessor `genDecl.Specs`. -/
def GenDecl.Specs : GenDecl → List Spec
  | .mk _ specs => specs

/-- The method `(*ast.FieldList).NumFields`: the number of parameters or
results a field list stands for.  A field without names counts once; a nil
list counts zero. -/
def NumFields : Option (List Field) → Nat
  | none => 0
  | some l => (l.map (fun f => if f.Names.length = 0 then 1 else f.Names.length)).sum

/-- The constructor `ast.NewIdent`: an identifier without object. -/
def NewIdent (name : String) : Ident :=
  { Name := name, Obj := none }

/-- The constructor `ast.NewObj`: an object without declaration. -/
def NewObj (kind : ObjKind) (name : String) : Object :=
  { Kind := kind, Name := name, Decl := none }

/-! ## Results of a run -/

/-- How a call ends: it returns a value, it panics (the Go run time aborts the
goroutine with the given message), or the recursion budget of the model is
used up. -/
inductive Outcome (α : Type)
  | ret (a : α)
  | panic (msg : String)
  | nofuel

/-- Go error values that `Pour` returns: `errors.New` of a message, or the
error of `parser.ParseFile`, passed on unchanged. -/
inductive Err
  | New (msg : String)
  | Parse (msg : String)
  deriving DecidableEq, Repr

/-- The options `Opts` of `Pour`. -/
structure Opts where
  PreserveParamNames : Bool
  deriving DecidableEq, Repr

/-! ## `newFuncDecl` -/

/-- The call `fmt.Sprintf(pfx + "%d", i)` for a counter `i ≥ 0`: the text `pfx`
followed by `i` in decimal. -/
def Sprintf (pfx : String) (i : Nat) : String :=
  pfx ++ toString i

/-- Lines 164-178: the loop over the names of one parameter field.  The state
is `fl.List` and the counter `i`. -/
def paramNames (preserveParamNames : Bool) (typ : Expr) :
    List Ident → List Field × Nat → List Field × Nat
  | [], st => st
  | ident :: rest, (fl, i) =>
    let i := i + 1
    let varName := if preserveParamNames then ident.Name else Sprintf "arg" i
    paramNames preserveParamNames typ rest (fl ++ [Field.mk [NewIdent varName] typ], i)

/-- Lines 162-186: the loop over the parameter fields. -/
def paramFields (preserveParamNames : Bool) :
    List Field → List Field × Nat → List Field × Nat
  | [], st => st
  | field :: rest, (fl, i) =>
    if field.Names.length > 0 then
      paramFields preserveParamNames rest
        (paramNames preserveParamNames field.Typ field.Names (fl, i))
    else
      let i := i + 1
      paramFields preserveParamNames rest
        (fl ++ [Field.mk [NewIdent (Sprintf "arg" i)] field.Typ], i)

/-- Lines 159-189: the parameter list of the synthesized declaration, nil when
the method has no parameter. -/
def newParams (params : Option (List Field)) (preserveParamNames : Bool) :
    Option (List Field) :=
  if NumFields params > 0 then
    match params with
    | some l => some (paramFields preserveParamNames l ([], 0)).1
    | none => none
  else none

/-- The variables that the closure `recordField` updates: the counter `i`, the
result list `fl.List`, the statements `stmts` and `returnStmt.Results`. -/
structure ResultState where
  i : Nat
  fl : List Field
  stmts : List Stmt
  returns : List Expr

/-- Lines 196-227: the closure `recordField`.  It panics when the type of the
field is not an identifier; the message of the source goes on with a dump of
the field, which is left out. -/
def recordField (field : Field) (st : ResultState) : Outcome ResultState :=
  let i := st.i + 1
  let fl := st.fl ++ [Field.mk [] field.Typ]
  let varName := Sprintf "val" i
  match field.Typ with
  | Expr.Ident varType =>
    .ret
      { i := i
        fl := fl
        stmts := st.stmts ++
          [Stmt.DeclStmt (GenDecl.mk Token.VAR
            [Spec.ValueSpec [{ Name := varName, Obj := some (NewObj ObjKind.Var varName) }]
              (some (Expr.Ident (NewIdent varType.Name))) []])]
        returns := st.returns ++ [Expr.Ident (NewIdent varName)] }
  | _ => .panic "could not get ident for field"

/-- Lines 231-233: the loop `for i := 1; i < len(field.Names); i++`, whose
counter is local to the loop and shadows the counter of `recordField`.  The
argument is the number of iterations left, `len(field.Names) - 1` at entry. -/
def recordMore (field : Field) : Nat → ResultState → Outcome ResultState
  | 0, st => .ret st
  | n + 1, st =>
    match recordField field st with
    | .ret st1 => recordMore field n st1
    | .panic msg => .panic msg
    | .nofuel => .nofuel

/-- Lines 229-234: the loop over the result fields. -/
def resultFields : List Field → ResultState → Outcome ResultState
  | [], st => .ret st
  | field :: rest, st =>
    match recordField field st with
    | .ret st1 =>
      match recordMore field (field.Names.length - 1) st1 with
      | .ret st2 => resultFields rest st2
      | .panic msg => .panic msg
      | .nofuel => .nofuel
    | .panic msg => .panic msg
    | .nofuel => .nofuel

/-- The function `newFuncDecl` (lines 122-241). -/
def newFuncDecl (recvObj structObj : Object) (funcName : String)
    (params results : Option (List Field)) (preserveParamNames : Bool) :
    Outcome FuncDecl :=
  let recv : List Field :=
    [Field.mk [{ Name := recvObj.Name, Obj := some recvObj }]
      (Expr.StarExpr (Expr.Ident { Name := structObj.Name, Obj := some structObj }))]
  let typeParams := newParams params preserveParamNames
  if NumFields results > 0 then
    match results with
    | some l =>
      match resultFields l { i := 0, fl := [], stmts := [], returns := [] } with
      | .ret st =>
        .ret
          { Recv := some recv
            Name := NewIdent funcName
            Typ := FuncType.mk typeParams (some st.fl)
            Body := some (st.stmts ++ [Stmt.ReturnStmt st.returns]) }
      | .panic msg => .panic msg
      | .nofuel => .nofuel
    | none => .panic "nil pointer dereference"
  else
    .ret
      { Recv := some recv
        Name := NewIdent funcName
        Typ := FuncType.mk typeParams none
        Body := some [] }

/-! ## `getFuncDecls` -/

/-- Lines 96-117: the loop over `typ.Methods.List`.  `recur` is the recursive
call of `getFuncDecls` on the object of an embedded identifier; the second
argument is `newFuncDecls`.  A member that is neither a function type nor an
identifier is printed and skipped. -/
def rangeMethods (structObj recvObj : Object) (preserveParamNames : Bool)
    (recur : Object → Outcome (List FuncDecl)) :
    List Field → List FuncDecl → Outcome (List FuncDecl)
  | [], newFuncDecls => .ret newFuncDecls
  | field :: rest, newFuncDecls =>
    match field.Typ with
    | Expr.FuncType v =>
      match field.Names with
      | [] => .panic "index out of range [0] with length 0"
      | name :: _ =>
        match newFuncDecl recvObj structObj name.Name v.Params v.Results preserveParamNames with
        | .ret fd =>
          rangeMethods structObj recvObj preserveParamNames recur rest (newFuncDecls ++ [fd])
        | .panic msg => .panic msg
        | .nofuel => .nofuel
    | Expr.Ident v =>
      match v.Obj with
      | none => .panic "found embedded interface with no associated interface"
      | some o =>
        match recur o with
        | .ret fds =>
          rangeMethods structObj recvObj preserveParamNames recur rest (newFuncDecls ++ fds)
        | .panic msg => .panic msg
        | .nofuel => .nofuel
    | _ => rangeMethods structObj recvObj preserveParamNames recur rest newFuncDecls

/-- The function `getFuncDecls` (lines 79-120).  The first argument bounds the
depth of the recursion through embedded interfaces; `nodes` is the store that
`o.Decl` points into.  The parameter `funcDecls` of the source is passed along
and never read, so it is left out. -/
def getFuncDecls (nodes : List Node) (structObj recvObj : Object)
    (preserveParamNames : Bool) : Nat → Object → Outcome (List FuncDecl)
  | 0, _ => .nofuel
  | fuel + 1, o =>
    match o.Decl.bind (fun a => nodes.get? a) with
    | some (Node.Spec (Spec.TypeSpec _ (Expr.InterfaceType methods))) =>
      rangeMethods structObj recvObj preserveParamNames
        (getFuncDecls nodes structObj recvObj preserveParamNames fuel) methods []
    | _ => .panic "not ok"

/-! ## `Pour` -/

mutual
/-- The walk of `ast.Inspect` below an expression, with the closure of lines
31-47 applied at every node.  The state is the captured variable `obj`; the
closure changes it at type specs only and asks to descend everywhere else. -/
def inspectExpr (interfaceName : String) : Expr → Option Object → Option Object
  | .Ident _, obj => obj
  | .Ellipsis none, obj => obj
  | .Ellipsis (some elt), obj => inspectExpr interfaceName elt obj
  | .BasicLit _, obj => obj
  | .FuncLit typ body, obj =>
    inspectStmts interfaceName body (inspectFuncType interfaceName typ obj)
  | .ParenExpr x, obj => inspectExpr interfaceName x obj
  | .SelectorExpr x _, obj => inspectExpr interfaceName x obj
  | .CallExpr f args, obj =>
    inspectExprs interfaceName args (inspectExpr interfaceName f obj)
  | .StarExpr x, obj => inspectExpr interfaceName x obj
  | .ArrayType none elt, obj => inspectExpr interfaceName elt obj
  | .ArrayType (some len) elt, obj =>
    inspectExpr interfaceName elt (inspectExpr interfaceName len obj)
  | .StructType fields, obj => inspectFields interfaceName fields obj
  | .FuncType t, obj => inspectFuncType interfaceName t obj
  | .InterfaceType methods, obj => inspectFields interfaceName methods obj
  | .MapType key value, obj =>
    inspectExpr interfaceName value (inspectExpr interfaceName key obj)
  | .ChanType value, obj => inspectExpr interfaceName value obj
/-- The walk over an expression list, in order. -/
def inspectExprs (interfaceName : String) : List Expr → Option Object → Option Object
  | [], obj => obj
  | x :: rest, obj => inspectExprs interfaceName rest (inspectExpr interfaceName x obj)
/-- The walk below a function type: parameters, then results. -/
def inspectFuncType (interfaceName : String) : FuncType → Option Object → Option Object
  | .mk none none, obj => obj
  | .mk (some params) none, obj => inspectFields interfaceName params obj
  | .mk none (some results), obj => inspectFields interfaceName results obj
  | .mk (some params) (some results), obj =>
    inspectFields interfaceName results (inspectFields interfaceName params obj)
/-- The walk over a field list, in order; below a field, its type. -/
def inspectFields (interfaceName : String) : List Field → Option Object → Option Object
  | [], obj => obj
  | .mk _ typ :: rest, obj =>
    inspectFields interfaceName rest (inspectExpr interfaceName typ obj)
/-- The walk below a statement. -/
def inspectStmt (interfaceName : String) : Stmt → Option Object → Option Object
  | .DeclStmt decl, obj => inspectGenDecl interfaceName decl obj
  | .ExprStmt x, obj => inspectExpr interfaceName x obj
  | .ReturnStmt results, obj => inspectExprs interfaceName results obj
  | .BlockStmt list, obj => inspectStmts interfaceName list obj
/-- The walk over a statement list, in order. -/
def inspectStmts (interfaceName : String) : List Stmt → Option Object → Option Object
  | [], obj => obj
  | s :: rest, obj => inspectStmts interfaceName rest (inspectStmt interfaceName s obj)
/-- The walk at a spec.  Lines 37-43: at a type spec whose name differs from
`interfaceName` the walk descends into the type; at one whose name is
`interfaceName` the closure sets `obj = v.Name.Obj` and returns false, which
skips the children of that spec and lets the walk go on with its siblings. -/
def inspectSpec (interfaceName : String) : Spec → Option Object → Option Object
  | .ImportSpec _, obj => obj
  | .ValueSpec _ none values, obj => inspectExprs interfaceName values obj
  | .ValueSpec _ (some typ) values, obj =>
    inspectExprs interfaceName values (inspectExpr interfaceName typ obj)
  | .TypeSpec name typ, obj =>
    if name.Name ≠ interfaceName then inspectExpr interfaceName typ obj
    else name.Obj
/-- The walk over the specs of a declaration, in order. -/
def inspectSpecs (interfaceName : String) : List Spec → Option Object → Option Object
  | [], obj => obj
  | s :: rest, obj => inspectSpecs interfaceName rest (inspectSpec interfaceName s obj)
/-- The walk below a general declaration. -/
def inspectGenDecl (interfaceName : String) : GenDecl → Option Object → Option Object
  | .mk _ specs, obj => inspectSpecs interfaceName specs obj
end

/-- The walk below a function declaration: receiver, type, body. -/
def inspectFuncDecl (interfaceName : String) (d : FuncDecl) (obj : Option Object) :
    Option Object :=
  let obj1 := match d.Recv with
    | none => obj
    | some recv => inspectFields interfaceName recv obj
  let obj2 := inspectFuncType interfaceName d.Typ obj1
  match d.Body with
  | none => obj2
  | some body => inspectStmts interfaceName body obj2

/-- The walk over the declarations of the file, in order. -/
def inspectDecls (interfaceName : String) : List Decl → Option Object → Option Object
  | [], obj => obj
  | Decl.GenDecl d :: rest, obj =>
    inspectDecls interfaceName rest (inspectGenDecl interfaceName d obj)
  | Decl.FuncDecl d :: rest, obj =>
    inspectDecls interfaceName rest (inspectFuncDecl interfaceName d obj)

/-- Lines 30-47: `var obj *ast.Object` followed by `ast.Inspect(f, ...)`. -/
def inspectFile (f : File) (interfaceName : String) : Option Object :=
  inspectDecls interfaceName f.Decls none

/-- First byte of the UTF-8 encoding of a character with code point `n`. -/
def leadByte (n : Nat) : Nat :=
  if n < 128 then n
  else if n < 2048 then 192 + n / 64
  else if n < 65536 then 224 + n / 4096
  else 240 + n / 262144

/-- The index expression `s[0]` on a Go string: its first byte, a run-time
panic when the string is empty. -/
def firstByte (s : String) : Outcome Nat :=
  match s.data with
  | [] => .panic "index out of range [0] with length 0"
  | c :: _ => .ret (leadByte c.toNat)

/-- The conversion `string(b)` of a byte: the text made of the one character
whose code point is `b`. -/
def byteToString (b : Nat) : String :=
  String.singleton (Char.ofNat b)

/-- The function `Pour` (lines 19-77).  `ParseFile` stands for
`parser.ParseFile(fset, "src.go", src, parser.AllErrors)`, `fuel` bounds the
recursion of `getFuncDecls`.  The result is the triple the source returns, a
nil `*ast.GenDecl` being `none` and a nil slice `[]`. -/
def Pour (ParseFile : List Nat → Except Err File) (fuel : Nat)
    (src : List Nat) (interfaceName structName : String) (opts : Opts) :
    Outcome (Option GenDecl × List FuncDecl × Option Err) :=
  if interfaceName = "" then
    .ret (none, [], some (Err.New "must provide interface varName"))
  else
    match ParseFile src with
    | .error err => .ret (none, [], some err)
    | .ok f =>
      match inspectFile f interfaceName with
      | none => .ret (none, [], some (Err.New "could not find interface"))
      | some obj =>
        let structObj := NewObj ObjKind.Typ structName
        match firstByte structName with
        | .panic msg => .panic msg
        | .nofuel => .nofuel
        | .ret b =>
          let recvObj := NewObj ObjKind.Typ (byteToString b)
          let genDecl := GenDecl.mk Token.TYPE
            [Spec.TypeSpec { Name := structObj.Name, Obj := some structObj }
              (Expr.StructType [])]
          match getFuncDecls f.Nodes structObj recvObj opts.PreserveParamNames fuel obj with
          | .ret funcDecls => .ret (some genDecl, funcDecls, none)
          | .panic msg => .panic msg
          | .nofuel => .nofuel

/-! ## Definitions used to state the properties -/

/-- The split form of a field list, as the data model of the specification has
it: one entry per name of a field, one entry for a field without names; each
entry keeps the name, if any, and the type of the field. -/
def splitFields : List Field → List (Option Ident × Expr)
  | [] => []
  | f :: rest =>
    (if f.Names.length = 0 then [(none, f.Typ)]
     else f.Names.map (fun id => (some id, f.Typ))) ++ splitFields rest

/-- The name the parameter policy gives the `K`-th parameter. -/
def paramName (preserveParamNames : Bool) (K : Nat) : Option Ident → String
  | some id => if preserveParamNames then id.Name else Sprintf "arg" K
  | none => Sprintf "arg" K

/-- The parameter policy applied to split parameters, the first of which has
index `i + 1`. -/
def namedFrom (preserveParamNames : Bool) : Nat → List (Option Ident × Expr) → List Field
  | _, [] => []
  | i, (nm, t) :: r =>
    Field.mk [NewIdent (paramName preserveParamNames (i + 1) nm)] t ::
      namedFrom preserveParamNames (i + 1) r

/-- The types of the split form of a field list: the type of a field once per
name, once for a field without names. -/
def splitTypes (l : List Field) : List Expr :=
  (splitFields l).map (fun x => x.2)

/-- The statement `var val<j> <typeName>`: a declaration statement holding a
`var` declaration with one value spec, one name, the type identifier
`typeName` and no values. -/
def varDecl (j : Nat) (typeName : String) : Stmt :=
  Stmt.DeclStmt (GenDecl.mk Token.VAR
    [Spec.ValueSpec
      [{ Name := "val" ++ toString j, Obj := some (NewObj ObjKind.Var ("val" ++ toString j)) }]
      (some (Expr.Ident (NewIdent typeName))) []])

/-- The operand `val<j>` of the return statement. -/
def valRef (j : Nat) : Expr :=
  Expr.Ident (NewIdent ("val" ++ toString j))

/-- The declarations `var val<i+1> T1, var val<i+2> T2, ...` for result type
identifiers `T1, T2, ...`. -/
def declsFrom : Nat → List Ident → List Stmt
  | _, [] => []
  | i, id :: r => varDecl (i + 1) id.Name :: declsFrom (i + 1) r

/-- The operands `val<i+1>, ..., val<i+n>`. -/
def refsFrom : Nat → Nat → List Expr
  | _, 0 => []
  | i, n + 1 => valRef (i + 1) :: refsFrom (i + 1) n

/-- The test `_, ok := e.(*ast.Ident)`: whether an expression is an identifier. -/
def isIdent : Expr → Bool
  | Expr.Ident _ => true
  | _ => false

/-- Every type of the field list is an identifier. -/
def SimpleTypes (l : List Field) : Prop :=
  ∀ f ∈ l, isIdent f.Typ = true

instance (l : List Field) : Decidable (SimpleTypes l) := by
  unfold SimpleTypes
  infer_instance

/-- The result type identifiers of a field list in split form: the identifier
of a field once per name, once for a field without names.  A field whose type
is not an identifier contributes nothing. -/
def resultIdents : List Field → List Ident
  | [] => []
  | f :: rest =>
    (match f.Typ with
      | Expr.Ident id => List.replicate (if f.Names.length = 0 then 1 else f.Names.length) id
      | _ => []) ++ resultIdents rest

/-- The flattening of a member list in the words of the specification: a
direct method (a field with one name and a function type) contributes its
signature, an embedded reference (an identifier with an object) is replaced at
its position by what `resolve` yields for the interface it refers to; the order
is kept and nothing is removed.  There is no flattening when a member has
another shape or a reference does not resolve. -/
def flattenMembers (resolve : Object → Option (List (String × FuncType))) :
    List Field → Option (List (String × FuncType))
  | [] => some []
  | Field.mk [name] (Expr.FuncType t) :: rest =>
    match flattenMembers resolve rest with
    | some r => some ((name.Name, t) :: r)
    | none => none
  | Field.mk _ (Expr.Ident ⟨_, some o⟩) :: rest =>
    match resolve o, flattenMembers resolve rest with
    | some js, some r => some (js ++ r)
    | _, _ => none
  | _ :: _ => none

/-- The resolved method set of the interface that `o` declares, in the words
of the specification: the flattening of its member list, embedded references
resolved through the node store, to a depth of at most `depth` interfaces.
There is none when `o` does not declare an interface, when the flattening
fails, or when the embedding chain is longer than `depth` (as it is for every
`depth` when the embedding is cyclic). -/
def resolveMethods (nodes : List Node) : Nat → Object → Option (List (String × FuncType))
  | 0, _ => none
  | depth + 1, o =>
    match o.Decl.bind (fun a => nodes.get? a) with
    | some (Node.Spec (Spec.TypeSpec _ (Expr.InterfaceType members))) =>
      flattenMembers (resolveMethods nodes depth) members
    | _ => none

/-- All result types of the methods of a resolved method set are identifiers. -/
def SimpleResults (ms : List (String × FuncType)) : Prop :=
  ∀ m ∈ ms, SimpleTypes (m.2.Results.getD [])

instance (ms : List (String × FuncType)) : Decidable (SimpleResults ms) := by
  unfold SimpleResults
  infer_instance

/-! ## Definitions used to state the properties of error handling and lookup -/

/-- What one pass of the loop of lines 96-117 appends for the member `field`:
the declaration of a direct method, the declarations of an embedded interface,
or nothing for a member of another shape. -/
def memberDecls (structObj recvObj : Object) (preserveParamNames : Bool)
    (recur : Object → Outcome (List FuncDecl)) (field : Field) : Outcome (List FuncDecl) :=
  match field.Typ with
  | Expr.FuncType v =>
    match field.Names with
    | [] => .panic "index out of range [0] with length 0"
    | name :: _ =>
      match newFuncDecl recvObj structObj name.Name v.Params v.Results preserveParamNames with
      | .ret fd => .ret [fd]
      | .panic msg => .panic msg
      | .nofuel => .nofuel
  | Expr.Ident v =>
    match v.Obj with
    | none => .panic "found embedded interface with no associated interface"
    | some o => recur o
  | _ => .ret []

/-- The member list of the interface that `o` declares: `o.Decl` is a type
spec of the node store whose type is an interface type.  There is none when
`o.Decl` is nil, is not a type spec, or the type is not an interface type
(the two tests of lines 86-94). -/
def membersOf (nodes : List Node) (o : Object) : Option (List Field) :=
  match o.Decl.bind (fun a => nodes.get? a) with
  | some (Node.Spec (Spec.TypeSpec _ (Expr.InterfaceType methods))) => some methods
  | _ => none

/-- The members that the resolution of `o` meets: the members of the interface
of `o` and, to a depth of `depth` interfaces, those of the interfaces that its
embedded identifiers refer to. -/
def reachMembers (nodes : List Node) : Nat → Object → List Field
  | 0, _ => []
  | depth + 1, o =>
    match membersOf nodes o with
    | none => []
    | some ms =>
      ms ++ ms.flatMap (fun f =>
        match f.Typ with
        | Expr.Ident v =>
          match v.Obj with
          | some o2 => reachMembers nodes depth o2
          | none => []
        | _ => [])

/-- An embedded member that is an identifier without interface declaration in
the file: the parser left it unresolved (`Obj` is nil), or its object does not
declare an interface. -/
def UnresolvedEmbed (nodes : List Node) (field : Field) : Prop :=
  ∃ v, field.Typ = Expr.Ident v ∧
    (v.Obj = none ∨ ∃ o, v.Obj = some o ∧ membersOf nodes o = none)

/-- A direct method with a result field whose type is not an identifier. -/
def UnsupportedResult (field : Field) : Prop :=
  ∃ v, field.Typ = Expr.FuncType v ∧ ¬ SimpleTypes (v.Results.getD [])

mutual
/-- The names of the type declarations below an expression, in source order. -/
def typeNamesExpr : Expr → List String
  | .Ident _ => []
  | .Ellipsis none => []
  | .Ellipsis (some elt) => typeNamesExpr elt
  | .BasicLit _ => []
  | .FuncLit typ body => typeNamesFuncType typ ++ typeNamesStmts body
  | .ParenExpr x => typeNamesExpr x
  | .SelectorExpr x _ => typeNamesExpr x
  | .CallExpr f args => typeNamesExpr f ++ typeNamesExprs args
  | .StarExpr x => typeNamesExpr x
  | .ArrayType none elt => typeNamesExpr elt
  | .ArrayType (some len) elt => typeNamesExpr len ++ typeNamesExpr elt
  | .StructType fields => typeNamesFields fields
  | .FuncType t => typeNamesFuncType t
  | .InterfaceType methods => typeNamesFields methods
  | .MapType key value => typeNamesExpr key ++ typeNamesExpr value
  | .ChanType value => typeNamesExpr value
/-- The names of the type declarations below the expressions of a list. -/
def typeNamesExprs : List Expr → List String
  | [] => []
  | x :: rest => typeNamesExpr x ++ typeNamesExprs rest
/-- The names of the type declarations below a function type. -/
def typeNamesFuncType : FuncType → List String
  | .mk none none => []
  | .mk (some params) none => typeNamesFields params
  | .mk none (some results) => typeNamesFields results
  | .mk (some params) (some results) => typeNamesFields params ++ typeNamesFields results
/-- The names of the type declarations below the fields of a list. -/
def typeNamesFields : List Field → List String
  | [] => []
  | .mk _ typ :: rest => typeNamesExpr typ ++ typeNamesFields rest
/-- The names of the type declarations below a statement. -/
def typeNamesStmt : Stmt → List String
  | .DeclStmt decl => typeNamesGenDecl decl
  | .ExprStmt x => typeNamesExpr x
  | .ReturnStmt results => typeNamesExprs results
  | .BlockStmt list => typeNamesStmts list
/-- The names of the type declarations below the statements of a list. -/
def typeNamesStmts : List Stmt → List String
  | [] => []
  | s :: rest => typeNamesStmt s ++ typeNamesStmts rest
/-- The names of the type declarations at and below a spec: the name of a
type spec, followed by the names below its type. -/
def typeNamesSpec : Spec → List String
  | .ImportSpec _ => []
  | .ValueSpec _ none values => typeNamesExprs values
  | .ValueSpec _ (some typ) values => typeNamesExpr typ ++ typeNamesExprs values
  | .TypeSpec name typ => name.Name :: typeNamesExpr typ
/-- The names of the type declarations at and below the specs of a list. -/
def typeNamesSpecs : List Spec → List String
  | [] => []
  | s :: rest => typeNamesSpec s ++ typeNamesSpecs rest
/-- The names of the type declarations of a general declaration. -/
def typeNamesGenDecl : GenDecl → List String
  | .mk _ specs => typeNamesSpecs specs
end

/-- The names of the type declarations local to a function declaration. -/
def typeNamesFuncDecl (d : FuncDecl) : List String :=
  (match d.Recv with
    | none => []
    | some recv => typeNamesFields recv) ++
  typeNamesFuncType d.Typ ++
  (match d.Body with
    | none => []
    | some body => typeNamesStmts body)

/-- The names of the type declarations of a list of declarations, those local
to function bodies included. -/
def typeNamesDecls : List Decl → List String
  | [] => []
  | Decl.GenDecl d :: rest => typeNamesGenDecl d ++ typeNamesDecls rest
  | Decl.FuncDecl d :: rest => typeNamesFuncDecl d ++ typeNamesDecls rest

/-- The names of all type declarations of a file. -/
def typeNames (f : File) : List String :=
  typeNamesDecls f.Decls

/-- A declaration without its parameter names: every parameter field keeps
its type and loses its names; receiver, name, results and body are kept. -/
def eraseParamNames (fd : FuncDecl) : FuncDecl :=
  { fd with
    Typ := FuncType.mk (fd.Typ.Params.map (fun l => l.map (fun f => Field.mk [] f.Typ)))
      fd.Typ.Results }

/-- The result of `Pour` without the parameter names of the method
declarations; a panic, an exhausted budget, an error and the type declaration
are kept as they are. -/
def eraseResultParamNames :
    Outcome (Option GenDecl × List FuncDecl × Option Err) →
    Outcome (Option GenDecl × List FuncDecl × Option Err)
  | .ret (g, fds, err) => .ret (g, fds.map eraseParamNames, err)
  | .panic msg => .panic msg
  | .nofuel => .nofuel

/-- The result of `getFuncDecls` without the parameter names. -/
def eraseDeclsParamNames : Outcome (List FuncDecl) → Outcome (List FuncDecl)
  | .ret fds => .ret (fds.map eraseParamNames)
  | .panic msg => .panic msg
  | .nofuel => .nofuel

/-- The embedding relation of a file: for the declaration pointer `d` of an
object, the declaration pointers of the objects of the embedded identifiers of
the interface that `d` points to, in source order; none when `d` does not
point to an interface.  These are the `Decl` fields of the objects on which
`getFuncDecls`, called on an object with the declaration `d`, calls itself. -/
def embeddedDecls (nodes : List Node) (d : Option Nat) : List (Option Nat) :=
  match d.bind (fun a => nodes.get? a) with
  | some (Node.Spec (Spec.TypeSpec _ (Expr.InterfaceType methods))) =>
    methods.filterMap (fun f =>
      match f.Typ with
      | Expr.Ident v => v.Obj.map (fun o => o.Decl)
      | _ => none)
  | _ => []

/-- An embedding chain: every declaration of the list but the first is
embedded by the one before it. -/
def EmbedChain (nodes : List Node) : List (Option Nat) → Prop
  | [] => True
  | [_] => True
  | d :: e :: rest => e ∈ embeddedDecls nodes d ∧ EmbedChain nodes (e :: rest)

/-- The embedding relation is acyclic: no declaration reaches itself through
a chain of embedded references. -/
def Acyclic (nodes : List Node) : Prop :=
  ∀ d l, ¬ EmbedChain nodes (d :: l ++ [d])

/-- The value of a decimal digit character. -/
def digitValue (c : Char) : Nat := c.toNat - 48

/-- The number that a list of decimal digit characters denotes. -/
def valueOf (l : List Char) : Nat := l.foldl (fun a c => 10 * a + digitValue c) 0


/-- The names that the receiver list of a declaration binds. -/
def recvNames (fd : FuncDecl) : List String :=
  (fd.Recv.getD []).flatMap (fun f => f.Names.map Ident.Name)

/-- The names that the parameter list of a declaration binds. -/
def paramNameList (fd : FuncDecl) : List String :=
  (fd.Typ.Params.getD []).flatMap (fun f => f.Names.map Ident.Name)

/-- The names that one statement declares in the block it stands in: those of
the value specs of a declaration statement. -/
def stmtNames : Stmt → List String
  | Stmt.DeclStmt (GenDecl.mk _ specs) =>
    specs.flatMap (fun sp =>
      match sp with
      | Spec.ValueSpec names _ _ => names.map Ident.Name
      | _ => [])
  | _ => []

/-- The names that the statements of the body of a declaration declare. -/
def localNames (fd : FuncDecl) : List String :=
  (fd.Body.getD []).flatMap stmtNames

/-- The identifiers bound in the function scope of a declaration: receiver,
parameters and local variables (the results of a synthesized declaration have
no names). -/
def boundNames (fd : FuncDecl) : List String :=
  recvNames fd ++ paramNameList fd ++ localNames fd

/-- A list of names without the blank identifier `_`. -/
def nonBlank (l : List String) : List String :=
  l.filter (fun n => n ≠ "_")

/-- The names of the parameters of a method, as the interface declares them. -/
def sourceParamNames (l : List Field) : List String :=
  l.flatMap (fun f => f.Names.map Ident.Name)

/-- The flattening of a member list that passes over members of another shape:
a direct method (a field with one name and a function type) contributes its
signature, an embedded identifier with an object is replaced at its position
by what `resolve` yields for the interface it refers to, and a member that is
neither a function type nor an identifier contributes nothing.  There is no
flattening when a function type comes without exactly one name, an identifier
comes without object, or a reference does not resolve. -/
def flattenSupported (resolve : Object → Option (List (String × FuncType))) :
    List Field → Option (List (String × FuncType))
  | [] => some []
  | field :: rest =>
    match field.Typ with
    | Expr.FuncType t =>
      match field.Names with
      | [name] =>
        match flattenSupported resolve rest with
        | some r => some ((name.Name, t) :: r)
        | none => none
      | _ => none
    | Expr.Ident v =>
      match v.Obj with
      | some o =>
        match resolve o, flattenSupported resolve rest with
        | some js, some r => some (js ++ r)
        | _, _ => none
      | none => none
    | _ => flattenSupported resolve rest

/-- The resolved method set of the interface that `o` declares when members of
another shape are passed over, in this interface and in those it embeds, to a
depth of at most `depth` interfaces. -/
def resolveSupported (nodes : List Node) : Nat → Object → Option (List (String × FuncType))
  | 0, _ => none
  | depth + 1, o =>
    match membersOf nodes o with
    | some members => flattenSupported (resolveSupported nodes depth) members
    | none => none

/-- The parameter names of the synthesized method when parameter names are
preserved: the name of a named parameter of the interface, `arg<K>` for the
`K`-th parameter when it is unnamed. -/
def policyNames (l : List Field) : List String :=
  (namedFrom true 0 (splitFields l)).flatMap (fun f => f.Names.map Ident.Name)

/-! ## Concrete inputs

The interfaces of `patrick_test.go`, as the parser hands them over, and a few
more.  Identifiers of the universe scope (`int`, `string`, `error`) are not
resolved by the parser and carry no object. -/

/-- The type identifier `int`. -/
def tInt : Expr := Expr.Ident (NewIdent "int")

/-- The type identifier `string`. -/
def tString : Expr := Expr.Ident (NewIdent "string")

/-- The type identifier `error`. -/
def tError : Expr := Expr.Ident (NewIdent "error")

/-- The object of the receiver name `m` of the tests. -/
def recvM : Object := NewObj ObjKind.Typ "m"

/-- The object of the struct name `myStruct` of the tests. -/
def objMyStruct : Object := NewObj ObjKind.Typ "myStruct"

/-- The parameter list of `A(someInt, anotherInt int)`. -/
def fieldsPair : List Field := [Field.mk [NewIdent "someInt", NewIdent "anotherInt"] tInt]

/-- The parameter list of `A(p []byte, n, m int, string)`: a slice type, a
field with two names and a field without name. -/
def fieldsMixed : List Field :=
  [Field.mk [NewIdent "p"] (Expr.ArrayType none (Expr.Ident (NewIdent "byte"))),
   Field.mk [NewIdent "n", NewIdent "m"] tInt,
   Field.mk [] tString]

/-- The object of a type declared at address `a` of the node store. -/
def typeObj (name : String) (a : Nat) : Object :=
  { Kind := ObjKind.Typ, Name := name, Decl := some a }

/-- The type spec `type MyInterface interface { A(); B() }` of the tests. -/
def specMyInterface : Spec :=
  Spec.TypeSpec { Name := "MyInterface", Obj := some (typeObj "MyInterface" 0) }
    (Expr.InterfaceType
      [Field.mk [NewIdent "A"] (Expr.FuncType (FuncType.mk (some []) none)),
       Field.mk [NewIdent "B"] (Expr.FuncType (FuncType.mk (some []) none))])

/-- The source file of the tests (lines 24-31 of `patrick_test.go`), parsed. -/
def fileMyInterface : File :=
  { Name := NewIdent "mypackage"
    Decls := [Decl.GenDecl (GenDecl.mk Token.TYPE [specMyInterface])]
    Nodes := [Node.Spec specMyInterface] }

/-- A parser that yields `fileMyInterface` for every source text. -/
def parseMyInterface : List Nat → Except Err File :=
  fun _ => Except.ok fileMyInterface

/-- The result list of `A() (someInt, anotherInt int, err error)`: a field with
two names and a field with one. -/
def resultsNamed : List Field :=
  [Field.mk [NewIdent "someInt", NewIdent "anotherInt"] tInt, Field.mk [NewIdent "err"] tError]

/-- The type spec `type Reader interface { Read(p []byte) (n int, err error) }`. -/
def specReader : Spec :=
  Spec.TypeSpec { Name := "Reader", Obj := some (typeObj "Reader" 0) }
    (Expr.InterfaceType
      [Field.mk [NewIdent "Read"] (Expr.FuncType (FuncType.mk
        (some [Field.mk [NewIdent "p"] (Expr.ArrayType none (Expr.Ident (NewIdent "byte")))])
        (some [Field.mk [NewIdent "n"] tInt, Field.mk [NewIdent "err"] tError])))])

/-- The type spec `type Closer interface { Close() error }`. -/
def specCloser : Spec :=
  Spec.TypeSpec { Name := "Closer", Obj := some (typeObj "Closer" 1) }
    (Expr.InterfaceType
      [Field.mk [NewIdent "Close"] (Expr.FuncType (FuncType.mk (some [])
        (some [Field.mk [] tError])))])

/-- The type spec `type ReadCloser interface { Reader; Flush(); Closer }`: two
embedded interfaces around a direct method. -/
def specReadCloser : Spec :=
  Spec.TypeSpec { Name := "ReadCloser", Obj := some (typeObj "ReadCloser" 2) }
    (Expr.InterfaceType
      [Field.mk [] (Expr.Ident { Name := "Reader", Obj := some (typeObj "Reader" 0) }),
       Field.mk [NewIdent "Flush"] (Expr.FuncType (FuncType.mk (some []) none)),
       Field.mk [] (Expr.Ident { Name := "Closer", Obj := some (typeObj "Closer" 1) })])

/-- A file that declares `Reader`, `Closer` and `ReadCloser`, parsed. -/
def fileReadCloser : File :=
  { Name := NewIdent "mypackage"
    Decls := [Decl.GenDecl (GenDecl.mk Token.TYPE [specReader]),
              Decl.GenDecl (GenDecl.mk Token.TYPE [specCloser]),
              Decl.GenDecl (GenDecl.mk Token.TYPE [specReadCloser])]
    Nodes := [Node.Spec specReader, Node.Spec specCloser, Node.Spec specReadCloser] }

/-- A parser that yields `fileReadCloser` for every source text. -/
def parseReadCloser : List Nat → Except Err File :=
  fun _ => Except.ok fileReadCloser

/-- The type spec `type Opener interface { Open(name string) *File }`: a direct
method whose result type is a pointer. -/
def specOpener : Spec :=
  Spec.TypeSpec { Name := "Opener", Obj := some (typeObj "Opener" 0) }
    (Expr.InterfaceType
      [Field.mk [NewIdent "Open"] (Expr.FuncType (FuncType.mk
        (some [Field.mk [NewIdent "name"] tString])
        (some [Field.mk [] (Expr.StarExpr (Expr.Ident (NewIdent "File")))])))])

/-- A file that declares `Opener`, parsed. -/
def fileOpener : File :=
  { Name := NewIdent "mypackage"
    Decls := [Decl.GenDecl (GenDecl.mk Token.TYPE [specOpener])]
    Nodes := [Node.Spec specOpener] }

/-- A parser that yields `fileOpener` for every source text. -/
def parseOpener : List Nat → Except Err File :=
  fun _ => Except.ok fileOpener

/-- The type spec `type MyInterface interface { A() }` at package level. -/
def specOuter : Spec :=
  Spec.TypeSpec { Name := "MyInterface", Obj := some (typeObj "MyInterface" 0) }
    (Expr.InterfaceType
      [Field.mk [NewIdent "A"] (Expr.FuncType (FuncType.mk (some []) none))])

/-- The type spec `type MyInterface interface { B() }` inside a function body. -/
def specInner : Spec :=
  Spec.TypeSpec { Name := "MyInterface", Obj := some (typeObj "MyInterface" 1) }
    (Expr.InterfaceType
      [Field.mk [NewIdent "B"] (Expr.FuncType (FuncType.mk (some []) none))])

/-- The file
`type MyInterface interface { A() }; func f() { type MyInterface interface { B() } }`,
parsed: a valid Go file in which a local type has the name of a package-level
one. -/
def fileShadow : File :=
  { Name := NewIdent "mypackage"
    Decls := [Decl.GenDecl (GenDecl.mk Token.TYPE [specOuter]),
              Decl.FuncDecl
                { Recv := none
                  Name := NewIdent "f"
                  Typ := FuncType.mk (some []) none
                  Body := some [Stmt.DeclStmt (GenDecl.mk Token.TYPE [specInner])] }]
    Nodes := [Node.Spec specOuter, Node.Spec specInner] }

/-- A parser that yields `fileShadow` for every source text. -/
def parseShadow : List Nat → Except Err File :=
  fun _ => Except.ok fileShadow

/-- The resolved method set of `ReadCloser`: `Read`, `Flush`, `Close`. -/
def methodsReadCloser : List (String × FuncType) :=
  [("Read", FuncType.mk
      (some [Field.mk [NewIdent "p"] (Expr.ArrayType none (Expr.Ident (NewIdent "byte")))])
      (some [Field.mk [NewIdent "n"] tInt, Field.mk [NewIdent "err"] tError])),
   ("Flush", FuncType.mk (some []) none),
   ("Close", FuncType.mk (some []) (some [Field.mk [] tError]))]

/-- The two direct methods `A()` and `B()` of `MyInterface`. -/
def sigsMyInterface : List (Ident × FuncType) :=
  [(NewIdent "A", FuncType.mk (some []) none), (NewIdent "B", FuncType.mk (some []) none)]

/-- The type spec `type Config struct { Port int }`: a type that is not an
interface. -/
def specConfig : Spec :=
  Spec.TypeSpec { Name := "Config", Obj := some (typeObj "Config" 0) }
    (Expr.StructType [Field.mk [NewIdent "Port"] tInt])

/-- A file that declares `Config`, parsed. -/
def fileConfig : File :=
  { Name := NewIdent "mypackage"
    Decls := [Decl.GenDecl (GenDecl.mk Token.TYPE [specConfig])]
    Nodes := [Node.Spec specConfig] }

/-- A parser that yields `fileConfig` for every source text. -/
def parseConfig : List Nat → Except Err File :=
  fun _ => Except.ok fileConfig

/-- The type spec `type Coded interface { Code() int; error }`: the embedded
`error` is the interface of the universe scope, which the parser does not
resolve. -/
def specCoded : Spec :=
  Spec.TypeSpec { Name := "Coded", Obj := some (typeObj "Coded" 0) }
    (Expr.InterfaceType
      [Field.mk [NewIdent "Code"] (Expr.FuncType (FuncType.mk (some [])
        (some [Field.mk [] tInt]))),
       Field.mk [] tError])

/-- A file that declares `Coded`, parsed. -/
def fileCoded : File :=
  { Name := NewIdent "mypackage"
    Decls := [Decl.GenDecl (GenDecl.mk Token.TYPE [specCoded])]
    Nodes := [Node.Spec specCoded] }

/-- A parser that yields `fileCoded` for every source text. -/
def parseCoded : List Nat → Except Err File :=
  fun _ => Except.ok fileCoded

/-- The qualified name `io.Reader`. -/
def tIoReader : Expr :=
  Expr.SelectorExpr (Expr.Ident (NewIdent "io")) (NewIdent "Reader")

/-- The type spec `type Fetcher interface { Name() string; Body() io.Reader }`:
the second method has a result of qualified type. -/
def specFetcher : Spec :=
  Spec.TypeSpec { Name := "Fetcher", Obj := some (typeObj "Fetcher" 0) }
    (Expr.InterfaceType
      [Field.mk [NewIdent "Name"] (Expr.FuncType (FuncType.mk (some [])
        (some [Field.mk [] tString]))),
       Field.mk [NewIdent "Body"] (Expr.FuncType (FuncType.mk (some [])
        (some [Field.mk [] tIoReader])))])

/-- A file that declares `Fetcher`, parsed. -/
def fileFetcher : File :=
  { Name := NewIdent "mypackage"
    Decls := [Decl.GenDecl (GenDecl.mk Token.TYPE [specFetcher])]
    Nodes := [Node.Spec specFetcher] }

/-- A parser that yields `fileFetcher` for every source text. -/
def parseFetcher : List Nat → Except Err File :=
  fun _ => Except.ok fileFetcher

/-- The type spec `type ReadFlusher interface { io.Reader; Flush() error }`: the
first member is an embedded qualified name. -/
def specReadFlusher : Spec :=
  Spec.TypeSpec { Name := "ReadFlusher", Obj := some (typeObj "ReadFlusher" 0) }
    (Expr.InterfaceType
      [Field.mk [] tIoReader,
       Field.mk [NewIdent "Flush"] (Expr.FuncType (FuncType.mk (some [])
        (some [Field.mk [] tError])))])

/-- A file that declares `ReadFlusher`, parsed. -/
def fileReadFlusher : File :=
  { Name := NewIdent "mypackage"
    Decls := [Decl.GenDecl (GenDecl.mk Token.TYPE [specReadFlusher])]
    Nodes := [Node.Spec specReadFlusher] }

/-- A parser that yields `fileReadFlusher` for every source text. -/
def parseReadFlusher : List Nat → Except Err File :=
  fun _ => Except.ok fileReadFlusher

/-- The type spec `type Shape interface { Area() int }` at package level. -/
def specShape : Spec :=
  Spec.TypeSpec { Name := "Shape", Obj := some (typeObj "Shape" 0) }
    (Expr.InterfaceType
      [Field.mk [NewIdent "Area"] (Expr.FuncType (FuncType.mk (some [])
        (some [Field.mk [] tInt])))])

/-- The type spec `type Shape struct{}` inside a function body. -/
def specShapeLocal : Spec :=
  Spec.TypeSpec { Name := "Shape", Obj := some (typeObj "Shape" 1) } (Expr.StructType [])

/-- The function `func render() { type Shape struct{} }`. -/
def declRender : Decl :=
  Decl.FuncDecl
    { Recv := none
      Name := NewIdent "render"
      Typ := FuncType.mk (some []) none
      Body := some [Stmt.DeclStmt (GenDecl.mk Token.TYPE [specShapeLocal])] }

/-- The file `type Shape interface { Area() int }; func render() { type Shape struct{} }`,
parsed: the local type comes after the package-level interface. -/
def fileShapeAfter : File :=
  { Name := NewIdent "mypackage"
    Decls := [Decl.GenDecl (GenDecl.mk Token.TYPE [specShape]), declRender]
    Nodes := [Node.Spec specShape, Node.Spec specShapeLocal] }

/-- A parser that yields `fileShapeAfter` for every source text. -/
def parseShapeAfter : List Nat → Except Err File :=
  fun _ => Except.ok fileShapeAfter

/-- The file `func render() { type Shape struct{} }; type Shape interface { Area() int }`,
parsed: the local type comes before the package-level interface. -/
def fileShapeBefore : File :=
  { Name := NewIdent "mypackage"
    Decls := [declRender, Decl.GenDecl (GenDecl.mk Token.TYPE [specShape])]
    Nodes := [Node.Spec specShape, Node.Spec specShapeLocal] }

/-- A parser that yields `fileShapeBefore` for every source text. -/
def parseShapeBefore : List Nat → Except Err File :=
  fun _ => Except.ok fileShapeBefore

/-- The type spec
`type Sender interface { Send(m string) error; Set(val1 int) error; Move(x, x int) }`:
a parameter named like the receiver of `myStruct`, a parameter named like the
first local variable, and a parameter name used twice. -/
def specSender : Spec :=
  Spec.TypeSpec { Name := "Sender", Obj := some (typeObj "Sender" 0) }
    (Expr.InterfaceType
      [Field.mk [NewIdent "Send"] (Expr.FuncType (FuncType.mk
        (some [Field.mk [NewIdent "m"] tString]) (some [Field.mk [] tError]))),
       Field.mk [NewIdent "Set"] (Expr.FuncType (FuncType.mk
        (some [Field.mk [NewIdent "val1"] tInt]) (some [Field.mk [] tError]))),
       Field.mk [NewIdent "Move"] (Expr.FuncType (FuncType.mk
        (some [Field.mk [NewIdent "x", NewIdent "x"] tInt]) none))])

/-- A file that declares `Sender`, parsed. -/
def fileSender : File :=
  { Name := NewIdent "mypackage"
    Decls := [Decl.GenDecl (GenDecl.mk Token.TYPE [specSender])]
    Nodes := [Node.Spec specSender] }

/-- A parser that yields `fileSender` for every source text. -/
def parseSender : List Nat → Except Err File :=
  fun _ => Except.ok fileSender

/-- The parameter list of `Read(p []byte, _ int)`. -/
def fieldsRead : List Field :=
  [Field.mk [NewIdent "p"] (Expr.ArrayType none (Expr.Ident (NewIdent "byte"))),
   Field.mk [NewIdent "_"] tInt]

/-! ## The loops of `newFuncDecl` in closed form -/

theorem Field.Names_mk (names : List Ident) (typ : Expr) : (Field.mk names typ).Names = names :=
  rfl

theorem isIdent_eq_true (e : Expr) (h : isIdent e = true) : ∃ id, e = Expr.Ident id := by
  cases e <;> simp [isIdent] at h
  exact ⟨_, rfl⟩

theorem Field.Typ_mk (names : List Ident) (typ : Expr) : (Field.mk names typ).Typ = typ :=
  rfl

theorem namedFrom_append (p : Bool) (a b : List (Option Ident × Expr)) (i : Nat) :
    namedFrom p i (a ++ b) = namedFrom p i a ++ namedFrom p (i + a.length) b := by
  induction a generalizing i with
  | nil => simp [namedFrom]
  | cons x xs ih =>
    obtain ⟨nm, t⟩ := x
    simp [namedFrom, ih, Nat.add_assoc, Nat.add_comm 1]

theorem paramNames_eq (p : Bool) (typ : Expr) (ids : List Ident) (fl : List Field) (i : Nat) :
    paramNames p typ ids (fl, i)
      = (fl ++ namedFrom p i (ids.map (fun id => (some id, typ))), i + ids.length) := by
  induction ids generalizing fl i with
  | nil => simp [paramNames, namedFrom]
  | cons id rest ih =>
    simp only [paramNames, ih, List.map_cons, namedFrom, paramName, List.length_cons,
      List.append_assoc, List.singleton_append]
    simp [Nat.add_assoc, Nat.add_comm 1]

theorem paramFields_eq (p : Bool) (l : List Field) (fl : List Field) (i : Nat) :
    paramFields p l (fl, i)
      = (fl ++ namedFrom p i (splitFields l), i + (splitFields l).length) := by
  induction l generalizing fl i with
  | nil => simp [paramFields, splitFields, namedFrom]
  | cons f rest ih =>
    by_cases h : f.Names.length = 0
    · have h0 : ¬ f.Names.length > 0 := by omega
      simp only [paramFields, h0, if_false, ih, splitFields, h, if_true, namedFrom_append,
        namedFrom, paramName, List.length_cons, List.length_nil, List.append_assoc,
        List.singleton_append, List.length_append]
      simp [Nat.add_assoc, Nat.add_comm 1]
    · have h0 : f.Names.length > 0 := by omega
      simp only [paramFields, h0, if_true, paramNames_eq, ih, splitFields, h, if_false,
        namedFrom_append, List.length_map, List.append_assoc, List.length_append]
      simp [Nat.add_assoc]

theorem length_splitFields (l : List Field) : (splitFields l).length = NumFields (some l) := by
  induction l with
  | nil => simp [splitFields, NumFields]
  | cons f rest ih =>
    simp only [NumFields] at ih
    by_cases h : f.Names.length = 0
    · simp only [splitFields, NumFields, h, if_true, List.length_append, List.length_cons,
        List.length_nil, List.map_cons, List.sum_cons, ih]
    · simp only [splitFields, NumFields, h, if_false, List.length_append, List.length_map,
        List.map_cons, List.sum_cons, ih]

theorem namedFrom_getElem? (p : Bool) (xs : List (Option Ident × Expr)) (i k : Nat) :
    (namedFrom p i xs)[k]?
      = xs[k]?.map (fun x => Field.mk [NewIdent (paramName p (i + k + 1) x.1)] x.2) := by
  induction xs generalizing i k with
  | nil => simp [namedFrom]
  | cons x r ih =>
    obtain ⟨nm, t⟩ := x
    cases k with
    | zero => simp [namedFrom]
    | succ k =>
      simp only [namedFrom, List.getElem?_cons_succ, ih]
      have : i + 1 + k + 1 = i + (k + 1) + 1 := by omega
      rw [this]

theorem declsFrom_append (a b : List Ident) (i : Nat) :
    declsFrom i (a ++ b) = declsFrom i a ++ declsFrom (i + a.length) b := by
  induction a generalizing i with
  | nil => simp [declsFrom]
  | cons x xs ih => simp [declsFrom, ih, Nat.add_assoc, Nat.add_comm 1]

theorem refsFrom_add (i m n : Nat) :
    refsFrom i (m + n) = refsFrom i m ++ refsFrom (i + m) n := by
  induction m generalizing i with
  | zero => simp [refsFrom]
  | succ m ih =>
    have : m + 1 + n = (m + n) + 1 := by omega
    rw [this]
    simp [refsFrom, ih, Nat.add_assoc, Nat.add_comm 1]

theorem recordField_ident (field : Field) (id : Ident) (st : ResultState)
    (h : field.Typ = Expr.Ident id) :
    recordField field st = .ret
      { i := st.i + 1
        fl := st.fl ++ [Field.mk [] (Expr.Ident id)]
        stmts := st.stmts ++ declsFrom st.i [id]
        returns := st.returns ++ refsFrom st.i 1 } := by
  simp [recordField, h, declsFrom, refsFrom, varDecl, valRef, Sprintf]

theorem recordMore_ident (field : Field) (id : Ident) (h : field.Typ = Expr.Ident id)
    (n : Nat) (st : ResultState) :
    recordMore field n st = .ret
      { i := st.i + n
        fl := st.fl ++ List.replicate n (Field.mk [] (Expr.Ident id))
        stmts := st.stmts ++ declsFrom st.i (List.replicate n id)
        returns := st.returns ++ refsFrom st.i n } := by
  induction n generalizing st with
  | zero => simp [recordMore, declsFrom, refsFrom]
  | succ n ih =>
    simp only [recordMore, recordField_ident field id st h, ih, List.replicate_succ,
      declsFrom, refsFrom, List.append_assoc, List.singleton_append, List.nil_append]
    simp [Nat.add_assoc, Nat.add_comm 1]

theorem splitTypes_cons (f : Field) (rest : List Field) :
    splitTypes (f :: rest)
      = List.replicate (if f.Names.length = 0 then 1 else f.Names.length) f.Typ
          ++ splitTypes rest := by
  by_cases h : f.Names.length = 0
  · simp [splitTypes, splitFields, h]
  · simp only [splitTypes, splitFields, h, if_false, List.map_append, List.map_map]
    congr 1
    apply List.ext_getElem?
    intro k
    simp only [List.getElem?_map, List.getElem?_replicate]
    by_cases hk : k < f.Names.length
    · simp [hk, List.getElem?_eq_getElem hk]
    · simp [hk, List.getElem?_eq_none (Nat.le_of_not_lt hk)]

theorem length_splitTypes (l : List Field) : (splitTypes l).length = NumFields (some l) := by
  simp [splitTypes, length_splitFields]

theorem splitTypes_simple (l : List Field) (h : SimpleTypes l) :
    splitTypes l = (resultIdents l).map Expr.Ident := by
  induction l with
  | nil => simp [splitTypes, splitFields, resultIdents]
  | cons f rest ih =>
    have hrest : SimpleTypes rest := fun g hg => h g (List.mem_cons_of_mem _ hg)
    obtain ⟨id, hid⟩ := isIdent_eq_true _ (h f (List.mem_cons_self _ _))
    rw [splitTypes_cons, ih hrest]
    simp [resultIdents, hid]

theorem resultFields_simple (l : List Field) (h : SimpleTypes l) (st : ResultState) :
    resultFields l st = .ret
      { i := st.i + (resultIdents l).length
        fl := st.fl ++ (resultIdents l).map (fun id => Field.mk [] (Expr.Ident id))
        stmts := st.stmts ++ declsFrom st.i (resultIdents l)
        returns := st.returns ++ refsFrom st.i (resultIdents l).length } := by
  induction l generalizing st with
  | nil => simp [resultFields, resultIdents, declsFrom, refsFrom]
  | cons f rest ih =>
    have hrest : SimpleTypes rest := fun g hg => h g (List.mem_cons_of_mem _ hg)
    obtain ⟨id, hid⟩ := isIdent_eq_true _ (h f (List.mem_cons_self _ _))
    have hc : (if f.Names.length = 0 then 1 else f.Names.length) = 1 + (f.Names.length - 1) := by
      split <;> omega
    have hids : resultIdents (f :: rest)
        = ([id] ++ List.replicate (f.Names.length - 1) id) ++ resultIdents rest := by
      simp only [resultIdents, hid, hc, List.replicate_add, List.replicate_one]
    rw [hids]
    simp only [resultFields, recordField_ident f id st hid, recordMore_ident f id hid,
      ih hrest, List.length_append, List.length_replicate, List.map_append,
      List.map_replicate, declsFrom_append, refsFrom_add, List.append_assoc,
      List.length_cons, List.length_nil, List.map_cons, List.map_nil, Nat.add_assoc,
      Nat.zero_add]

/-! ## `newFuncDecl` in closed form -/

theorem newParams_eq (params : Option (List Field)) (p : Bool) :
    newParams params p
      = if NumFields params > 0 then some (namedFrom p 0 (splitFields (params.getD [])))
        else none := by
  cases params with
  | none => simp [newParams, NumFields]
  | some l => simp [newParams, paramFields_eq]

theorem newFuncDecl_no_results (recvObj structObj : Object) (funcName : String)
    (params results : Option (List Field)) (p : Bool) (h : NumFields results = 0) :
    newFuncDecl recvObj structObj funcName params results p = .ret
      { Recv := some [Field.mk [{ Name := recvObj.Name, Obj := some recvObj }]
          (Expr.StarExpr (Expr.Ident { Name := structObj.Name, Obj := some structObj }))]
        Name := NewIdent funcName
        Typ := FuncType.mk (newParams params p) none
        Body := some [] } := by
  simp [newFuncDecl, h]

theorem newFuncDecl_simple (recvObj structObj : Object) (funcName : String)
    (params : Option (List Field)) (l : List Field) (p : Bool)
    (h : NumFields (some l) > 0) (hs : SimpleTypes l) :
    newFuncDecl recvObj structObj funcName params (some l) p = .ret
      { Recv := some [Field.mk [{ Name := recvObj.Name, Obj := some recvObj }]
          (Expr.StarExpr (Expr.Ident { Name := structObj.Name, Obj := some structObj }))]
        Name := NewIdent funcName
        Typ := FuncType.mk (newParams params p)
          (some ((resultIdents l).map (fun id => Field.mk [] (Expr.Ident id))))
        Body := some (declsFrom 0 (resultIdents l)
          ++ [Stmt.ReturnStmt (refsFrom 0 (resultIdents l).length)]) } := by
  simp [newFuncDecl, h, resultFields_simple l hs]

/-- Whatever `newFuncDecl` returns carries the receiver of lines 133-151, the
name `funcName` and the parameter list of lines 159-189. -/
theorem newFuncDecl_ret (recvObj structObj : Object) (funcName : String)
    (params results : Option (List Field)) (p : Bool) (fd : FuncDecl)
    (h : newFuncDecl recvObj structObj funcName params results p = .ret fd) :
    fd.Recv = some [Field.mk [{ Name := recvObj.Name, Obj := some recvObj }]
        (Expr.StarExpr (Expr.Ident { Name := structObj.Name, Obj := some structObj }))]
      ∧ fd.Name = NewIdent funcName ∧ fd.Typ.Params = newParams params p := by
  unfold newFuncDecl at h
  split at h
  · split at h
    · split at h
      · simp only [Outcome.ret.injEq] at h
        subst h
        simp [FuncType.Params]
      · simp at h
      · simp at h
    · simp at h
  · simp only [Outcome.ret.injEq] at h
    subst h
    simp [FuncType.Params]

theorem length_resultIdents (l : List Field) (hs : SimpleTypes l) :
    (resultIdents l).length = NumFields (some l) := by
  rw [← length_splitTypes, splitTypes_simple l hs, List.length_map]

theorem declsFrom_getElem? (ids : List Ident) (i k : Nat) :
    (declsFrom i ids)[k]? = ids[k]?.map (fun id => varDecl (i + k + 1) id.Name) := by
  induction ids generalizing i k with
  | nil => simp [declsFrom]
  | cons x r ih =>
    cases k with
    | zero => simp [declsFrom]
    | succ k =>
      simp only [declsFrom, List.getElem?_cons_succ, ih]
      have : i + 1 + k + 1 = i + (k + 1) + 1 := by omega
      rw [this]

theorem length_declsFrom (ids : List Ident) (i : Nat) :
    (declsFrom i ids).length = ids.length := by
  induction ids generalizing i with
  | nil => simp [declsFrom]
  | cons x r ih => simp [declsFrom, ih]

theorem refsFrom_eq_map (i n : Nat) :
    refsFrom i n = (List.range n).map (fun j => valRef (i + j + 1)) := by
  induction n generalizing i with
  | zero => simp [refsFrom]
  | succ n ih =>
    rw [refsFrom, ih, List.range_succ_eq_map]
    simp only [List.map_cons, List.map_map, Nat.add_zero]
    congr 1
    apply List.map_congr_left
    intro j _
    simp only [Function.comp]
    congr 1
    omega
/-! ## `getFuncDecls` and `Pour` -/

/-- A method whose result types are identifiers is synthesized: `newFuncDecl`
returns, and the declaration carries the name of the method. -/
theorem newFuncDecl_total (recvObj structObj : Object) (funcName : String)
    (params results : Option (List Field)) (p : Bool)
    (hs : SimpleTypes (results.getD [])) :
    ∃ fd, newFuncDecl recvObj structObj funcName params results p = .ret fd ∧
      fd.Name = NewIdent funcName := by
  by_cases h : NumFields results > 0
  · cases results with
    | none => simp [NumFields] at h
    | some l => exact ⟨_, newFuncDecl_simple _ _ _ _ l p h hs, rfl⟩
  · exact ⟨_, newFuncDecl_no_results _ _ _ _ _ _ (by omega), rfl⟩

/-- A method whose result types are identifiers is synthesized. -/
theorem newFuncDecl_returns (recvObj structObj : Object) (funcName : String)
    (params results : Option (List Field)) (p : Bool)
    (hs : SimpleTypes (results.getD [])) :
    ∃ fd, newFuncDecl recvObj structObj funcName params results p = .ret fd :=
  (newFuncDecl_total recvObj structObj funcName params results p hs).imp fun _ h => h.1

/-- The loop over the members computes the flattening, provided the recursive
call does. -/
theorem rangeMethods_flatten (structObj recvObj : Object) (p : Bool)
    (resolve : Object → Option (List (String × FuncType)))
    (recur : Object → Outcome (List FuncDecl))
    (hrec : ∀ o js, resolve o = some js → SimpleResults js →
      ∃ fds, recur o = .ret fds ∧ fds.map (fun fd => fd.Name) = js.map (fun m => NewIdent m.1))
    (members : List Field) :
    ∀ (ms : List (String × FuncType)) (acc : List FuncDecl),
      flattenMembers resolve members = some ms → SimpleResults ms →
      ∃ fds, rangeMethods structObj recvObj p recur members acc = .ret (acc ++ fds) ∧
        fds.map (fun fd => fd.Name) = ms.map (fun m => NewIdent m.1) := by
  induction members with
  | nil =>
    intro ms acc h _
    simp only [flattenMembers, Option.some.injEq] at h
    subst h
    exact ⟨[], by simp [rangeMethods], rfl⟩
  | cons field rest ih =>
    intro ms acc h hs
    obtain ⟨names, typ⟩ := field
    cases typ with
    | FuncType t =>
      match names, h with
      | [name], h =>
        simp only [flattenMembers] at h
        cases hr : flattenMembers resolve rest with
        | none => simp [hr] at h
        | some r =>
          simp only [hr, Option.some.injEq] at h
          subst h
          have hsr : SimpleResults r := fun m hm => hs m (List.mem_cons_of_mem _ hm)
          have hst : SimpleTypes (t.Results.getD []) := hs (name.Name, t) (List.mem_cons_self _ _)
          obtain ⟨fd, hfd, hname⟩ :=
            newFuncDecl_total recvObj structObj name.Name t.Params t.Results p hst
          obtain ⟨fds, hfds, hnames⟩ := ih r (acc ++ [fd]) hr hsr
          refine ⟨fd :: fds, ?_, ?_⟩
          · simp only [rangeMethods, Field.Typ_mk, Field.Names_mk, hfd, hfds,
              List.append_assoc, List.singleton_append]
          · simp [hname, hnames]
      | [], h => simp [flattenMembers] at h
      | _ :: _ :: _, h => simp [flattenMembers] at h
    | Ident v =>
      obtain ⟨vname, vobj⟩ := v
      cases vobj with
      | none => simp [flattenMembers] at h
      | some o =>
        simp only [flattenMembers] at h
        cases hj : resolve o with
        | none => simp [hj] at h
        | some js =>
          cases hr : flattenMembers resolve rest with
          | none => simp [hj, hr] at h
          | some r =>
            simp only [hj, hr, Option.some.injEq] at h
            subst h
            have hsj : SimpleResults js := fun m hm => hs m (List.mem_append_left _ hm)
            have hsr : SimpleResults r := fun m hm => hs m (List.mem_append_right _ hm)
            obtain ⟨fdj, hfdj, hnj⟩ := hrec o js hj hsj
            obtain ⟨fds, hfds, hnames⟩ := ih r (acc ++ fdj) hr hsr
            refine ⟨fdj ++ fds, ?_, ?_⟩
            · simp only [rangeMethods, Field.Typ_mk, hfdj, hfds, List.append_assoc]
            · simp [hnj, hnames]
    | _ => simp [flattenMembers] at h

/-- With a recursion budget of at least the depth of the embedding,
`getFuncDecls` returns the flattening. -/
theorem getFuncDecls_flatten (nodes : List Node) (structObj recvObj : Object) (p : Bool) :
    ∀ (depth : Nat) (o : Object) (ms : List (String × FuncType)),
      resolveMethods nodes depth o = some ms → SimpleResults ms →
      ∀ fuel, depth ≤ fuel →
        ∃ fds, getFuncDecls nodes structObj recvObj p fuel o = .ret fds ∧
          fds.map (fun fd => fd.Name) = ms.map (fun m => NewIdent m.1) := by
  intro depth
  induction depth with
  | zero => intro o ms h; simp [resolveMethods] at h
  | succ d ih =>
    intro o ms h hs fuel hfuel
    obtain ⟨k, rfl⟩ : ∃ k, fuel = k + 1 := ⟨fuel - 1, by omega⟩
    have hk : d ≤ k := by omega
    simp only [resolveMethods] at h
    simp only [getFuncDecls]
    split at h
    · rename_i name members heq
      obtain ⟨fds, hfds, hnames⟩ := rangeMethods_flatten structObj recvObj p
        (resolveMethods nodes d) (getFuncDecls nodes structObj recvObj p k)
        (fun o2 js h2 hs2 => ih o2 js h2 hs2 k hk) members ms [] h hs
      exact ⟨fds, by simpa using hfds, hnames⟩
    · simp at h

/-- The flattening of a member list of direct methods is the list of their
signatures, whatever `resolve` is. -/
theorem flattenMembers_direct (resolve : Object → Option (List (String × FuncType)))
    (sigs : List (Ident × FuncType)) :
    flattenMembers resolve (sigs.map (fun s => Field.mk [s.1] (Expr.FuncType s.2)))
      = some (sigs.map (fun s => (s.1.Name, s.2))) := by
  induction sigs with
  | nil => rfl
  | cons s r ih => simp [flattenMembers, ih]

/-- What a call of `Pour` that returns without error went through. -/
theorem Pour_ok (ParseFile : List Nat → Except Err File) (fuel : Nat) (src : List Nat)
    (interfaceName structName : String) (opts : Opts) (g : Option GenDecl)
    (fds : List FuncDecl)
    (h : Pour ParseFile fuel src interfaceName structName opts = .ret (g, fds, none)) :
    ∃ f obj b, interfaceName ≠ "" ∧ ParseFile src = .ok f ∧
      inspectFile f interfaceName = some obj ∧ firstByte structName = .ret b ∧
      getFuncDecls f.Nodes (NewObj ObjKind.Typ structName)
        (NewObj ObjKind.Typ (byteToString b)) opts.PreserveParamNames fuel obj = .ret fds ∧
      g = some (GenDecl.mk Token.TYPE
        [Spec.TypeSpec { Name := structName, Obj := some (NewObj ObjKind.Typ structName) }
          (Expr.StructType [])]) := by
  unfold Pour at h
  split at h
  · simp at h
  · rename_i hname
    split at h
    · simp at h
    · rename_i f hparse
      split at h
      · simp at h
      · rename_i obj hobj
        simp only at h
        split at h
        · simp at h
        · simp at h
        · rename_i b hb
          split at h
          · rename_i funcDecls hget
            simp only [Outcome.ret.injEq, Prod.mk.injEq, and_true] at h
            obtain ⟨hg, hf⟩ := h
            subst hf
            exact ⟨f, obj, b, hname, hparse, hobj, hb, hget, hg.symm⟩
          · simp at h
          · simp at h

/-- A call of `Pour` on a name that the walk finds, with a struct name that has
a first byte, returns what `getFuncDecls` returns. -/
theorem Pour_of_getFuncDecls (ParseFile : List Nat → Except Err File) (fuel : Nat)
    (src : List Nat) (interfaceName structName : String) (opts : Opts) (f : File)
    (obj : Object) (b : Nat) (fds : List FuncDecl)
    (hname : interfaceName ≠ "") (hparse : ParseFile src = .ok f)
    (hobj : inspectFile f interfaceName = some obj) (hb : firstByte structName = .ret b)
    (hget : getFuncDecls f.Nodes (NewObj ObjKind.Typ structName)
      (NewObj ObjKind.Typ (byteToString b)) opts.PreserveParamNames fuel obj = .ret fds) :
    Pour ParseFile fuel src interfaceName structName opts = .ret
      (some (GenDecl.mk Token.TYPE
        [Spec.TypeSpec { Name := structName, Obj := some (NewObj ObjKind.Typ structName) }
          (Expr.StructType [])]), fds, none) := by
  simp only [Pour, hname, if_false, hparse, hobj, hb, hget]
  rfl

/-- A struct name that is not empty has a first byte. -/
theorem firstByte_of_ne (s : String) (h : s ≠ "") : ∃ b, firstByte s = .ret b := by
  unfold firstByte
  cases hd : s.data with
  | nil =>
    exfalso
    apply h
    exact String.ext hd
  | cons c cs => exact ⟨_, rfl⟩

/-- A property of every declaration that `newFuncDecl` returns holds for every
declaration that the loop over the members appends. -/
theorem rangeMethods_forall (structObj recvObj : Object) (p : Bool)
    (recur : Object → Outcome (List FuncDecl)) (P : FuncDecl → Prop)
    (hnew : ∀ name params results fd,
      newFuncDecl recvObj structObj name params results p = .ret fd → P fd)
    (hrec : ∀ o fds, recur o = .ret fds → ∀ fd ∈ fds, P fd)
    (members : List Field) :
    ∀ (acc out : List FuncDecl), (∀ fd ∈ acc, P fd) →
      rangeMethods structObj recvObj p recur members acc = .ret out → ∀ fd ∈ out, P fd := by
  induction members with
  | nil =>
    intro acc out hacc h
    simp only [rangeMethods, Outcome.ret.injEq] at h
    subst h
    exact hacc
  | cons field rest ih =>
    intro acc out hacc h
    obtain ⟨names, typ⟩ := field
    cases typ with
    | FuncType t =>
      cases names with
      | nil => simp [rangeMethods, Field.Typ_mk, Field.Names_mk] at h
      | cons name more =>
        simp only [rangeMethods, Field.Typ_mk, Field.Names_mk] at h
        split at h
        · rename_i fd hfd
          refine ih _ out ?_ h
          intro x hx
          rcases List.mem_append.mp hx with hx | hx
          · exact hacc x hx
          · rw [List.mem_singleton.mp hx]
            exact hnew _ _ _ _ hfd
        · simp at h
        · simp at h
    | Ident v =>
      simp only [rangeMethods, Field.Typ_mk] at h
      split at h
      · simp at h
      · rename_i o ho
        split at h
        · rename_i fds hfds
          refine ih _ out ?_ h
          intro x hx
          rcases List.mem_append.mp hx with hx | hx
          · exact hacc x hx
          · exact hrec o fds hfds x hx
        · simp at h
        · simp at h
    | _ =>
      simp only [rangeMethods, Field.Typ_mk] at h
      exact ih acc out hacc h

/-- A property of every declaration that `newFuncDecl` returns holds for every
declaration that `getFuncDecls` returns, those of embedded interfaces
included. -/
theorem getFuncDecls_forall (nodes : List Node) (structObj recvObj : Object) (p : Bool)
    (P : FuncDecl → Prop)
    (hnew : ∀ name params results fd,
      newFuncDecl recvObj structObj name params results p = .ret fd → P fd) :
    ∀ (fuel : Nat) (o : Object) (fds : List FuncDecl),
      getFuncDecls nodes structObj recvObj p fuel o = .ret fds → ∀ fd ∈ fds, P fd := by
  intro fuel
  induction fuel with
  | zero => intro o fds h; simp [getFuncDecls] at h
  | succ k ih =>
    intro o fds h
    simp only [getFuncDecls] at h
    split at h
    · exact rangeMethods_forall structObj recvObj p _ P hnew ih _ [] fds
        (fun _ hx => absurd hx (List.not_mem_nil _)) h
    · simp at h

/-- Every declaration that a successful `Pour` returns has the receiver list
of lines 133-151: one field with one name, the text `string(structName[0])`,
and the type `*structName`. -/
theorem Pour_receiver (ParseFile : List Nat → Except Err File) (fuel : Nat) (src : List Nat)
    (interfaceName structName : String) (opts : Opts) (g : Option GenDecl)
    (fds : List FuncDecl)
    (h : Pour ParseFile fuel src interfaceName structName opts = .ret (g, fds, none)) :
    ∃ b, firstByte structName = .ret b ∧ ∀ fd ∈ fds,
      fd.Recv = some [Field.mk
        [{ Name := byteToString b, Obj := some (NewObj ObjKind.Typ (byteToString b)) }]
        (Expr.StarExpr (Expr.Ident
          { Name := structName, Obj := some (NewObj ObjKind.Typ structName) }))] := by
  obtain ⟨f, obj, b, _, _, _, hb, hget, _⟩ := Pour_ok _ _ _ _ _ _ _ _ h
  refine ⟨b, hb, ?_⟩
  exact getFuncDecls_forall f.Nodes _ _ _ _
    (fun name params results fd hfd => (newFuncDecl_ret _ _ _ _ _ _ _ hfd).1) fuel obj fds hget

/-- The first byte of a text that starts with an ASCII character is that
character, and `string` of it is the text made of that character. -/
theorem firstByte_ascii (c : Char) (cs : List Char) (h : c.toNat < 128) :
    firstByte (String.mk (c :: cs)) = .ret c.toNat ∧
      byteToString c.toNat = String.singleton c := by
  refine ⟨by simp [firstByte, leadByte, h], ?_⟩
  simp [byteToString]

/-- Every declaration that a successful `Pour` returns, those of embedded
interfaces included, is what `newFuncDecl` returns for some method name and
signature, with the receiver object and the struct object of lines 54-55. -/
theorem Pour_funcDecls_origin (ParseFile : List Nat → Except Err File) (fuel : Nat)
    (src : List Nat) (interfaceName structName : String) (opts : Opts) (g : Option GenDecl)
    (fds : List FuncDecl)
    (h : Pour ParseFile fuel src interfaceName structName opts = .ret (g, fds, none)) :
    ∃ b, firstByte structName = .ret b ∧ ∀ fd ∈ fds, ∃ name params results,
      newFuncDecl (NewObj ObjKind.Typ (byteToString b)) (NewObj ObjKind.Typ structName)
        name params results opts.PreserveParamNames = .ret fd := by
  obtain ⟨f, obj, b, _, _, _, hb, hget, _⟩ := Pour_ok _ _ _ _ _ _ _ _ h
  refine ⟨b, hb, ?_⟩
  exact getFuncDecls_forall f.Nodes _ _ _ _
    (fun name params results fd hfd => ⟨name, params, results, hfd⟩) fuel obj fds hget

/-! ## The loop over the members, member by member -/

theorem rangeMethods_cons (structObj recvObj : Object) (p : Bool)
    (recur : Object → Outcome (List FuncDecl)) (field : Field) (rest : List Field)
    (acc : List FuncDecl) :
    rangeMethods structObj recvObj p recur (field :: rest) acc
      = match memberDecls structObj recvObj p recur field with
        | .ret part => rangeMethods structObj recvObj p recur rest (acc ++ part)
        | .panic msg => .panic msg
        | .nofuel => .nofuel := by
  obtain ⟨names, typ⟩ := field
  cases typ with
  | FuncType v =>
    cases names with
    | nil => simp [rangeMethods, memberDecls, Field.Typ_mk, Field.Names_mk]
    | cons name more =>
      simp only [rangeMethods, memberDecls, Field.Typ_mk, Field.Names_mk]
      cases newFuncDecl recvObj structObj name.Name v.Params v.Results p <;> rfl
  | Ident v =>
    simp only [rangeMethods, memberDecls, Field.Typ_mk]
    cases v.Obj with
    | none => rfl
    | some o => cases recur o <;> rfl
  | _ => simp [rangeMethods, memberDecls, Field.Typ_mk]

/-- The loop over the members returns exactly when every member yields its
declarations, and it returns them in the order of the members. -/
theorem rangeMethods_ret_iff (structObj recvObj : Object) (p : Bool)
    (recur : Object → Outcome (List FuncDecl)) (members : List Field) :
    ∀ (acc out : List FuncDecl),
      rangeMethods structObj recvObj p recur members acc = .ret out ↔
      ∃ parts, List.Forall₂
          (fun field part => memberDecls structObj recvObj p recur field = .ret part)
          members parts ∧
        out = acc ++ parts.flatten := by
  induction members with
  | nil =>
    intro acc out
    constructor
    · intro h
      simp only [rangeMethods, Outcome.ret.injEq] at h
      exact ⟨[], List.Forall₂.nil, by simp [h]⟩
    · rintro ⟨parts, hf, rfl⟩
      cases hf
      simp [rangeMethods]
  | cons field rest ih =>
    intro acc out
    rw [rangeMethods_cons]
    constructor
    · intro h
      cases hm : memberDecls structObj recvObj p recur field with
      | ret part =>
        rw [hm] at h
        obtain ⟨parts, hf, hout⟩ := (ih _ _).mp h
        exact ⟨part :: parts, List.Forall₂.cons hm hf, by simp [hout]⟩
      | panic msg => rw [hm] at h; simp at h
      | nofuel => rw [hm] at h; simp at h
    · rintro ⟨parts, hf, rfl⟩
      cases hf with
      | cons hm hrest =>
        rw [hm]
        exact (ih _ _).mpr ⟨_, hrest, by simp⟩

theorem getFuncDecls_succ (nodes : List Node) (structObj recvObj : Object) (p : Bool)
    (k : Nat) (o : Object) :
    getFuncDecls nodes structObj recvObj p (k + 1) o
      = match membersOf nodes o with
        | some members =>
          rangeMethods structObj recvObj p (getFuncDecls nodes structObj recvObj p k) members []
        | none => .panic "not ok" := by
  simp only [getFuncDecls, membersOf]
  split <;> simp_all

/-- A call of `getFuncDecls` that returns was made on an object that declares
an interface, with a recursion budget of at least one, and it returns the
declarations of the members of that interface, member by member. -/
theorem getFuncDecls_ret_iff (nodes : List Node) (structObj recvObj : Object) (p : Bool)
    (fuel : Nat) (o : Object) (fds : List FuncDecl) :
    getFuncDecls nodes structObj recvObj p fuel o = .ret fds ↔
    ∃ k members parts, fuel = k + 1 ∧ membersOf nodes o = some members ∧
      List.Forall₂
        (fun field part => memberDecls structObj recvObj p
          (getFuncDecls nodes structObj recvObj p k) field = .ret part)
        members parts ∧
      fds = parts.flatten := by
  cases fuel with
  | zero => simp [getFuncDecls]
  | succ k =>
    rw [getFuncDecls_succ]
    cases hm : membersOf nodes o with
    | none => simp
    | some members =>
      simp only [rangeMethods_ret_iff, List.nil_append]
      constructor
      · rintro ⟨parts, hf, rfl⟩
        exact ⟨k, members, parts, rfl, rfl, hf, rfl⟩
      · rintro ⟨k2, members2, parts, hk, hmem, hf, rfl⟩
        obtain rfl : k = k2 := by omega
        obtain rfl : members = members2 := Option.some.inj hmem
        exact ⟨parts, hf, rfl⟩

/-- The declaration of a method is synthesized only if its result types are
identifiers. -/
theorem recordField_ret (field : Field) (st st2 : ResultState)
    (h : recordField field st = .ret st2) : isIdent field.Typ = true := by
  unfold recordField at h
  split at h
  · rename_i varType heq
    simp [heq, isIdent]
  · simp at h

theorem resultFields_ret (l : List Field) :
    ∀ (st st2 : ResultState), resultFields l st = .ret st2 → SimpleTypes l := by
  induction l with
  | nil => intro _ _ _ f hf; simp at hf
  | cons field rest ih =>
    intro st st2 h
    simp only [resultFields] at h
    split at h
    · rename_i st1 h1
      split at h
      · rename_i st3 h3
        intro f hf
        rcases List.mem_cons.mp hf with rfl | hf
        · exact recordField_ret _ _ _ h1
        · exact ih _ _ h f hf
      · simp at h
      · simp at h
    · simp at h
    · simp at h

theorem newFuncDecl_ret_simple (recvObj structObj : Object) (funcName : String)
    (params results : Option (List Field)) (p : Bool) (fd : FuncDecl)
    (h : newFuncDecl recvObj structObj funcName params results p = .ret fd) :
    SimpleTypes (results.getD []) := by
  cases results with
  | none => intro f hf; simp at hf
  | some l =>
    by_cases hn : NumFields (some l) > 0
    · simp only [newFuncDecl, hn, if_true] at h
      split at h
      · rename_i st hst
        exact resultFields_ret l _ _ hst
      · simp at h
      · simp at h
    · have h0 : NumFields (some l) = 0 := by omega
      have hl : (splitFields l).length = 0 := by rw [length_splitFields]; exact h0
      cases l with
      | nil => intro f hf; simp at hf
      | cons f r =>
        exfalso
        simp only [splitFields, List.length_append] at hl
        split at hl
        · simp at hl
        · rename_i hne
          simp only [List.length_map] at hl
          omega

theorem forall₂_exists_of_mem {α β : Type} (R : α → β → Prop) (l1 : List α) (l2 : List β)
    (h : List.Forall₂ R l1 l2) : ∀ a ∈ l1, ∃ b, R a b := by
  induction h with
  | nil => intro a ha; simp at ha
  | cons hab _ ih =>
    intro a ha
    rcases List.mem_cons.mp ha with rfl | ha
    · exact ⟨_, hab⟩
    · exact ih a ha

/-- When `getFuncDecls` returns, none of the members that the resolution meets
is an unresolved embedded identifier or a method with an unsupported result
type. -/
theorem getFuncDecls_ret_members (nodes : List Node) (structObj recvObj : Object) (p : Bool) :
    ∀ (fuel : Nat) (o : Object) (fds : List FuncDecl),
      getFuncDecls nodes structObj recvObj p fuel o = .ret fds →
      ∀ depth, ∀ field ∈ reachMembers nodes depth o,
        ¬ UnresolvedEmbed nodes field ∧ ¬ UnsupportedResult field := by
  intro fuel
  induction fuel with
  | zero => intro o fds h; simp [getFuncDecls] at h
  | succ k ih =>
    intro o fds h depth
    obtain ⟨k2, members, parts, hk, hmem, hf, _⟩ := (getFuncDecls_ret_iff _ _ _ _ _ _ _).mp h
    obtain rfl : k = k2 := by omega
    have hmember : ∀ field ∈ members, ∃ part,
        memberDecls structObj recvObj p (getFuncDecls nodes structObj recvObj p k) field
          = .ret part := by
      exact forall₂_exists_of_mem _ _ _ hf
    cases depth with
    | zero => intro field hfield; simp [reachMembers] at hfield
    | succ d =>
      intro field hfield
      simp only [reachMembers, hmem, List.mem_append, List.mem_flatMap] at hfield
      rcases hfield with hfield | ⟨f, hfm, hfield⟩
      · obtain ⟨part, hpart⟩ := hmember field hfield
        constructor
        · rintro ⟨v, hv, hbad⟩
          simp only [memberDecls, hv] at hpart
          rcases hbad with hnone | ⟨o2, ho2, hmem2⟩
          · simp [hnone] at hpart
          · simp only [ho2] at hpart
            obtain ⟨_, members2, _, _, hm2, _, _⟩ := (getFuncDecls_ret_iff _ _ _ _ _ _ _).mp hpart
            rw [hmem2] at hm2
            exact Option.noConfusion hm2
        · rintro ⟨v, hv, hbad⟩
          simp only [memberDecls, hv] at hpart
          split at hpart
          · simp at hpart
          · split at hpart
            · rename_i fd hfd
              exact hbad (newFuncDecl_ret_simple _ _ _ _ _ _ _ hfd)
            · simp at hpart
            · simp at hpart
      · obtain ⟨part, hpart⟩ := hmember f hfm
        split at hfield
        · rename_i v hv
          split at hfield
          · rename_i o2 ho2
            simp only [memberDecls, hv, ho2] at hpart
            exact ih o2 part hpart d field hfield
          · simp at hfield
        · simp at hfield

/-! ## How the calls end -/

theorem recordField_cases (field : Field) (st : ResultState) :
    (∃ st2, recordField field st = .ret st2) ∨
      recordField field st = .panic "could not get ident for field" := by
  unfold recordField
  split
  · exact Or.inl ⟨_, rfl⟩
  · exact Or.inr rfl

theorem recordMore_cases (field : Field) (n : Nat) :
    ∀ st, (∃ st2, recordMore field n st = .ret st2) ∨
      recordMore field n st = .panic "could not get ident for field" := by
  induction n with
  | zero => intro st; exact Or.inl ⟨st, rfl⟩
  | succ n ih =>
    intro st
    simp only [recordMore]
    rcases recordField_cases field st with ⟨st1, h1⟩ | h1
    · simp only [h1]; exact ih st1
    · simp only [h1]; exact Or.inr trivial

theorem resultFields_cases (l : List Field) :
    ∀ st, (∃ st2, resultFields l st = .ret st2) ∨
      resultFields l st = .panic "could not get ident for field" := by
  induction l with
  | nil => intro st; exact Or.inl ⟨st, rfl⟩
  | cons field rest ih =>
    intro st
    simp only [resultFields]
    rcases recordField_cases field st with ⟨st1, h1⟩ | h1
    · rcases recordMore_cases field (field.Names.length - 1) st1 with ⟨st2, h2⟩ | h2
      · simp only [h1, h2]; exact ih st2
      · simp only [h1, h2]; exact Or.inr trivial
    · simp only [h1]; exact Or.inr trivial

/-- A call of `newFuncDecl` returns a declaration or panics on a result type;
it makes no recursive call. -/
theorem newFuncDecl_cases (recvObj structObj : Object) (funcName : String)
    (params results : Option (List Field)) (p : Bool) :
    (∃ fd, newFuncDecl recvObj structObj funcName params results p = .ret fd) ∨
      newFuncDecl recvObj structObj funcName params results p
        = .panic "could not get ident for field" := by
  cases results with
  | none => exact Or.inl ⟨_, newFuncDecl_no_results _ _ _ _ _ _ rfl⟩
  | some l =>
    by_cases hn : NumFields (some l) > 0
    · simp only [newFuncDecl, hn, if_true]
      rcases resultFields_cases l { i := 0, fl := [], stmts := [], returns := [] }
        with ⟨st, hst⟩ | hst
      · simp only [hst]; exact Or.inl ⟨_, rfl⟩
      · simp only [hst]; exact Or.inr trivial
    · exact Or.inl ⟨_, newFuncDecl_no_results _ _ _ _ _ _ (by omega)⟩

/-- On a method with a result type that is not an identifier `newFuncDecl`
panics. -/
theorem newFuncDecl_unsupported (recvObj structObj : Object) (funcName : String)
    (params results : Option (List Field)) (p : Bool)
    (h : ¬ SimpleTypes (results.getD [])) :
    newFuncDecl recvObj structObj funcName params results p
      = .panic "could not get ident for field" := by
  rcases newFuncDecl_cases recvObj structObj funcName params results p with ⟨fd, hfd⟩ | hp
  · exact absurd (newFuncDecl_ret_simple _ _ _ _ _ _ _ hfd) h
  · exact hp

/-- Members that are synthesized do not change what the loop does with the
members after them. -/
theorem rangeMethods_append (structObj recvObj : Object) (p : Bool)
    (recur : Object → Outcome (List FuncDecl)) (pre rest : List Field) :
    ∀ (acc out : List FuncDecl),
      rangeMethods structObj recvObj p recur pre acc = .ret out →
      rangeMethods structObj recvObj p recur (pre ++ rest) acc
        = rangeMethods structObj recvObj p recur rest out := by
  induction pre with
  | nil =>
    intro acc out h
    simp only [rangeMethods, Outcome.ret.injEq] at h
    simp [h]
  | cons field more ih =>
    intro acc out h
    rw [rangeMethods_cons] at h
    rw [List.cons_append, rangeMethods_cons]
    cases hm : memberDecls structObj recvObj p recur field with
    | ret part => rw [hm] at h; exact ih _ _ h
    | panic msg => rw [hm] at h; simp at h
    | nofuel => rw [hm] at h; simp at h

/-- What `Pour` does once the walk has found an object and the struct name has
a first byte. -/
theorem Pour_found (ParseFile : List Nat → Except Err File) (fuel : Nat)
    (src : List Nat) (interfaceName structName : String) (opts : Opts) (f : File)
    (obj : Object) (b : Nat)
    (hname : interfaceName ≠ "") (hparse : ParseFile src = .ok f)
    (hobj : inspectFile f interfaceName = some obj) (hb : firstByte structName = .ret b) :
    Pour ParseFile fuel src interfaceName structName opts
      = match getFuncDecls f.Nodes (NewObj ObjKind.Typ structName)
          (NewObj ObjKind.Typ (byteToString b)) opts.PreserveParamNames fuel obj with
        | .ret fds => .ret
            (some (GenDecl.mk Token.TYPE
              [Spec.TypeSpec { Name := structName, Obj := some (NewObj ObjKind.Typ structName) }
                (Expr.StructType [])]), fds, none)
        | .panic msg => .panic msg
        | .nofuel => .nofuel := by
  simp only [Pour, hname, if_false, hparse, hobj, hb]
  cases getFuncDecls f.Nodes (NewObj ObjKind.Typ structName)
    (NewObj ObjKind.Typ (byteToString b)) opts.PreserveParamNames fuel obj <;> rfl

/-- What `Pour` does once the walk has found an object: it returns only if
`getFuncDecls` returns. -/
theorem Pour_found_ret (ParseFile : List Nat → Except Err File) (fuel : Nat)
    (src : List Nat) (interfaceName structName : String) (opts : Opts) (f : File)
    (obj : Object) (r : Option GenDecl × List FuncDecl × Option Err)
    (hname : interfaceName ≠ "") (hparse : ParseFile src = .ok f)
    (hobj : inspectFile f interfaceName = some obj)
    (h : Pour ParseFile fuel src interfaceName structName opts = .ret r) :
    ∃ b, firstByte structName = .ret b ∧
      getFuncDecls f.Nodes (NewObj ObjKind.Typ structName)
        (NewObj ObjKind.Typ (byteToString b)) opts.PreserveParamNames fuel obj = .ret r.2.1 := by
  cases hb : firstByte structName with
  | ret b =>
    rw [Pour_found ParseFile fuel src interfaceName structName opts f obj b hname hparse hobj hb]
      at h
    refine ⟨b, rfl, ?_⟩
    split at h
    · rename_i fds hfds
      simp only [Outcome.ret.injEq] at h
      rw [← h, hfds]
    · simp at h
    · simp at h
  | panic msg => simp [Pour, hname, hparse, hobj, hb] at h
  | nofuel => simp [Pour, hname, hparse, hobj, hb] at h

/-- The loop over members that resolve and are followed by a member on which
the pass panics ends in that panic. -/
theorem getFuncDecls_panic_at (nodes : List Node) (structObj recvObj : Object) (p : Bool)
    (o : Object) (pre post : List Field) (bad : Field) (msg : String)
    (depth fuel : Nat) (ms : List (String × FuncType))
    (hmem : membersOf nodes o = some (pre ++ bad :: post))
    (hpre : flattenMembers (resolveMethods nodes depth) pre = some ms)
    (hs : SimpleResults ms) (hfuel : depth + 1 ≤ fuel)
    (hbad : ∀ recur, memberDecls structObj recvObj p recur bad = .panic msg) :
    getFuncDecls nodes structObj recvObj p fuel o = .panic msg := by
  obtain ⟨k, rfl⟩ : ∃ k, fuel = k + 1 := ⟨fuel - 1, by omega⟩
  rw [getFuncDecls_succ, hmem]
  obtain ⟨fds, hfds, _⟩ := rangeMethods_flatten structObj recvObj p
    (resolveMethods nodes depth) (getFuncDecls nodes structObj recvObj p k)
    (fun o2 js h2 hs2 => getFuncDecls_flatten nodes structObj recvObj p depth o2 js h2 hs2 k
      (by omega)) pre ms [] hpre hs
  simp only
  rw [rangeMethods_append _ _ _ _ pre (bad :: post) [] _ hfds, rangeMethods_cons, hbad]

/-! ## The walk of `ast.Inspect` -/

mutual
/-- The walk leaves `obj` as it is below an expression without type
declaration of the name looked for. -/
theorem inspectExpr_skip (n : String) : ∀ (x : Expr) (obj : Option Object),
    n ∉ typeNamesExpr x → inspectExpr n x obj = obj
  | .Ident _, obj, _ => by simp [inspectExpr]
  | .Ellipsis none, obj, _ => by simp [inspectExpr]
  | .Ellipsis (some elt), obj, h => by
    simp only [typeNamesExpr] at h
    simp [inspectExpr, inspectExpr_skip n elt obj h]
  | .BasicLit _, obj, _ => by simp [inspectExpr]
  | .FuncLit typ body, obj, h => by
    simp only [typeNamesExpr, List.mem_append, not_or] at h
    simp [inspectExpr, inspectFuncType_skip n typ obj h.1, inspectStmts_skip n body obj h.2]
  | .ParenExpr x, obj, h => by
    simp only [typeNamesExpr] at h
    simp [inspectExpr, inspectExpr_skip n x obj h]
  | .SelectorExpr x _, obj, h => by
    simp only [typeNamesExpr] at h
    simp [inspectExpr, inspectExpr_skip n x obj h]
  | .CallExpr f args, obj, h => by
    simp only [typeNamesExpr, List.mem_append, not_or] at h
    simp [inspectExpr, inspectExpr_skip n f obj h.1, inspectExprs_skip n args obj h.2]
  | .StarExpr x, obj, h => by
    simp only [typeNamesExpr] at h
    simp [inspectExpr, inspectExpr_skip n x obj h]
  | .ArrayType none elt, obj, h => by
    simp only [typeNamesExpr] at h
    simp [inspectExpr, inspectExpr_skip n elt obj h]
  | .ArrayType (some len) elt, obj, h => by
    simp only [typeNamesExpr, List.mem_append, not_or] at h
    simp [inspectExpr, inspectExpr_skip n len obj h.1, inspectExpr_skip n elt obj h.2]
  | .StructType fields, obj, h => by
    simp only [typeNamesExpr] at h
    simp [inspectExpr, inspectFields_skip n fields obj h]
  | .FuncType t, obj, h => by
    simp only [typeNamesExpr] at h
    simp [inspectExpr, inspectFuncType_skip n t obj h]
  | .InterfaceType methods, obj, h => by
    simp only [typeNamesExpr] at h
    simp [inspectExpr, inspectFields_skip n methods obj h]
  | .MapType key value, obj, h => by
    simp only [typeNamesExpr, List.mem_append, not_or] at h
    simp [inspectExpr, inspectExpr_skip n key obj h.1, inspectExpr_skip n value obj h.2]
  | .ChanType value, obj, h => by
    simp only [typeNamesExpr] at h
    simp [inspectExpr, inspectExpr_skip n value obj h]
theorem inspectExprs_skip (n : String) : ∀ (l : List Expr) (obj : Option Object),
    n ∉ typeNamesExprs l → inspectExprs n l obj = obj
  | [], obj, _ => by simp [inspectExprs]
  | x :: rest, obj, h => by
    simp only [typeNamesExprs, List.mem_append, not_or] at h
    simp [inspectExprs, inspectExpr_skip n x obj h.1, inspectExprs_skip n rest obj h.2]
theorem inspectFuncType_skip (n : String) : ∀ (t : FuncType) (obj : Option Object),
    n ∉ typeNamesFuncType t → inspectFuncType n t obj = obj
  | .mk none none, obj, _ => by simp [inspectFuncType]
  | .mk (some params) none, obj, h => by
    simp only [typeNamesFuncType] at h
    simp [inspectFuncType, inspectFields_skip n params obj h]
  | .mk none (some results), obj, h => by
    simp only [typeNamesFuncType] at h
    simp [inspectFuncType, inspectFields_skip n results obj h]
  | .mk (some params) (some results), obj, h => by
    simp only [typeNamesFuncType, List.mem_append, not_or] at h
    simp [inspectFuncType, inspectFields_skip n params obj h.1,
      inspectFields_skip n results obj h.2]
theorem inspectFields_skip (n : String) : ∀ (l : List Field) (obj : Option Object),
    n ∉ typeNamesFields l → inspectFields n l obj = obj
  | [], obj, _ => by simp [inspectFields]
  | .mk _ typ :: rest, obj, h => by
    simp only [typeNamesFields, List.mem_append, not_or] at h
    simp [inspectFields, inspectExpr_skip n typ obj h.1, inspectFields_skip n rest obj h.2]
theorem inspectStmt_skip (n : String) : ∀ (s : Stmt) (obj : Option Object),
    n ∉ typeNamesStmt s → inspectStmt n s obj = obj
  | .DeclStmt decl, obj, h => by
    simp only [typeNamesStmt] at h
    simp [inspectStmt, inspectGenDecl_skip n decl obj h]
  | .ExprStmt x, obj, h => by
    simp only [typeNamesStmt] at h
    simp [inspectStmt, inspectExpr_skip n x obj h]
  | .ReturnStmt results, obj, h => by
    simp only [typeNamesStmt] at h
    simp [inspectStmt, inspectExprs_skip n results obj h]
  | .BlockStmt list, obj, h => by
    simp only [typeNamesStmt] at h
    simp [inspectStmt, inspectStmts_skip n list obj h]
theorem inspectStmts_skip (n : String) : ∀ (l : List Stmt) (obj : Option Object),
    n ∉ typeNamesStmts l → inspectStmts n l obj = obj
  | [], obj, _ => by simp [inspectStmts]
  | s :: rest, obj, h => by
    simp only [typeNamesStmts, List.mem_append, not_or] at h
    simp [inspectStmts, inspectStmt_skip n s obj h.1, inspectStmts_skip n rest obj h.2]
theorem inspectSpec_skip (n : String) : ∀ (s : Spec) (obj : Option Object),
    n ∉ typeNamesSpec s → inspectSpec n s obj = obj
  | .ImportSpec _, obj, _ => by simp [inspectSpec]
  | .ValueSpec _ none values, obj, h => by
    simp only [typeNamesSpec] at h
    simp [inspectSpec, inspectExprs_skip n values obj h]
  | .ValueSpec _ (some typ) values, obj, h => by
    simp only [typeNamesSpec, List.mem_append, not_or] at h
    simp [inspectSpec, inspectExpr_skip n typ obj h.1, inspectExprs_skip n values obj h.2]
  | .TypeSpec name typ, obj, h => by
    simp only [typeNamesSpec, List.mem_cons, not_or] at h
    have hne : name.Name ≠ n := fun e => h.1 e.symm
    simp [inspectSpec, hne, inspectExpr_skip n typ obj h.2]
theorem inspectSpecs_skip (n : String) : ∀ (l : List Spec) (obj : Option Object),
    n ∉ typeNamesSpecs l → inspectSpecs n l obj = obj
  | [], obj, _ => by simp [inspectSpecs]
  | s :: rest, obj, h => by
    simp only [typeNamesSpecs, List.mem_append, not_or] at h
    simp [inspectSpecs, inspectSpec_skip n s obj h.1, inspectSpecs_skip n rest obj h.2]
theorem inspectGenDecl_skip (n : String) : ∀ (d : GenDecl) (obj : Option Object),
    n ∉ typeNamesGenDecl d → inspectGenDecl n d obj = obj
  | .mk _ specs, obj, h => by
    simp only [typeNamesGenDecl] at h
    simp [inspectGenDecl, inspectSpecs_skip n specs obj h]
end

theorem inspectFuncDecl_skip (n : String) (d : FuncDecl) (obj : Option Object)
    (h : n ∉ typeNamesFuncDecl d) : inspectFuncDecl n d obj = obj := by
  obtain ⟨recv, name, typ, body⟩ := d
  simp only [typeNamesFuncDecl, List.mem_append, not_or] at h
  obtain ⟨⟨h1, h2⟩, h3⟩ := h
  cases recv with
  | none =>
    cases body with
    | none => simp [inspectFuncDecl, inspectFuncType_skip n typ obj h2]
    | some b =>
      simp [inspectFuncDecl, inspectFuncType_skip n typ obj h2, inspectStmts_skip n b obj h3]
  | some r =>
    cases body with
    | none =>
      simp [inspectFuncDecl, inspectFields_skip n r obj h1, inspectFuncType_skip n typ obj h2]
    | some b =>
      simp [inspectFuncDecl, inspectFields_skip n r obj h1, inspectFuncType_skip n typ obj h2,
        inspectStmts_skip n b obj h3]

theorem inspectDecls_skip (n : String) (l : List Decl) :
    ∀ obj, n ∉ typeNamesDecls l → inspectDecls n l obj = obj := by
  induction l with
  | nil => intro obj _; rfl
  | cons d rest ih =>
    intro obj h
    cases d with
    | GenDecl g =>
      simp only [typeNamesDecls, List.mem_append, not_or] at h
      simp [inspectDecls, inspectGenDecl_skip n g obj h.1, ih obj h.2]
    | FuncDecl fd =>
      simp only [typeNamesDecls, List.mem_append, not_or] at h
      simp [inspectDecls, inspectFuncDecl_skip n fd obj h.1, ih obj h.2]

theorem inspectSpecs_append (n : String) (a b : List Spec) :
    ∀ obj, inspectSpecs n (a ++ b) obj = inspectSpecs n b (inspectSpecs n a obj) := by
  induction a with
  | nil => intro obj; simp [inspectSpecs]
  | cons s rest ih => intro obj; simp [inspectSpecs, ih]

theorem inspectDecls_append (n : String) (a b : List Decl) :
    ∀ obj, inspectDecls n (a ++ b) obj = inspectDecls n b (inspectDecls n a obj) := by
  induction a with
  | nil => intro obj; simp [inspectDecls]
  | cons d rest ih =>
    intro obj
    cases d <;> simp [inspectDecls, ih]

/-- The walk yields the object of a package-level type spec of the name looked
for when no type declaration of that name comes after it. -/
theorem inspectFile_last (f : File) (n : String) (pre post : List Decl) (tok : Token)
    (specs1 specs2 : List Spec) (name : Ident) (typ : Expr)
    (hdecls : f.Decls
      = pre ++ Decl.GenDecl (GenDecl.mk tok (specs1 ++ Spec.TypeSpec name typ :: specs2)) :: post)
    (hn : name.Name = n) (h2 : n ∉ typeNamesSpecs specs2) (hpost : n ∉ typeNamesDecls post) :
    inspectFile f n = name.Obj := by
  simp only [inspectFile, hdecls, inspectDecls_append, inspectDecls, inspectGenDecl,
    inspectSpecs_append, inspectSpecs, inspectSpec, hn, ne_eq, not_true_eq_false, if_false]
  rw [inspectSpecs_skip n specs2 _ h2, inspectDecls_skip n post _ hpost]

/-- The walk finds nothing in a file without type declaration of the name
looked for. -/
theorem inspectFile_none (f : File) (n : String) (h : n ∉ typeNames f) :
    inspectFile f n = none :=
  inspectDecls_skip n f.Decls none h

/-- With the empty struct name `Pour` panics on `structName[0]` once the walk
has found an object. -/
theorem Pour_panics_on_empty_struct_name (ParseFile : List Nat → Except Err File) (fuel : Nat)
    (src : List Nat) (interfaceName : String) (opts : Opts) (f : File) (o : Object)
    (hname : interfaceName ≠ "") (hparse : ParseFile src = .ok f)
    (hfind : inspectFile f interfaceName = some o) :
    Pour ParseFile fuel src interfaceName "" opts
      = .panic "index out of range [0] with length 0" := by
  simp [Pour, hname, hparse, hfind, firstByte]

/-! ## The option `PreserveParamNames` -/

theorem namedFrom_erase (p : Bool) (xs : List (Option Ident × Expr)) :
    ∀ i, (namedFrom p i xs).map (fun f => Field.mk [] f.Typ)
      = xs.map (fun x => Field.mk [] x.2) := by
  induction xs with
  | nil => intro i; rfl
  | cons x r ih =>
    intro i
    obtain ⟨nm, t⟩ := x
    simp [namedFrom, ih, Field.Typ_mk]

theorem newParams_erase (params : Option (List Field)) (p q : Bool) :
    (newParams params p).map (fun l => l.map (fun f => Field.mk [] f.Typ))
      = (newParams params q).map (fun l => l.map (fun f => Field.mk [] f.Typ)) := by
  simp only [newParams_eq]
  split
  · simp [namedFrom_erase]
  · rfl

/-- The option reaches the declaration through the parameter list only. -/
theorem newFuncDecl_shape (recvObj structObj : Object) (funcName : String)
    (params results : Option (List Field)) :
    ∃ c : Outcome (Option (List Field) × List Stmt), ∀ p,
      newFuncDecl recvObj structObj funcName params results p
        = match c with
          | .ret (res, body) => .ret
              { Recv := some [Field.mk [{ Name := recvObj.Name, Obj := some recvObj }]
                  (Expr.StarExpr (Expr.Ident
                    { Name := structObj.Name, Obj := some structObj }))]
                Name := NewIdent funcName
                Typ := FuncType.mk (newParams params p) res
                Body := some body }
          | .panic msg => .panic msg
          | .nofuel => .nofuel := by
  by_cases hn : NumFields results > 0
  · cases results with
    | none => simp [NumFields] at hn
    | some l =>
      cases hr : resultFields l { i := 0, fl := [], stmts := [], returns := [] } with
      | ret st =>
        exact ⟨.ret (some st.fl, st.stmts ++ [Stmt.ReturnStmt st.returns]),
          fun p => by simp [newFuncDecl, hn, hr]⟩
      | panic msg => exact ⟨.panic msg, fun p => by simp [newFuncDecl, hn, hr]⟩
      | nofuel => exact ⟨.nofuel, fun p => by simp [newFuncDecl, hn, hr]⟩
  · exact ⟨.ret (none, []), fun p => by simp [newFuncDecl, hn]⟩

theorem newFuncDecl_erase (recvObj structObj : Object) (funcName : String)
    (params results : Option (List Field)) (p q : Bool) :
    eraseDeclsParamNames
        (match newFuncDecl recvObj structObj funcName params results p with
          | .ret fd => .ret [fd]
          | .panic msg => .panic msg
          | .nofuel => .nofuel)
      = eraseDeclsParamNames
        (match newFuncDecl recvObj structObj funcName params results q with
          | .ret fd => .ret [fd]
          | .panic msg => .panic msg
          | .nofuel => .nofuel) := by
  have hp := newParams_erase params p q
  obtain ⟨c, hc⟩ := newFuncDecl_shape recvObj structObj funcName params results
  rw [hc p, hc q]
  cases c with
  | ret rb =>
    simp [eraseDeclsParamNames, eraseParamNames, FuncType.Params, FuncType.Results, hp]
  | panic msg => rfl
  | nofuel => rfl

theorem memberDecls_erase (structObj recvObj : Object) (p q : Bool)
    (recurP recurQ : Object → Outcome (List FuncDecl))
    (hrec : ∀ o, eraseDeclsParamNames (recurP o) = eraseDeclsParamNames (recurQ o))
    (field : Field) :
    eraseDeclsParamNames (memberDecls structObj recvObj p recurP field)
      = eraseDeclsParamNames (memberDecls structObj recvObj q recurQ field) := by
  obtain ⟨names, typ⟩ := field
  cases typ with
  | FuncType v =>
    cases names with
    | nil => rfl
    | cons name more =>
      simp only [memberDecls, Field.Typ_mk, Field.Names_mk]
      exact newFuncDecl_erase recvObj structObj name.Name v.Params v.Results p q
  | Ident v =>
    simp only [memberDecls, Field.Typ_mk]
    cases v.Obj with
    | none => rfl
    | some o => exact hrec o
  | _ => rfl

theorem rangeMethods_erase (structObj recvObj : Object) (p q : Bool)
    (recurP recurQ : Object → Outcome (List FuncDecl))
    (hrec : ∀ o, eraseDeclsParamNames (recurP o) = eraseDeclsParamNames (recurQ o))
    (members : List Field) :
    ∀ (accP accQ : List FuncDecl), accP.map eraseParamNames = accQ.map eraseParamNames →
      eraseDeclsParamNames (rangeMethods structObj recvObj p recurP members accP)
        = eraseDeclsParamNames (rangeMethods structObj recvObj q recurQ members accQ) := by
  induction members with
  | nil =>
    intro accP accQ h
    simp [rangeMethods, eraseDeclsParamNames, h]
  | cons field rest ih =>
    intro accP accQ h
    rw [rangeMethods_cons, rangeMethods_cons]
    have hm := memberDecls_erase structObj recvObj p q recurP recurQ hrec field
    cases hP : memberDecls structObj recvObj p recurP field with
    | ret partP =>
      cases hQ : memberDecls structObj recvObj q recurQ field with
      | ret partQ =>
        rw [hP, hQ] at hm
        simp only [eraseDeclsParamNames, Outcome.ret.injEq] at hm
        exact ih _ _ (by simp [h, hm])
      | panic msg => rw [hP, hQ] at hm; simp [eraseDeclsParamNames] at hm
      | nofuel => rw [hP, hQ] at hm; simp [eraseDeclsParamNames] at hm
    | panic msg =>
      cases hQ : memberDecls structObj recvObj q recurQ field with
      | ret partQ => rw [hP, hQ] at hm; simp [eraseDeclsParamNames] at hm
      | panic msg2 => rw [hP, hQ] at hm; exact hm
      | nofuel => rw [hP, hQ] at hm; simp [eraseDeclsParamNames] at hm
    | nofuel =>
      cases hQ : memberDecls structObj recvObj q recurQ field with
      | ret partQ => rw [hP, hQ] at hm; simp [eraseDeclsParamNames] at hm
      | panic msg2 => rw [hP, hQ] at hm; simp [eraseDeclsParamNames] at hm
      | nofuel => rfl

theorem getFuncDecls_erase (nodes : List Node) (structObj recvObj : Object) (p q : Bool) :
    ∀ (fuel : Nat) (o : Object),
      eraseDeclsParamNames (getFuncDecls nodes structObj recvObj p fuel o)
        = eraseDeclsParamNames (getFuncDecls nodes structObj recvObj q fuel o) := by
  intro fuel
  induction fuel with
  | zero => intro o; rfl
  | succ k ih =>
    intro o
    rw [getFuncDecls_succ, getFuncDecls_succ]
    cases membersOf nodes o with
    | none => rfl
    | some members =>
      exact rangeMethods_erase structObj recvObj p q _ _ ih members [] [] rfl

/-! ## Termination of `getFuncDecls` -/

theorem EmbedChain.tail (nodes : List Node) (d : Option Nat) (l : List (Option Nat))
    (h : EmbedChain nodes (d :: l)) : EmbedChain nodes l := by
  cases l with
  | nil => trivial
  | cons e rest => exact h.2

theorem EmbedChain.right (nodes : List Node) (a b : List (Option Nat))
    (h : EmbedChain nodes (a ++ b)) : EmbedChain nodes b := by
  induction a with
  | nil => exact h
  | cons x rest ih => exact ih (EmbedChain.tail nodes x _ h)

theorem EmbedChain.left (nodes : List Node) (a b : List (Option Nat)) :
    EmbedChain nodes (a ++ b) → EmbedChain nodes a := by
  induction a with
  | nil => intro _; trivial
  | cons x rest ih =>
    intro h
    cases rest with
    | nil => trivial
    | cons y more => exact ⟨h.1, ih h.2⟩

theorem exists_dup_split {α : Type} (l : List α) (h : ¬ l.Nodup) :
    ∃ d l1 l2 l3, l = l1 ++ d :: l2 ++ d :: l3 := by
  induction l with
  | nil => exact absurd List.nodup_nil h
  | cons a t ih =>
    by_cases ha : a ∈ t
    · obtain ⟨s, r, rfl⟩ := List.append_of_mem ha
      exact ⟨a, [], s, r, by simp⟩
    · have ht : ¬ t.Nodup := fun hn => h (List.nodup_cons.mpr ⟨ha, hn⟩)
      obtain ⟨d, l1, l2, l3, rfl⟩ := ih ht
      exact ⟨d, a :: l1, l2, l3, by simp⟩

/-- In an acyclic file no embedding chain meets a declaration twice. -/
theorem EmbedChain.nodup (nodes : List Node) (hac : Acyclic nodes) (l : List (Option Nat))
    (h : EmbedChain nodes l) : l.Nodup := by
  by_contra hn
  obtain ⟨d, l1, l2, l3, rfl⟩ := exists_dup_split l hn
  have h1 : EmbedChain nodes ((d :: l2 ++ [d]) ++ l3) := by
    have := EmbedChain.right nodes l1 (d :: l2 ++ d :: l3) (by simpa using h)
    simpa using this
  exact hac d l2 (EmbedChain.left nodes _ _ h1)

theorem embeddedDecls_valid (nodes : List Node) (d e : Option Nat)
    (h : e ∈ embeddedDecls nodes d) : ∃ a, d = some a ∧ a < nodes.length := by
  cases d with
  | none => simp [embeddedDecls] at h
  | some a =>
    refine ⟨a, rfl, ?_⟩
    by_contra hlt
    have hnone : nodes[a]? = none := List.getElem?_eq_none (by omega)
    simp [embeddedDecls, hnone] at h

theorem EmbedChain.valid (nodes : List Node) (l : List (Option Nat)) :
    EmbedChain nodes l → ∀ d ∈ l.dropLast, ∃ a, d = some a ∧ a < nodes.length := by
  induction l with
  | nil => intro _ d hd; simp at hd
  | cons x rest ih =>
    intro h d hd
    cases rest with
    | nil => simp at hd
    | cons y more =>
      simp only [List.dropLast_cons₂, List.mem_cons] at hd
      rcases hd with rfl | hd
      · exact embeddedDecls_valid nodes _ y h.1
      · exact ih h.2 d hd

/-- In an acyclic file an embedding chain has at most one declaration more
than the node store has nodes. -/
theorem EmbedChain.length_le (nodes : List Node) (hac : Acyclic nodes)
    (l : List (Option Nat)) (h : EmbedChain nodes l) : l.length ≤ nodes.length + 1 := by
  have hnd : l.dropLast.Nodup := (EmbedChain.nodup nodes hac l h).sublist (List.dropLast_sublist l)
  have hsub : l.dropLast ⊆ (List.range nodes.length).map some := by
    intro d hd
    obtain ⟨a, rfl, ha⟩ := EmbedChain.valid nodes l h d hd
    exact List.mem_map.mpr ⟨a, List.mem_range.mpr ha, rfl⟩
  have hle := (hnd.subperm hsub).length_le
  simp only [List.length_dropLast, List.length_map, List.length_range] at hle
  omega

theorem embeddedDecls_of_member (nodes : List Node) (o o2 : Object) (members : List Field)
    (field : Field) (v : Ident) (hmem : membersOf nodes o = some members)
    (hfield : field ∈ members) (hv : field.Typ = Expr.Ident v) (ho2 : v.Obj = some o2) :
    o2.Decl ∈ embeddedDecls nodes o.Decl := by
  unfold membersOf at hmem
  unfold embeddedDecls
  split at hmem
  · rename_i name methods heq
    simp only [Option.some.injEq] at hmem
    subst hmem
    simp only [List.mem_filterMap]
    exact ⟨field, hfield, by simp [hv, ho2]⟩
  · exact Option.noConfusion hmem

theorem memberDecls_nofuel (structObj recvObj : Object) (p : Bool)
    (recur : Object → Outcome (List FuncDecl)) (field : Field)
    (h : memberDecls structObj recvObj p recur field = .nofuel) :
    ∃ v o2, field.Typ = Expr.Ident v ∧ v.Obj = some o2 ∧ recur o2 = .nofuel := by
  obtain ⟨names, typ⟩ := field
  cases typ with
  | FuncType t =>
    cases names with
    | nil => simp [memberDecls, Field.Typ_mk, Field.Names_mk] at h
    | cons name more =>
      simp only [memberDecls, Field.Typ_mk, Field.Names_mk] at h
      rcases newFuncDecl_cases recvObj structObj name.Name t.Params t.Results p
        with ⟨fd, hfd⟩ | hp
      · simp [hfd] at h
      · simp [hp] at h
  | Ident v =>
    simp only [memberDecls, Field.Typ_mk] at h
    cases ho : v.Obj with
    | none => simp [ho] at h
    | some o2 =>
      simp only [ho] at h
      exact ⟨v, o2, rfl, ho, h⟩
  | _ => simp [memberDecls, Field.Typ_mk] at h

theorem rangeMethods_nofuel (structObj recvObj : Object) (p : Bool)
    (recur : Object → Outcome (List FuncDecl)) (members : List Field) :
    ∀ acc, rangeMethods structObj recvObj p recur members acc = .nofuel →
      ∃ field ∈ members, ∃ v o2, field.Typ = Expr.Ident v ∧ v.Obj = some o2 ∧
        recur o2 = .nofuel := by
  induction members with
  | nil => intro acc h; simp [rangeMethods] at h
  | cons field rest ih =>
    intro acc h
    rw [rangeMethods_cons] at h
    cases hm : memberDecls structObj recvObj p recur field with
    | ret part =>
      rw [hm] at h
      obtain ⟨f2, hf2, hrest⟩ := ih _ h
      exact ⟨f2, List.mem_cons_of_mem _ hf2, hrest⟩
    | panic msg => rw [hm] at h; simp at h
    | nofuel => exact ⟨field, List.mem_cons_self _ _, memberDecls_nofuel _ _ _ _ _ hm⟩

/-- A call that exhausts a recursion budget of `fuel` has gone down an
embedding chain of `fuel + 1` declarations that starts at its argument. -/
theorem getFuncDecls_nofuel_chain (nodes : List Node) (structObj recvObj : Object) (p : Bool) :
    ∀ (fuel : Nat) (o : Object), getFuncDecls nodes structObj recvObj p fuel o = .nofuel →
      ∃ l, l.length = fuel ∧ EmbedChain nodes (o.Decl :: l) := by
  intro fuel
  induction fuel with
  | zero => intro o _; exact ⟨[], rfl, trivial⟩
  | succ k ih =>
    intro o h
    rw [getFuncDecls_succ] at h
    cases hmem : membersOf nodes o with
    | none => rw [hmem] at h; simp at h
    | some members =>
      rw [hmem] at h
      obtain ⟨field, hfield, v, o2, hv, ho2, hrec⟩ := rangeMethods_nofuel _ _ _ _ members [] h
      obtain ⟨l, hl, hchain⟩ := ih o2 hrec
      exact ⟨o2.Decl :: l, by simp [hl],
        embeddedDecls_of_member nodes o o2 members field v hmem hfield hv ho2, hchain⟩

theorem memberDecls_congr (structObj recvObj : Object) (p : Bool)
    (recur recur2 : Object → Outcome (List FuncDecl))
    (hrec : ∀ o, recur o ≠ .nofuel → recur2 o = recur o) (field : Field)
    (h : memberDecls structObj recvObj p recur field ≠ .nofuel) :
    memberDecls structObj recvObj p recur2 field
      = memberDecls structObj recvObj p recur field := by
  obtain ⟨names, typ⟩ := field
  cases typ with
  | Ident v =>
    simp only [memberDecls, Field.Typ_mk] at h ⊢
    cases ho : v.Obj with
    | none => rfl
    | some o2 =>
      simp only [ho] at h ⊢
      exact hrec o2 h
  | _ => rfl

theorem rangeMethods_congr (structObj recvObj : Object) (p : Bool)
    (recur recur2 : Object → Outcome (List FuncDecl))
    (hrec : ∀ o, recur o ≠ .nofuel → recur2 o = recur o) (members : List Field) :
    ∀ acc, rangeMethods structObj recvObj p recur members acc ≠ .nofuel →
      rangeMethods structObj recvObj p recur2 members acc
        = rangeMethods structObj recvObj p recur members acc := by
  induction members with
  | nil => intro acc _; rfl
  | cons field rest ih =>
    intro acc h
    rw [rangeMethods_cons] at h ⊢
    rw [rangeMethods_cons]
    cases hm : memberDecls structObj recvObj p recur field with
    | ret part =>
      rw [hm] at h
      rw [memberDecls_congr _ _ _ recur recur2 hrec field (by rw [hm]; simp), hm]
      exact ih _ h
    | panic msg =>
      rw [memberDecls_congr _ _ _ recur recur2 hrec field (by rw [hm]; simp), hm]
    | nofuel => rw [hm] at h; exact absurd rfl h

/-- A larger recursion budget does not change the result of a call that did
not exhaust its budget. -/
theorem getFuncDecls_mono (nodes : List Node) (structObj recvObj : Object) (p : Bool) :
    ∀ (fuel : Nat) (o : Object), getFuncDecls nodes structObj recvObj p fuel o ≠ .nofuel →
      ∀ fuel2, fuel ≤ fuel2 →
        getFuncDecls nodes structObj recvObj p fuel2 o
          = getFuncDecls nodes structObj recvObj p fuel o := by
  intro fuel
  induction fuel with
  | zero => intro o h; exact absurd rfl h
  | succ k ih =>
    intro o h fuel2 hle
    obtain ⟨k2, rfl⟩ : ∃ k2, fuel2 = k2 + 1 := ⟨fuel2 - 1, by omega⟩
    rw [getFuncDecls_succ] at h ⊢
    rw [getFuncDecls_succ]
    cases hmem : membersOf nodes o with
    | none => rfl
    | some members =>
      rw [hmem] at h
      exact rangeMethods_congr _ _ _ _ _ (fun o2 h2 => ih o2 h2 k2 (by omega)) members [] h

/-! ## The embedding relation of the file that declares `ReadCloser` -/

theorem embedded_ReadCloser (d : Option Nat) :
    embeddedDecls fileReadCloser.Nodes d = if d = some 2 then [some 0, some 1] else [] := by
  cases d with
  | none => rfl
  | some a =>
    match a with
    | 0 => rfl
    | 1 => rfl
    | 2 => rfl
    | n + 3 => simp [embeddedDecls, fileReadCloser]

theorem chains_ReadCloser (l : List (Option Nat))
    (h : EmbedChain fileReadCloser.Nodes (some 2 :: l)) : l.length + 1 ≤ 2 := by
  cases l with
  | nil => simp
  | cons e rest =>
    cases rest with
    | nil => simp
    | cons e2 more =>
      exfalso
      have h1 := h.1
      have h2 := h.2.1
      rw [embedded_ReadCloser] at h1 h2
      simp only [if_true] at h1
      split at h2
      · rename_i he; subst he; simp at h1
      · simp at h2

theorem acyclic_ReadCloser : Acyclic fileReadCloser.Nodes := by
  intro d l h
  cases l with
  | nil =>
    have h1 := h.1
    rw [embedded_ReadCloser] at h1
    split at h1
    · rename_i hd; subst hd; simp at h1
    · simp at h1
  | cons e rest =>
    have h1 := h.1
    rw [embedded_ReadCloser] at h1
    split at h1
    · rename_i hd
      subst hd
      have hlen := chains_ReadCloser _ h
      simp at hlen
    · simp at h1

/-! ## The names that `fmt.Sprintf` makes -/

theorem digitValue_digitChar : ∀ k, k < 10 → digitValue (Nat.digitChar k) = k := by
  decide

theorem valueOf_append_singleton (l : List Char) (c : Char) :
    valueOf (l ++ [c]) = 10 * valueOf l + digitValue c := by
  simp [valueOf, List.foldl_append]

theorem toDigitsCore_value : ∀ (fuel n : Nat) (ds : List Char), n < fuel →
    ∃ pre, Nat.toDigitsCore 10 fuel n ds = pre ++ ds ∧ valueOf pre = n := by
  intro fuel
  induction fuel with
  | zero => intro n ds h; omega
  | succ k ih =>
    intro n ds h
    simp only [Nat.toDigitsCore]
    by_cases h0 : n / 10 = 0
    · refine ⟨[Nat.digitChar (n % 10)], by simp [h0], ?_⟩
      have hlt : n % 10 < 10 := Nat.mod_lt _ (by decide)
      simp only [valueOf, List.foldl_cons, List.foldl_nil, digitValue_digitChar _ hlt]
      omega
    · have hk : n / 10 < k := by omega
      obtain ⟨pre, hpre, hval⟩ := ih (n / 10) (Nat.digitChar (n % 10) :: ds) hk
      refine ⟨pre ++ [Nat.digitChar (n % 10)], by simp [h0, hpre], ?_⟩
      have hlt : n % 10 < 10 := Nat.mod_lt _ (by decide)
      rw [valueOf_append_singleton, hval, digitValue_digitChar _ hlt]
      omega

theorem toString_nat_injective (n m : Nat) (h : toString n = toString m) : n = m := by
  have hn : (toString n).data = Nat.toDigits 10 n := rfl
  have hm : (toString m).data = Nat.toDigits 10 m := rfl
  have hd : Nat.toDigits 10 n = Nat.toDigits 10 m := by rw [← hn, ← hm, h]
  obtain ⟨p1, h1, v1⟩ := toDigitsCore_value (n + 1) n [] (by omega)
  obtain ⟨p2, h2, v2⟩ := toDigitsCore_value (m + 1) m [] (by omega)
  simp only [Nat.toDigits] at hd
  rw [h1, h2] at hd
  simp only [List.append_nil] at hd
  rw [← v1, ← v2, hd]

theorem Sprintf_injective (pfx : String) (i j : Nat) (h : Sprintf pfx i = Sprintf pfx j) :
    i = j := by
  apply toString_nat_injective
  have hd := congrArg String.data h
  simp only [Sprintf, String.data_append] at hd
  exact String.ext (List.append_cancel_left hd)

theorem Sprintf_length (pfx : String) (i : Nat) : pfx.length ≤ (Sprintf pfx i).length := by
  simp [Sprintf, String.length_append]

theorem Sprintf_arg_ne_val (i j : Nat) : Sprintf "arg" i ≠ Sprintf "val" j := by
  intro h
  have hd := congrArg String.data h
  simp only [Sprintf, String.data_append] at hd
  have : ("arg".data ++ (toString i).data).head? = ("val".data ++ (toString j).data).head? := by
    rw [hd]
  simp at this

theorem byteToString_length (b : Nat) : (byteToString b).length = 1 := by
  simp [byteToString, String.singleton, String.length]

/-! ## The names bound in a synthesized declaration -/

theorem namedFrom_names_generic (xs : List (Option Ident × Expr)) :
    ∀ i, (namedFrom false i xs).flatMap (fun f => f.Names.map Ident.Name)
      = (List.range xs.length).map (fun k => Sprintf "arg" (i + k + 1)) := by
  induction xs with
  | nil => intro i; rfl
  | cons x r ih =>
    intro i
    obtain ⟨nm, t⟩ := x
    have hnm : paramName false (i + 1) nm = Sprintf "arg" (i + 1) := by
      cases nm <;> simp [paramName]
    simp only [namedFrom, List.flatMap_cons, Field.Names_mk, List.map_cons, List.map_nil,
      NewIdent, hnm, ih, List.length_cons, List.range_succ_eq_map, List.map_map,
      List.singleton_append, Nat.add_zero]
    congr 1
    apply List.map_congr_left
    intro k _
    simp only [Function.comp]
    congr 1
    omega

theorem namedFrom_unnamed (p : Bool) (xs : List (Option Ident × Expr))
    (h : ∀ x ∈ xs, x.1 = none) :
    ∀ i, namedFrom p i xs = namedFrom false i xs := by
  induction xs with
  | nil => intro i; rfl
  | cons x r ih =>
    intro i
    obtain ⟨nm, t⟩ := x
    have hnm : nm = none := h (nm, t) (List.mem_cons_self _ _)
    subst hnm
    simp only [namedFrom, paramName]
    rw [ih (fun y hy => h y (List.mem_cons_of_mem _ hy))]

theorem namedFrom_names_preserved (xs : List (Option Ident × Expr))
    (h : ∀ x ∈ xs, x.1 ≠ none) :
    ∀ i, (namedFrom true i xs).flatMap (fun f => f.Names.map Ident.Name)
      = xs.flatMap (fun x => (x.1.map Ident.Name).toList) := by
  induction xs with
  | nil => intro i; rfl
  | cons x r ih =>
    intro i
    obtain ⟨nm, t⟩ := x
    cases nm with
    | none => exact absurd rfl (h (none, t) (List.mem_cons_self _ _))
    | some id =>
      simp only [namedFrom, paramName, List.flatMap_cons, Field.Names_mk, List.map_cons,
        List.map_nil, NewIdent, if_true, Option.map_some', Option.toList_some,
        ih (fun y hy => h y (List.mem_cons_of_mem _ hy))]

theorem splitFields_unnamed (l : List Field) (h : ∀ f ∈ l, f.Names = []) :
    ∀ x ∈ splitFields l, x.1 = none := by
  induction l with
  | nil => intro x hx; simp [splitFields] at hx
  | cons f rest ih =>
    intro x hx
    have hf : f.Names = [] := h f (List.mem_cons_self _ _)
    simp only [splitFields, hf, List.length_nil, if_true, List.mem_append,
      List.mem_singleton] at hx
    rcases hx with rfl | hx
    · rfl
    · exact ih (fun g hg => h g (List.mem_cons_of_mem _ hg)) x hx

theorem splitFields_named (l : List Field) (h : ∀ f ∈ l, f.Names ≠ []) :
    (∀ x ∈ splitFields l, x.1 ≠ none) ∧
    (splitFields l).flatMap (fun x => (x.1.map Ident.Name).toList) = sourceParamNames l := by
  induction l with
  | nil => exact ⟨fun x hx => by simp [splitFields] at hx, rfl⟩
  | cons f rest ih =>
    have hf : f.Names.length ≠ 0 := fun h0 =>
      h f (List.mem_cons_self _ _) (List.eq_nil_of_length_eq_zero h0)
    obtain ⟨ih1, ih2⟩ := ih (fun g hg => h g (List.mem_cons_of_mem _ hg))
    constructor
    · intro x hx
      simp only [splitFields, hf, if_false, List.mem_append, List.mem_map] at hx
      rcases hx with ⟨id, _, rfl⟩ | hx
      · simp
      · exact ih1 x hx
    · simp only [splitFields, hf, if_false, List.flatMap_append, ih2, sourceParamNames,
        List.flatMap_cons]
      congr 1
      induction f.Names with
      | nil => rfl
      | cons id more ihn => simp [List.flatMap_cons, ihn]

theorem declsFrom_names (ids : List Ident) :
    ∀ i, (declsFrom i ids).flatMap stmtNames
      = (List.range ids.length).map (fun k => Sprintf "val" (i + k + 1)) := by
  induction ids with
  | nil => intro i; rfl
  | cons id r ih =>
    intro i
    have hhead : stmtNames (varDecl (i + 1) id.Name) = [Sprintf "val" (i + 1)] := rfl
    simp only [declsFrom, List.flatMap_cons, ih, List.length_cons, List.range_succ_eq_map,
      List.map_cons, List.map_map, Nat.add_zero, hhead, List.singleton_append]
    congr 1
    apply List.map_congr_left
    intro k _
    simp only [Function.comp]
    congr 1
    omega

/-- The names bound in a declaration that `newFuncDecl` returns: the receiver
name, the names of the parameter list, and `val1 ..` for the results. -/
theorem boundNames_of_newFuncDecl (recvObj structObj : Object) (funcName : String)
    (params results : Option (List Field)) (p : Bool) (fd : FuncDecl)
    (h : newFuncDecl recvObj structObj funcName params results p = .ret fd) :
    boundNames fd
      = [recvObj.Name]
        ++ (namedFrom p 0 (splitFields (params.getD []))).flatMap
            (fun f => f.Names.map Ident.Name)
        ++ (List.range (NumFields results)).map (fun k => Sprintf "val" (0 + k + 1)) := by
  have hs := newFuncDecl_ret_simple _ _ _ _ _ _ _ h
  have hparams : ((newParams params p).getD []).flatMap (fun f => f.Names.map Ident.Name)
      = (namedFrom p 0 (splitFields (params.getD []))).flatMap
          (fun f => f.Names.map Ident.Name) := by
    rw [newParams_eq]
    split
    · rfl
    · rename_i hn
      have h0 : NumFields params = 0 := by omega
      cases params with
      | none => rfl
      | some l =>
        have hl : splitFields l = [] := by
          apply List.eq_nil_of_length_eq_zero
          rw [length_splitFields]; exact h0
        simp [hl, namedFrom]
  by_cases hn : NumFields results > 0
  · cases results with
    | none => simp [NumFields] at hn
    | some l =>
      rw [newFuncDecl_simple _ _ _ _ l p hn hs] at h
      simp only [Outcome.ret.injEq] at h
      subst h
      rw [← length_resultIdents l hs]
      simp only [boundNames, recvNames, paramNameList, localNames, Option.getD_some,
        FuncType.Params, hparams, List.flatMap_cons, List.flatMap_nil, Field.Names_mk,
        List.map_cons, List.map_nil, List.append_nil, List.flatMap_append, declsFrom_names,
        stmtNames]
  · rw [newFuncDecl_no_results _ _ _ _ _ _ (by omega)] at h
    simp only [Outcome.ret.injEq] at h
    subst h
    have h0 : NumFields results = 0 := by omega
    rw [h0]
    simp only [boundNames, recvNames, paramNameList, localNames, Option.getD_some,
      FuncType.Params, hparams, List.flatMap_cons, List.flatMap_nil, Field.Names_mk,
      List.map_cons, List.map_nil, List.append_nil, List.range_zero]

theorem nodup_three {α : Type} (a : α) (B C : List α) (hB : B.Nodup) (hC : C.Nodup)
    (haB : a ∉ B) (haC : a ∉ C) (hBC : ∀ x ∈ B, x ∉ C) : ([a] ++ B ++ C).Nodup := by
  rw [List.append_assoc, List.singleton_append, List.nodup_cons]
  refine ⟨?_, ?_⟩
  · simp [haB, haC]
  · rw [List.nodup_append]
    exact ⟨hB, hC, fun x hx hx2 => hBC x hx hx2⟩

theorem nodup_filter_three {α : Type} (P : α → Bool) (a : α) (B C : List α)
    (hB : (B.filter P).Nodup) (hC : C.Nodup)
    (haB : a ∉ B) (haC : a ∉ C) (hBC : ∀ x ∈ B, x ∉ C) :
    (([a] ++ B ++ C).filter P).Nodup := by
  rw [List.filter_append, List.filter_append, List.append_assoc, List.nodup_append]
  refine ⟨(List.nodup_singleton a).filter P, ?_, ?_⟩
  · rw [List.nodup_append]
    exact ⟨hB, hC.filter P, fun x hx hx2 =>
      hBC x (List.mem_filter.mp hx).1 (List.mem_filter.mp hx2).1⟩
  · intro x hx hx2
    have hxa : x = a := List.mem_singleton.mp (List.mem_filter.mp hx).1
    subst hxa
    rcases List.mem_append.mp hx2 with h | h
    · exact haB (List.mem_filter.mp h).1
    · exact haC (List.mem_filter.mp h).1

theorem sprintf_names_nodup (pfx : String) (i N : Nat) :
    ((List.range N).map (fun k => Sprintf pfx (i + k + 1))).Nodup := by
  apply List.Nodup.map _ (List.nodup_range N)
  intro a b hab
  have := Sprintf_injective pfx _ _ hab
  omega

theorem short_not_sprintf (s pfx : String) (i N : Nat) (hs : s.length < pfx.length) :
    s ∉ (List.range N).map (fun k => Sprintf pfx (i + k + 1)) := by
  intro h
  obtain ⟨k, _, hk⟩ := List.mem_map.mp h
  have := Sprintf_length pfx (i + k + 1)
  rw [hk] at this
  omega

theorem nodup_filter_three_iff {α : Type} (P : α → Bool) (a : α) (B C : List α)
    (hC : C.Nodup) (hPC : ∀ x ∈ C, P x = true) (haC : a ∉ C) :
    (([a] ++ B ++ C).filter P).Nodup ↔
      (B.filter P).Nodup ∧ a ∉ B.filter P ∧ ∀ x ∈ C, x ∉ B := by
  constructor
  · intro h
    rw [List.filter_append, List.filter_append, List.append_assoc, List.nodup_append] at h
    obtain ⟨_, hBC, hdisj⟩ := h
    rw [List.nodup_append] at hBC
    obtain ⟨hB, _, hdisj2⟩ := hBC
    refine ⟨hB, ?_, ?_⟩
    · intro haB
      have hPa : P a = true := (List.mem_filter.mp haB).2
      exact hdisj (List.mem_filter.mpr ⟨List.mem_singleton.mpr rfl, hPa⟩)
        (List.mem_append.mpr (Or.inl haB))
    · intro x hxC hxB
      have hPx := hPC x hxC
      exact hdisj2 (List.mem_filter.mpr ⟨hxB, hPx⟩) (List.mem_filter.mpr ⟨hxC, hPx⟩)
  · rintro ⟨hB, haB, hCB⟩
    rw [List.filter_append, List.filter_append, List.append_assoc, List.nodup_append]
    refine ⟨(List.nodup_singleton a).filter P, ?_, ?_⟩
    · rw [List.nodup_append]
      exact ⟨hB, hC.filter P, fun x hx hx2 =>
        hCB x (List.mem_filter.mp hx2).1 (List.mem_filter.mp hx).1⟩
    · intro x hx hx2
      have hxa : x = a := List.mem_singleton.mp (List.mem_filter.mp hx).1
      subst hxa
      rcases List.mem_append.mp hx2 with h | h
      · exact haB h
      · exact haC (List.mem_filter.mp h).1

theorem sprintf_ne_blank (pfx : String) (i : Nat) (h : 1 < pfx.length) :
    Sprintf pfx i ≠ "_" := by
  intro he
  have := Sprintf_length pfx i
  rw [he] at this
  have h1 : ("_" : String).length = 1 := by decide
  omega

theorem policyNames_named (l : List Field) (h : ∀ f ∈ l, f.Names ≠ []) :
    policyNames l = sourceParamNames l := by
  obtain ⟨h1, h2⟩ := splitFields_named l h
  rw [policyNames, namedFrom_names_preserved _ h1, h2]

/-! ## Members of another shape -/

/-- The loop passes over a member that is neither a function type nor an
identifier: it goes on as if the member were not in the list. -/
theorem rangeMethods_pass_over (structObj recvObj : Object) (p : Bool)
    (recur : Object → Outcome (List FuncDecl)) (names : List Ident) (typ : Expr)
    (hfunc : ∀ v, typ ≠ Expr.FuncType v) (hident : ∀ v, typ ≠ Expr.Ident v)
    (post : List Field) (pre : List Field) :
    ∀ acc, rangeMethods structObj recvObj p recur (pre ++ Field.mk names typ :: post) acc
      = rangeMethods structObj recvObj p recur (pre ++ post) acc := by
  have hm : memberDecls structObj recvObj p recur (Field.mk names typ) = .ret [] := by
    cases typ with
    | FuncType v => exact absurd rfl (hfunc v)
    | Ident v => exact absurd rfl (hident v)
    | _ => rfl
  induction pre with
  | nil =>
    intro acc
    rw [List.nil_append, rangeMethods_cons, hm]
    simp
  | cons field more ih =>
    intro acc
    rw [List.cons_append, List.cons_append, rangeMethods_cons, rangeMethods_cons]
    cases memberDecls structObj recvObj p recur field with
    | ret part => exact ih _
    | panic msg => rfl
    | nofuel => rfl

/-- The loop over the members computes the flattening that passes over
members of another shape, provided the recursive call does. -/
theorem rangeMethods_supported (structObj recvObj : Object) (p : Bool)
    (resolve : Object → Option (List (String × FuncType)))
    (recur : Object → Outcome (List FuncDecl))
    (hrec : ∀ o js, resolve o = some js → SimpleResults js →
      ∃ fds, recur o = .ret fds ∧ fds.map (fun fd => fd.Name) = js.map (fun m => NewIdent m.1))
    (members : List Field) :
    ∀ (ms : List (String × FuncType)) (acc : List FuncDecl),
      flattenSupported resolve members = some ms → SimpleResults ms →
      ∃ fds, rangeMethods structObj recvObj p recur members acc = .ret (acc ++ fds) ∧
        fds.map (fun fd => fd.Name) = ms.map (fun m => NewIdent m.1) := by
  induction members with
  | nil =>
    intro ms acc h _
    simp only [flattenSupported, Option.some.injEq] at h
    subst h
    exact ⟨[], by simp [rangeMethods], rfl⟩
  | cons field rest ih =>
    intro ms acc h hs
    obtain ⟨names, typ⟩ := field
    rw [rangeMethods_cons]
    cases typ with
    | FuncType t =>
      cases names with
      | nil => simp [flattenSupported, Field.Typ_mk, Field.Names_mk] at h
      | cons name more =>
        cases more with
        | cons n2 more2 => simp [flattenSupported, Field.Typ_mk, Field.Names_mk] at h
        | nil =>
          simp only [flattenSupported, Field.Typ_mk, Field.Names_mk] at h
          cases hr : flattenSupported resolve rest with
          | none => simp [hr] at h
          | some r =>
            simp only [hr, Option.some.injEq] at h
            subst h
            have hsr : SimpleResults r := fun m hm => hs m (List.mem_cons_of_mem _ hm)
            have hst : SimpleTypes (t.Results.getD []) :=
              hs (name.Name, t) (List.mem_cons_self _ _)
            obtain ⟨fd, hfd, hname⟩ :=
              newFuncDecl_total recvObj structObj name.Name t.Params t.Results p hst
            obtain ⟨fds, hfds, hnames⟩ := ih r (acc ++ [fd]) hr hsr
            refine ⟨fd :: fds, ?_, ?_⟩
            · simp only [memberDecls, Field.Typ_mk, Field.Names_mk, hfd, hfds,
                List.append_assoc, List.singleton_append]
            · simp [hname, hnames]
    | Ident v =>
      simp only [flattenSupported, Field.Typ_mk] at h
      cases ho : v.Obj with
      | none => simp [ho] at h
      | some o =>
        simp only [ho] at h
        cases hj : resolve o with
        | none => simp [hj] at h
        | some js =>
          cases hr : flattenSupported resolve rest with
          | none => simp [hj, hr] at h
          | some r =>
            simp only [hj, hr, Option.some.injEq] at h
            subst h
            have hsj : SimpleResults js := fun m hm => hs m (List.mem_append_left _ hm)
            have hsr : SimpleResults r := fun m hm => hs m (List.mem_append_right _ hm)
            obtain ⟨fdj, hfdj, hnj⟩ := hrec o js hj hsj
            obtain ⟨fds, hfds, hnames⟩ := ih r (acc ++ fdj) hr hsr
            refine ⟨fdj ++ fds, ?_, ?_⟩
            · simp only [memberDecls, Field.Typ_mk, ho, hfdj, hfds, List.append_assoc]
            · simp [hnj, hnames]
    | _ =>
      simp only [flattenSupported, Field.Typ_mk] at h
      obtain ⟨fds, hfds, hnames⟩ := ih ms acc h hs
      exact ⟨fds, by simpa [memberDecls, Field.Typ_mk] using hfds, hnames⟩

/-- With a recursion budget of at least the depth of the embedding,
`getFuncDecls` returns the flattening that passes over members of another
shape. -/
theorem getFuncDecls_supported (nodes : List Node) (structObj recvObj : Object) (p : Bool) :
    ∀ (depth : Nat) (o : Object) (ms : List (String × FuncType)),
      resolveSupported nodes depth o = some ms → SimpleResults ms →
      ∀ fuel, depth ≤ fuel →
        ∃ fds, getFuncDecls nodes structObj recvObj p fuel o = .ret fds ∧
          fds.map (fun fd => fd.Name) = ms.map (fun m => NewIdent m.1) := by
  intro depth
  induction depth with
  | zero => intro o ms h; simp [resolveSupported] at h
  | succ d ih =>
    intro o ms h hs fuel hfuel
    obtain ⟨k, rfl⟩ : ∃ k, fuel = k + 1 := ⟨fuel - 1, by omega⟩
    simp only [resolveSupported] at h
    rw [getFuncDecls_succ]
    cases hmem : membersOf nodes o with
    | none => simp [hmem] at h
    | some members =>
      simp only [hmem] at h
      obtain ⟨fds, hfds, hnames⟩ := rangeMethods_supported structObj recvObj p
        (resolveSupported nodes d) (getFuncDecls nodes structObj recvObj p k)
        (fun o2 js h2 hs2 => ih o2 js h2 hs2 k (by omega)) members ms [] h hs
      exact ⟨fds, by simpa using hfds, hnames⟩

/-! ## Type declarations local to a function body -/

theorem inspectStmts_append (n : String) (a b : List Stmt) :
    ∀ obj, inspectStmts n (a ++ b) obj = inspectStmts n b (inspectStmts n a obj) := by
  induction a with
  | nil => intro obj; simp [inspectStmts]
  | cons s rest ih => intro obj; simp [inspectStmts, ih]

/-- The walk yields the object of a type spec of the name looked for that is
declared among the statements of a function body, when no type declaration of
that name comes after it. -/
theorem inspectFile_last_local (f : File) (n : String) (pre post : List Decl) (d : FuncDecl)
    (stmts1 stmts2 : List Stmt) (tok : Token) (specs1 specs2 : List Spec) (name : Ident)
    (typ : Expr)
    (hdecls : f.Decls = pre ++ Decl.FuncDecl d :: post)
    (hbody : d.Body = some (stmts1 ++ Stmt.DeclStmt (GenDecl.mk tok
      (specs1 ++ Spec.TypeSpec name typ :: specs2)) :: stmts2))
    (hn : name.Name = n) (h2 : n ∉ typeNamesSpecs specs2) (hstmts : n ∉ typeNamesStmts stmts2)
    (hpost : n ∉ typeNamesDecls post) :
    inspectFile f n = name.Obj := by
  simp only [inspectFile, hdecls, inspectDecls_append, inspectDecls, inspectFuncDecl, hbody,
    inspectStmts_append, inspectStmts, inspectStmt, inspectGenDecl, inspectSpecs_append,
    inspectSpecs, inspectSpec, hn, ne_eq, not_true_eq_false, if_false]
  rw [inspectSpecs_skip n specs2 _ h2, inspectStmts_skip n stmts2 _ hstmts,
    inspectDecls_skip n post _ hpost]

/-! ## Parameters (claims C2, C3, C4) -/

/-- C2: with `PreserveParamNames = false`, for every method and every `K` from
1 to the number of its parameters, counted across all fields and all names of
a field: `newFuncDecl` returns a declaration when the result types of the
method are identifiers, and in every declaration it returns the `K`-th
parameter is one field whose single name is `arg` followed by `K` in decimal,
whatever name the parameter had.  The counter starts at 0 in every call, so
every method is numbered on its own. -/
theorem newFuncDecl_generic_param_names (recvObj structObj : Object) (funcName : String)
    (params results : Option (List Field)) (K : Nat)
    (h1 : 1 ≤ K) (hK : K ≤ NumFields params) :
    (SimpleTypes (results.getD []) →
      ∃ fd, newFuncDecl recvObj structObj funcName params results false = .ret fd) ∧
    ∀ fd, newFuncDecl recvObj structObj funcName params results false = .ret fd →
      ∃ l typ, fd.Typ.Params = some l ∧
        l[K - 1]? = some (Field.mk [NewIdent ("arg" ++ toString K)] typ) := by
  refine ⟨newFuncDecl_returns _ _ _ _ _ _, ?_⟩
  intro fd hret
  obtain ⟨_, _, hp⟩ := newFuncDecl_ret _ _ _ _ _ _ _ hret
  have hpos : NumFields params > 0 := by omega
  rw [newParams_eq, if_pos hpos] at hp
  cases params with
  | none => simp [NumFields] at hpos
  | some l =>
    have hlt : K - 1 < (splitFields l).length := by
      rw [length_splitFields]; omega
    refine ⟨_, ((splitFields l)[K - 1]).2, hp, ?_⟩
    rw [Option.getD_some, namedFrom_getElem?, List.getElem?_eq_getElem hlt]
    have hKK : 0 + (K - 1) + 1 = K := by omega
    simp only [Option.map_some', hKK]
    cases h : ((splitFields l)[K - 1]).1 <;> simp [paramName, Sprintf]

/-- Witness of C2 on `A(someInt, anotherInt int)`, second parameter. -/
theorem newFuncDecl_generic_param_names_witness :
    ∃ fd, newFuncDecl recvM objMyStruct "A" (some fieldsPair) none false = .ret fd ∧
      1 ≤ 2 ∧ 2 ≤ NumFields (some fieldsPair) ∧
      ∃ l typ, fd.Typ.Params = some l ∧ l[2 - 1]? = some (Field.mk [NewIdent "arg2"] typ) :=
  ⟨_, rfl, by decide, by decide,
    (newFuncDecl_generic_param_names recvM objMyStruct "A" (some fieldsPair) none 2
      (by decide) (by decide)).2 _ rfl⟩

/-- C3: with `PreserveParamNames = true`, for every method and every `K ≥ 1`
such that the `K`-th parameter of the method (counted across all fields and
names) has the optional name `nm` and the type `typ`: `newFuncDecl` returns a
declaration when the result types of the method are identifiers, and in every
declaration it returns the `K`-th parameter is one field of type `typ` whose
single name is the name of `nm` if there is one, and `arg` followed by `K` in
decimal if the parameter is unnamed. -/
theorem newFuncDecl_preserved_param_names (recvObj structObj : Object) (funcName : String)
    (params results : Option (List Field)) (K : Nat) (nm : Option Ident) (typ : Expr)
    (h1 : 1 ≤ K) (hK : (splitFields (params.getD []))[K - 1]? = some (nm, typ)) :
    (SimpleTypes (results.getD []) →
      ∃ fd, newFuncDecl recvObj structObj funcName params results true = .ret fd) ∧
    ∀ fd, newFuncDecl recvObj structObj funcName params results true = .ret fd →
      ∃ l, fd.Typ.Params = some l ∧
        l[K - 1]? = some (Field.mk
          [NewIdent ((nm.map Ident.Name).getD ("arg" ++ toString K))] typ) := by
  refine ⟨newFuncDecl_returns _ _ _ _ _ _, ?_⟩
  intro fd hret
  obtain ⟨_, _, hp⟩ := newFuncDecl_ret _ _ _ _ _ _ _ hret
  have hlt : K - 1 < (splitFields (params.getD [])).length := by
    by_contra hge
    rw [List.getElem?_eq_none (Nat.le_of_not_lt hge)] at hK
    exact Option.noConfusion hK
  have hpos : NumFields params > 0 := by
    cases params with
    | none => simp [splitFields] at hlt
    | some l => rw [Option.getD_some, length_splitFields] at hlt; omega
  rw [newParams_eq, if_pos hpos] at hp
  refine ⟨_, hp, ?_⟩
  rw [namedFrom_getElem?, hK]
  have hKK : 0 + (K - 1) + 1 = K := by omega
  simp only [Option.map_some', hKK]
  cases nm <;> simp [paramName, Sprintf]

/-- Witness of C3 on `A(p []byte, n, m int, string)`: the third parameter keeps
its name `m`. -/
theorem newFuncDecl_preserved_param_names_witness :
    ∃ fd, newFuncDecl recvM objMyStruct "A" (some fieldsMixed) none true = .ret fd ∧
      1 ≤ 3 ∧ (splitFields fieldsMixed)[3 - 1]? = some (some (NewIdent "m"), tInt) ∧
      ∃ l, fd.Typ.Params = some l ∧ l[3 - 1]? = some (Field.mk [NewIdent "m"] tInt) :=
  ⟨_, rfl, by decide, rfl,
    (newFuncDecl_preserved_param_names recvM objMyStruct "A" (some fieldsMixed) none 3
      (some (NewIdent "m")) tInt (by decide) rfl).2 _ rfl⟩

/-- C4: for either setting of `PreserveParamNames` and every method,
`newFuncDecl` returns a declaration when the result types of the method are
identifiers, and the parameter list of every declaration it returns is the
split form of the parameter list of the method: it stands for as many
parameters as the source list (`NumFields`), it has that many fields, every
field has exactly one name, and the types are those of the source fields, the
type of a field repeated once per name (once for a field without names),
unchanged whatever their shape. -/
theorem newFuncDecl_params_split (recvObj structObj : Object) (funcName : String)
    (params results : Option (List Field)) (preserveParamNames : Bool) :
    (SimpleTypes (results.getD []) →
      ∃ fd, newFuncDecl recvObj structObj funcName params results preserveParamNames
        = .ret fd) ∧
    ∀ fd, newFuncDecl recvObj structObj funcName params results preserveParamNames
        = .ret fd →
      NumFields fd.Typ.Params = NumFields params ∧
      (fd.Typ.Params.getD []).length = NumFields params ∧
      (∀ f ∈ fd.Typ.Params.getD [], f.Names.length = 1) ∧
      (fd.Typ.Params.getD []).map Field.Typ = splitTypes (params.getD []) := by
  refine ⟨newFuncDecl_returns _ _ _ _ _ _, ?_⟩
  intro fd hret
  obtain ⟨_, _, hp⟩ := newFuncDecl_ret _ _ _ _ _ _ _ hret
  rw [hp, newParams_eq]
  have key : ∀ (i : Nat) (xs : List (Option Ident × Expr)),
      (namedFrom preserveParamNames i xs).length = xs.length ∧
      (∀ f ∈ namedFrom preserveParamNames i xs, f.Names.length = 1) ∧
      (namedFrom preserveParamNames i xs).map Field.Typ = xs.map (fun x => x.2) ∧
      NumFields (some (namedFrom preserveParamNames i xs)) = xs.length := by
    intro i xs
    induction xs generalizing i with
    | nil => simp [namedFrom, NumFields]
    | cons x r ih =>
      obtain ⟨nm, t⟩ := x
      obtain ⟨h1, h2, h3, h4⟩ := ih (i + 1)
      simp only [NumFields] at h4
      refine ⟨by simp [namedFrom, h1], ?_, by simp [namedFrom, h3, Field.Typ_mk], ?_⟩
      · intro f hf
        simp only [namedFrom, List.mem_cons] at hf
        rcases hf with rfl | hf
        · simp [Field.Names_mk]
        · exact h2 f hf
      · simp only [NumFields, namedFrom, List.map_cons, List.sum_cons, h4, Field.Names_mk,
          List.length_cons, List.length_nil]
        simp [Nat.add_comm]
  by_cases hpos : NumFields params > 0
  · rw [if_pos hpos]
    cases params with
    | none => simp [NumFields] at hpos
    | some l =>
      obtain ⟨h1, h2, h3, h4⟩ := key 0 (splitFields l)
      rw [Option.getD_some, Option.getD_some]
      exact ⟨by rw [h4, length_splitFields], by rw [h1, length_splitFields], h2,
        by rw [h3]; rfl⟩
  · rw [if_neg hpos]
    have h0 : NumFields params = 0 := by omega
    cases params with
    | none => simp [NumFields, splitTypes, splitFields]
    | some l =>
      have hl : splitFields l = [] := by
        apply List.eq_nil_of_length_eq_zero
        rw [length_splitFields]; exact h0
      refine ⟨h0.symm, ?_, ?_, ?_⟩
      · simp [h0]
      · simp
      · simp [splitTypes, hl]

/-- Witness of C4 on `A(p []byte, n, m int, string)`: four parameters, the
slice type copied as it is. -/
theorem newFuncDecl_params_split_witness :
    SimpleTypes ((none : Option (List Field)).getD []) ∧
    ∃ fd, newFuncDecl recvM objMyStruct "A" (some fieldsMixed) none false = .ret fd ∧
      NumFields fd.Typ.Params = 4 ∧
      (fd.Typ.Params.getD []).length = 4 ∧
      (∀ f ∈ fd.Typ.Params.getD [], f.Names.length = 1) ∧
      (fd.Typ.Params.getD []).map Field.Typ
        = [Expr.ArrayType none (Expr.Ident (NewIdent "byte")), tInt, tInt, tString] :=
  ⟨by decide, _, rfl,
    (newFuncDecl_params_split recvM objMyStruct "A" (some fieldsMixed) none false).2 _ rfl⟩

/-! ## Results and body (claims C5, C6, C9) -/

/-- C5: for a method with `K ≥ 1` results, a field with several names counted
once per name, all of identifier type, `newFuncDecl` returns a declaration whose
body has exactly `K + 1` statements: for `j = 1..K` the `j`-th is
`var val<j> T`, a declaration of the single variable `val<j>` without
initializer whose type is the identifier named like the `j`-th result type, and
the last is one return statement with the operands `val1, ..., valK` in order. -/
theorem newFuncDecl_body (recvObj structObj : Object) (funcName : String)
    (params : Option (List Field)) (results : List Field) (preserveParamNames : Bool)
    (hK : 1 ≤ NumFields (some results)) (hs : SimpleTypes results) :
    ∃ fd body,
      newFuncDecl recvObj structObj funcName params (some results) preserveParamNames
        = .ret fd ∧
      fd.Body = some body ∧
      body.length = NumFields (some results) + 1 ∧
      (∀ j, j < NumFields (some results) →
        ∃ id, (splitTypes results)[j]? = some (Expr.Ident id) ∧
          body[j]? = some (varDecl (j + 1) id.Name)) ∧
      body[NumFields (some results)]?
        = some (Stmt.ReturnStmt
            ((List.range (NumFields (some results))).map (fun j => valRef (j + 1)))) := by
  have hlen := length_resultIdents results hs
  refine ⟨_, _, newFuncDecl_simple recvObj structObj funcName params results
    preserveParamNames hK hs, rfl, ?_, ?_, ?_⟩
  · simp [length_declsFrom, hlen]
  · intro j hj
    have hj2 : j < (resultIdents results).length := by omega
    refine ⟨(resultIdents results)[j], ?_, ?_⟩
    · rw [splitTypes_simple results hs, List.getElem?_map, List.getElem?_eq_getElem hj2]
      rfl
    · have hj3 : j < (declsFrom 0 (resultIdents results)).length := by
        rw [length_declsFrom]; exact hj2
      rw [List.getElem?_append_left hj3, declsFrom_getElem?, List.getElem?_eq_getElem hj2]
      simp
  · have hle : (declsFrom 0 (resultIdents results)).length ≤ NumFields (some results) := by
      rw [length_declsFrom, hlen]
    rw [List.getElem?_append_right hle, length_declsFrom, hlen, Nat.sub_self, refsFrom_eq_map]
    simp

/-- Witness of C5 on `A() (someInt, anotherInt int, err error)`: three results,
four statements. -/
theorem newFuncDecl_body_witness :
    1 ≤ NumFields (some resultsNamed) ∧ SimpleTypes resultsNamed ∧
    ∃ fd body, newFuncDecl recvM objMyStruct "A" none (some resultsNamed) false = .ret fd ∧
      fd.Body = some body ∧ body.length = 3 + 1 ∧
      (∀ j, j < 3 → ∃ id, (splitTypes resultsNamed)[j]? = some (Expr.Ident id) ∧
          body[j]? = some (varDecl (j + 1) id.Name)) ∧
      body[3]? = some (Stmt.ReturnStmt [valRef 1, valRef 2, valRef 3]) :=
  ⟨by decide, by decide,
    newFuncDecl_body recvM objMyStruct "A" none resultsNamed false (by decide) (by decide)⟩

/-- C6: for a method with at least one result, all of identifier type,
`newFuncDecl` returns a declaration whose result list has one field per result,
a source field contributing one field per name and a field without names one
field; no output field has a name; the output types are the source types in
order, the type of a field repeated once per name. -/
theorem newFuncDecl_results (recvObj structObj : Object) (funcName : String)
    (params : Option (List Field)) (results : List Field) (preserveParamNames : Bool)
    (hK : 1 ≤ NumFields (some results)) (hs : SimpleTypes results) :
    ∃ fd out,
      newFuncDecl recvObj structObj funcName params (some results) preserveParamNames
        = .ret fd ∧
      fd.Typ.Results = some out ∧
      out.length = NumFields (some results) ∧
      (∀ f ∈ out, f.Names = []) ∧
      out.map Field.Typ = splitTypes results := by
  refine ⟨_, _, newFuncDecl_simple recvObj structObj funcName params results
    preserveParamNames hK hs, rfl, ?_, ?_, ?_⟩
  · simp [length_resultIdents results hs]
  · intro f hf
    simp only [List.mem_map] at hf
    obtain ⟨id, _, rfl⟩ := hf
    rfl
  · rw [splitTypes_simple results hs, List.map_map]
    rfl

/-- Witness of C6 on `A() (someInt, anotherInt int, err error)`: the result
types are `int, int, error`. -/
theorem newFuncDecl_results_witness :
    1 ≤ NumFields (some resultsNamed) ∧ SimpleTypes resultsNamed ∧
    ∃ fd out, newFuncDecl recvM objMyStruct "A" none (some resultsNamed) false = .ret fd ∧
      fd.Typ.Results = some out ∧ out.length = 3 ∧ (∀ f ∈ out, f.Names = []) ∧
      out.map Field.Typ = [tInt, tInt, tError] :=
  ⟨by decide, by decide,
    newFuncDecl_results recvM objMyStruct "A" none resultsNamed false (by decide) (by decide)⟩

/-- C9: for a method that declares no result `newFuncDecl` returns a
declaration with an empty statement list and no result list; for a method that
declares no parameter it returns a declaration when the result types are
identifiers, and every declaration it returns has no parameter list; with
neither, it returns a declaration whose signature is the empty function type
`ast.FuncType{}`. -/
theorem newFuncDecl_empty_lists (recvObj structObj : Object) (funcName : String)
    (params results : Option (List Field)) (preserveParamNames : Bool) :
    (NumFields results = 0 →
      ∃ fd, newFuncDecl recvObj structObj funcName params results preserveParamNames
          = .ret fd ∧ fd.Body = some [] ∧ fd.Typ.Results = none) ∧
    (NumFields params = 0 →
      (SimpleTypes (results.getD []) →
        ∃ fd, newFuncDecl recvObj structObj funcName params results preserveParamNames
          = .ret fd) ∧
      ∀ fd, newFuncDecl recvObj structObj funcName params results preserveParamNames
          = .ret fd → fd.Typ.Params = none) ∧
    (NumFields params = 0 → NumFields results = 0 →
      ∃ fd, newFuncDecl recvObj structObj funcName params results preserveParamNames
          = .ret fd ∧ fd.Typ = FuncType.mk none none) := by
  have hnp : NumFields params = 0 → newParams params preserveParamNames = none := by
    intro h
    rw [newParams_eq, if_neg (by omega)]
  refine ⟨fun h => ⟨_, newFuncDecl_no_results _ _ _ _ _ _ h, rfl, rfl⟩, ?_, ?_⟩
  · intro h
    refine ⟨newFuncDecl_returns _ _ _ _ _ _, ?_⟩
    intro fd hret
    rw [(newFuncDecl_ret _ _ _ _ _ _ _ hret).2.2, hnp h]
  · intro hp hr
    refine ⟨_, newFuncDecl_no_results _ _ _ _ _ _ hr, ?_⟩
    simp only [hnp hp]

/-- Witness of C9 on the method `A()` of the tests, parsed with an empty
parameter list and a nil result list. -/
theorem newFuncDecl_empty_lists_witness :
    NumFields (some []) = 0 ∧ NumFields none = 0 ∧
    (∃ fd, newFuncDecl recvM objMyStruct "A" (some []) none false = .ret fd ∧
      fd.Body = some [] ∧ fd.Typ.Results = none) ∧
    (∃ fd, newFuncDecl recvM objMyStruct "A" (some []) none false = .ret fd ∧
      fd.Typ = FuncType.mk none none) :=
  ⟨rfl, rfl, (newFuncDecl_empty_lists recvM objMyStruct "A" (some []) none false).1 rfl,
    (newFuncDecl_empty_lists recvM objMyStruct "A" (some []) none false).2.2 rfl rfl⟩

/-! ## `Pour` (claims C1, C7, C8, C10) -/

/-- C1, as stated, fails on three inputs.  (1) `Opener` has one direct method
`Open(name string) *File`, its flattening is `[Open]`, and `Pour` panics on the
pointer result type.  (2) `MyInterface { A(); B() }` flattens to `[A, B]`, and
`Pour` with the empty struct name panics on `structName[0]`.  (3) In
`fileShadow` the package-level `MyInterface` flattens to `[A]`, and `Pour`
returns the method `B` of the local type of the same name. -/
theorem Pour_flatten_counterexample :
    (resolveMethods fileOpener.Nodes 1 (typeObj "Opener" 0)
        = some [("Open", FuncType.mk (some [Field.mk [NewIdent "name"] tString])
            (some [Field.mk [] (Expr.StarExpr (Expr.Ident (NewIdent "File")))]))] ∧
      Pour parseOpener 1 [] "Opener" "myStruct" { PreserveParamNames := false }
        = .panic "could not get ident for field") ∧
    (resolveMethods fileMyInterface.Nodes 1 (typeObj "MyInterface" 0)
        = some [("A", FuncType.mk (some []) none), ("B", FuncType.mk (some []) none)] ∧
      Pour parseMyInterface 1 [] "MyInterface" "" { PreserveParamNames := false }
        = .panic "index out of range [0] with length 0") ∧
    (resolveMethods fileShadow.Nodes 1 (typeObj "MyInterface" 0)
        = some [("A", FuncType.mk (some []) none)] ∧
      ∃ g fds, Pour parseShadow 1 [] "MyInterface" "myStruct" { PreserveParamNames := false }
          = .ret (some g, fds, none) ∧
        fds.map (fun fd => fd.Name) = [NewIdent "B"]) :=
  ⟨⟨rfl, rfl⟩, ⟨rfl, rfl⟩, ⟨rfl, _, _, rfl, rfl⟩⟩

/-- C1, amended: let the struct name be non-empty, let the file parse, and let
`o` be the object that the walk of `Pour` selects for `interfaceName`.
(a) If the interface of `o` has the resolved method set `ms` (its members are
direct methods or embedded identifiers that resolve, through an embedding chain
of at most `depth` interfaces, to interfaces of the file) and all result types
in `ms` are identifiers, then with a recursion budget of at least `depth`,
`Pour` returns without error and the names of the returned declarations are
the names of `ms`, in order, duplicates kept.  (b) In particular, if the
members are the `N` direct methods `sigs`, `Pour` returns exactly `N`
declarations, the `k`-th with the name of the `k`-th method. -/
theorem Pour_flatten (ParseFile : List Nat → Except Err File) (src : List Nat)
    (interfaceName structName : String) (opts : Opts) (f : File) (o : Object)
    (hname : interfaceName ≠ "") (hstruct : structName ≠ "")
    (hparse : ParseFile src = .ok f) (hfind : inspectFile f interfaceName = some o) :
    (∀ depth ms fuel, resolveMethods f.Nodes depth o = some ms → SimpleResults ms →
      depth ≤ fuel →
      ∃ g fds, Pour ParseFile fuel src interfaceName structName opts
          = .ret (some g, fds, none) ∧
        fds.map (fun fd => fd.Name) = ms.map (fun m => NewIdent m.1)) ∧
    (∀ (sigs : List (Ident × FuncType)) name fuel,
      o.Decl.bind (fun a => f.Nodes.get? a)
        = some (Node.Spec (Spec.TypeSpec name (Expr.InterfaceType
            (sigs.map (fun s => Field.mk [s.1] (Expr.FuncType s.2)))))) →
      (∀ s ∈ sigs, SimpleTypes (s.2.Results.getD [])) → 1 ≤ fuel →
      ∃ g fds, Pour ParseFile fuel src interfaceName structName opts
          = .ret (some g, fds, none) ∧
        fds.length = sigs.length ∧
        ∀ k, k < sigs.length →
          fds[k]?.map (fun fd => fd.Name) = sigs[k]?.map (fun s => NewIdent s.1.Name)) := by
  obtain ⟨b, hb⟩ := firstByte_of_ne structName hstruct
  have main : ∀ depth ms fuel, resolveMethods f.Nodes depth o = some ms → SimpleResults ms →
      depth ≤ fuel →
      ∃ g fds, Pour ParseFile fuel src interfaceName structName opts
          = .ret (some g, fds, none) ∧
        fds.map (fun fd => fd.Name) = ms.map (fun m => NewIdent m.1) := by
    intro depth ms fuel hflat hs hfuel
    obtain ⟨fds, hget, hnames⟩ := getFuncDecls_flatten f.Nodes (NewObj ObjKind.Typ structName)
      (NewObj ObjKind.Typ (byteToString b)) opts.PreserveParamNames depth o ms hflat hs fuel hfuel
    exact ⟨_, fds, Pour_of_getFuncDecls ParseFile fuel src interfaceName structName opts f o b
      fds hname hparse hfind hb hget, hnames⟩
  refine ⟨main, ?_⟩
  intro sigs name fuel hdecl hs hfuel
  have hflat : resolveMethods f.Nodes 1 o = some (sigs.map (fun s => (s.1.Name, s.2))) := by
    simp only [resolveMethods, hdecl, flattenMembers_direct]
  have hsr : SimpleResults (sigs.map (fun s => (s.1.Name, s.2))) := by
    intro m hm
    simp only [List.mem_map] at hm
    obtain ⟨s, hsm, rfl⟩ := hm
    exact hs s hsm
  obtain ⟨g, fds, hpour, hnames⟩ := main 1 _ fuel hflat hsr hfuel
  refine ⟨g, fds, hpour, ?_, ?_⟩
  · have := congrArg List.length hnames
    simpa using this
  · intro k _
    have := congrArg (fun l => l[k]?) hnames
    simpa [List.getElem?_map] using this

/-- Witness of C1 on `ReadCloser { Reader; Flush(); Closer }` (embedding depth
2) and on the interface `MyInterface { A(); B() }` of the tests. -/
theorem Pour_flatten_witness :
    (resolveMethods fileReadCloser.Nodes 2 (typeObj "ReadCloser" 2)
        = some methodsReadCloser ∧ SimpleResults methodsReadCloser ∧
      ∃ g fds, Pour parseReadCloser 2 [] "ReadCloser" "myStruct" { PreserveParamNames := false }
          = .ret (some g, fds, none) ∧
        fds.map (fun fd => fd.Name)
          = [NewIdent "Read", NewIdent "Flush", NewIdent "Close"]) ∧
    (∃ g fds, Pour parseMyInterface 1 [] "MyInterface" "myStruct" { PreserveParamNames := false }
        = .ret (some g, fds, none) ∧ fds.length = 2 ∧
      ∀ k, k < 2 → fds[k]?.map (fun fd => fd.Name)
        = sigsMyInterface[k]?.map (fun s => NewIdent s.1.Name)) :=
  ⟨⟨rfl, by decide,
    (Pour_flatten parseReadCloser [] "ReadCloser" "myStruct" { PreserveParamNames := false }
      fileReadCloser (typeObj "ReadCloser" 2) (by decide) (by decide) rfl rfl).1
      2 methodsReadCloser 2 rfl (by decide) (Nat.le_refl 2)⟩,
    (Pour_flatten parseMyInterface [] "MyInterface" "myStruct" { PreserveParamNames := false }
      fileMyInterface (typeObj "MyInterface" 0) (by decide) (by decide) rfl rfl).2
      sigsMyInterface _ 1 rfl (by decide) (Nat.le_refl 1)⟩

/-- C7: whenever `Pour` returns without error, the type declaration it returns
has the token `TYPE` and exactly one spec, a type spec whose name is
`structName` and whose type is a struct type with an empty field list,
whatever the interface contains and whatever the options are. -/
theorem Pour_genDecl (ParseFile : List Nat → Except Err File) (fuel : Nat) (src : List Nat)
    (interfaceName structName : String) (opts : Opts) (g : Option GenDecl)
    (fds : List FuncDecl)
    (h : Pour ParseFile fuel src interfaceName structName opts = .ret (g, fds, none)) :
    g = some (GenDecl.mk Token.TYPE
      [Spec.TypeSpec { Name := structName, Obj := some (NewObj ObjKind.Typ structName) }
        (Expr.StructType [])]) := by
  obtain ⟨_, _, _, _, _, _, _, _, hg⟩ := Pour_ok _ _ _ _ _ _ _ _ h
  exact hg

/-- Witness of C7 on `ReadCloser`, with parameter names preserved. -/
theorem Pour_genDecl_witness :
    ∃ g fds, Pour parseReadCloser 2 [] "ReadCloser" "myStruct" { PreserveParamNames := true }
        = .ret (g, fds, none) ∧
      g = some (GenDecl.mk Token.TYPE
        [Spec.TypeSpec { Name := "myStruct", Obj := some (NewObj ObjKind.Typ "myStruct") }
          (Expr.StructType [])]) :=
  ⟨_, _, rfl, Pour_genDecl parseReadCloser 2 [] "ReadCloser" "myStruct"
    { PreserveParamNames := true } _ _ rfl⟩

/-- C8 at the struct name `étoile`: `Pour` succeeds on the interface of the
tests, and the receiver of both methods is named `Ã`, the character whose code
point is the first byte `0xC3` of the UTF-8 encoding of `é`, not the first
character `é` of the struct name. -/
theorem Pour_receiver_first_byte :
    "étoile".data.head? = some 'é' ∧
    ∃ g fds, Pour parseMyInterface 1 [] "MyInterface" "étoile" { PreserveParamNames := false }
        = .ret (some g, fds, none) ∧
      fds.map (fun fd => fd.Recv.map (fun l => l.map (fun f => f.Names.map (fun n => n.Name))))
        = [some [["Ã"]], some [["Ã"]]] ∧
      "Ã" ≠ String.singleton 'é' :=
  ⟨rfl, _, _, rfl, rfl, by decide⟩

/-- C10: with the empty interface name, `Pour` returns the error
`must provide interface varName`, no type declaration and no method
declaration, for every parser (also one that fails on the source), every
source, every struct name (also the empty one), every option value and every
recursion budget: the check comes before the source is parsed and before the
struct name is read. -/
theorem Pour_empty_interfaceName (ParseFile : List Nat → Except Err File) (fuel : Nat)
    (src : List Nat) (structName : String) (opts : Opts) :
    Pour ParseFile fuel src "" structName opts
      = .ret (none, [], some (Err.New "must provide interface varName")) := by
  simp [Pour]

/-! ## Shapes that `Pour` does not support (claims C12, C13, C14, C16) -/

/-- C12, as stated, fails on `type Config struct { Port int }`: `Pour` does not
return an error result, it panics with `not ok`. -/
theorem Pour_not_interface_counterexample :
    Pour parseConfig 1 [] "Config" "myStruct" { PreserveParamNames := false }
        = .panic "not ok" ∧
    ∀ r, Pour parseConfig 1 [] "Config" "myStruct" { PreserveParamNames := false } ≠ .ret r :=
  ⟨rfl, fun _ h => Outcome.noConfusion (h.symm.trans (rfl : Pour parseConfig 1 [] "Config"
    "myStruct" { PreserveParamNames := false } = .panic "not ok"))⟩

/-- C12, amended: when the file parses, the struct name is not empty and the
declaration that the walk of `Pour` selects for `interfaceName` is a type spec
whose type is not an interface type, `Pour` does not return an error result:
with a recursion budget of at least one it panics with the message `not ok`,
the shape test of `getFuncDecls`, and hands no declaration to its caller. -/
theorem Pour_not_interface (ParseFile : List Nat → Except Err File) (fuel : Nat)
    (src : List Nat) (interfaceName structName : String) (opts : Opts) (f : File)
    (o : Object) (name : Ident) (typ : Expr)
    (hname : interfaceName ≠ "") (hstruct : structName ≠ "")
    (hparse : ParseFile src = .ok f) (hfind : inspectFile f interfaceName = some o)
    (hdecl : o.Decl.bind (fun a => f.Nodes.get? a) = some (Node.Spec (Spec.TypeSpec name typ)))
    (hshape : ∀ methods, typ ≠ Expr.InterfaceType methods) (hfuel : 1 ≤ fuel) :
    Pour ParseFile fuel src interfaceName structName opts = .panic "not ok" := by
  obtain ⟨b, hb⟩ := firstByte_of_ne structName hstruct
  obtain ⟨k, rfl⟩ : ∃ k, fuel = k + 1 := ⟨fuel - 1, by omega⟩
  have hmem : membersOf f.Nodes o = none := by
    simp only [membersOf, hdecl]
    split
    · rename_i heq
      simp only [Option.some.injEq, Node.Spec.injEq, Spec.TypeSpec.injEq] at heq
      exact absurd heq.2 (hshape _)
    · rfl
  rw [Pour_found ParseFile _ src interfaceName structName opts f o b hname hparse hfind hb,
    getFuncDecls_succ, hmem]

/-- Witness of C12 on `type Config struct { Port int }`. -/
theorem Pour_not_interface_witness :
    Pour parseConfig 3 [] "Config" "myStruct" { PreserveParamNames := true }
      = .panic "not ok" :=
  Pour_not_interface parseConfig 3 [] "Config" "myStruct" { PreserveParamNames := true }
    fileConfig (typeObj "Config" 0) _ _ (by decide) (by decide) rfl rfl rfl
    (fun _ h => Expr.noConfusion h) (by decide)

/-- C13, as stated, fails on `type Coded interface { Code() int; error }`: the
embedded `error` has no interface declaration in the file, and `Pour` does not
return an error result that names it, it panics with a message that does not
name it. -/
theorem Pour_unresolved_embed_counterexample :
    UnresolvedEmbed fileCoded.Nodes (Field.mk [] tError) ∧
    Field.mk [] tError ∈ reachMembers fileCoded.Nodes 1 (typeObj "Coded" 0) ∧
    Pour parseCoded 1 [] "Coded" "myStruct" { PreserveParamNames := false }
        = .panic "found embedded interface with no associated interface" ∧
    ∀ r, Pour parseCoded 1 [] "Coded" "myStruct" { PreserveParamNames := false } ≠ .ret r :=
  ⟨⟨NewIdent "error", rfl, Or.inl rfl⟩, by simp [reachMembers, membersOf, fileCoded, specCoded,
      typeObj, tError],
    rfl, fun _ h => Outcome.noConfusion (h.symm.trans (rfl : Pour parseCoded 1 [] "Coded"
      "myStruct" { PreserveParamNames := false }
        = .panic "found embedded interface with no associated interface"))⟩

/-- C13, amended: let the file parse and let `o` be the object that the walk of
`Pour` selects for `interfaceName`.  (a) If the interface of `o` has, directly
or through embedded interfaces, an embedded identifier without interface
declaration in the file, `Pour` hands nothing to its caller, neither an error
result nor method declarations, whatever the recursion budget.  (b) If such an
identifier, unresolved by the parser, is a direct member and the members before
it resolve with results of identifier type, `Pour` with a non-empty struct name
and a recursion budget above their embedding depth panics with the message
`found embedded interface with no associated interface`. -/
theorem Pour_unresolved_embed (ParseFile : List Nat → Except Err File) (src : List Nat)
    (interfaceName structName : String) (opts : Opts) (f : File) (o : Object)
    (hname : interfaceName ≠ "") (hparse : ParseFile src = .ok f)
    (hfind : inspectFile f interfaceName = some o) :
    ((∃ depth, ∃ field ∈ reachMembers f.Nodes depth o, UnresolvedEmbed f.Nodes field) →
      ∀ fuel r, Pour ParseFile fuel src interfaceName structName opts ≠ .ret r) ∧
    (∀ pre names v post depth ms fuel,
      membersOf f.Nodes o = some (pre ++ Field.mk names (Expr.Ident v) :: post) →
      v.Obj = none →
      flattenMembers (resolveMethods f.Nodes depth) pre = some ms → SimpleResults ms →
      depth + 1 ≤ fuel → structName ≠ "" →
      Pour ParseFile fuel src interfaceName structName opts
        = .panic "found embedded interface with no associated interface") := by
  constructor
  · rintro ⟨depth, field, hfield, hbad⟩ fuel r h
    obtain ⟨b, _, hget⟩ := Pour_found_ret ParseFile fuel src interfaceName structName opts f o r
      hname hparse hfind h
    exact (getFuncDecls_ret_members _ _ _ _ fuel o _ hget depth field hfield).1 hbad
  · intro pre names v post depth ms fuel hmem hv hpre hs hfuel hstruct
    obtain ⟨b, hb⟩ := firstByte_of_ne structName hstruct
    rw [Pour_found ParseFile fuel src interfaceName structName opts f o b hname hparse hfind hb,
      getFuncDecls_panic_at f.Nodes _ _ _ o pre post _
        "found embedded interface with no associated interface" depth fuel ms hmem hpre hs hfuel
        (fun recur => by simp [memberDecls, Field.Typ_mk, hv])]

/-- Witness of C13 on `type Coded interface { Code() int; error }`. -/
theorem Pour_unresolved_embed_witness :
    (∀ fuel r, Pour parseCoded fuel [] "Coded" "myStruct" { PreserveParamNames := true }
        ≠ .ret r) ∧
    Pour parseCoded 2 [] "Coded" "myStruct" { PreserveParamNames := true }
      = .panic "found embedded interface with no associated interface" :=
  ⟨(Pour_unresolved_embed parseCoded [] "Coded" "myStruct" { PreserveParamNames := true }
      fileCoded (typeObj "Coded" 0) (by decide) rfl rfl).1
      ⟨1, Field.mk [] tError, by simp [reachMembers, membersOf, fileCoded, specCoded,
        typeObj, tError], NewIdent "error", rfl, Or.inl rfl⟩,
    (Pour_unresolved_embed parseCoded [] "Coded" "myStruct" { PreserveParamNames := true }
      fileCoded (typeObj "Coded" 0) (by decide) rfl rfl).2
      [Field.mk [NewIdent "Code"] (Expr.FuncType (FuncType.mk (some [])
        (some [Field.mk [] tInt])))] [] (NewIdent "error") [] 1
      [("Code", FuncType.mk (some []) (some [Field.mk [] tInt]))] 2 rfl rfl rfl
      (by decide) (by decide) (by decide)⟩

/-- C14, as stated, fails on
`type Fetcher interface { Name() string; Body() io.Reader }`: the result type
`io.Reader` is not an identifier, and `Pour` does not return an error result,
it panics. -/
theorem Pour_unsupported_result_counterexample :
    UnsupportedResult (Field.mk [NewIdent "Body"] (Expr.FuncType (FuncType.mk (some [])
        (some [Field.mk [] tIoReader])))) ∧
    Pour parseFetcher 1 [] "Fetcher" "myStruct" { PreserveParamNames := false }
        = .panic "could not get ident for field" ∧
    ∀ r, Pour parseFetcher 1 [] "Fetcher" "myStruct" { PreserveParamNames := false }
      ≠ .ret r :=
  ⟨⟨_, rfl, by decide⟩, rfl,
    fun _ h => Outcome.noConfusion (h.symm.trans (rfl : Pour parseFetcher 1 [] "Fetcher"
      "myStruct" { PreserveParamNames := false } = .panic "could not get ident for field"))⟩

/-- C14, amended: let the file parse and let `o` be the object that the walk of
`Pour` selects for `interfaceName`.  (a) If the interface of `o` contains,
directly or through embedded interfaces, a method with a result field whose
type is not an identifier, `Pour` hands nothing to its caller, neither an error
result nor declarations, whatever the recursion budget.  (b) If such a method
is a direct member and the members before it resolve with results of
identifier type, `Pour` with a non-empty struct name and a recursion budget
above their embedding depth panics with the message
`could not get ident for field`, the type test of `recordField`. -/
theorem Pour_unsupported_result (ParseFile : List Nat → Except Err File) (src : List Nat)
    (interfaceName structName : String) (opts : Opts) (f : File) (o : Object)
    (hname : interfaceName ≠ "") (hparse : ParseFile src = .ok f)
    (hfind : inspectFile f interfaceName = some o) :
    ((∃ depth, ∃ field ∈ reachMembers f.Nodes depth o, UnsupportedResult field) →
      ∀ fuel r, Pour ParseFile fuel src interfaceName structName opts ≠ .ret r) ∧
    (∀ pre name more v post depth ms fuel,
      membersOf f.Nodes o
        = some (pre ++ Field.mk (name :: more) (Expr.FuncType v) :: post) →
      ¬ SimpleTypes (v.Results.getD []) →
      flattenMembers (resolveMethods f.Nodes depth) pre = some ms → SimpleResults ms →
      depth + 1 ≤ fuel → structName ≠ "" →
      Pour ParseFile fuel src interfaceName structName opts
        = .panic "could not get ident for field") := by
  constructor
  · rintro ⟨depth, field, hfield, hbad⟩ fuel r h
    obtain ⟨b, _, hget⟩ := Pour_found_ret ParseFile fuel src interfaceName structName opts f o r
      hname hparse hfind h
    exact (getFuncDecls_ret_members _ _ _ _ fuel o _ hget depth field hfield).2 hbad
  · intro pre name more v post depth ms fuel hmem hv hpre hs hfuel hstruct
    obtain ⟨b, hb⟩ := firstByte_of_ne structName hstruct
    rw [Pour_found ParseFile fuel src interfaceName structName opts f o b hname hparse hfind hb,
      getFuncDecls_panic_at f.Nodes _ _ _ o pre post _
        "could not get ident for field" depth fuel ms hmem hpre hs hfuel
        (fun recur => by
          simp [memberDecls, Field.Typ_mk, Field.Names_mk, newFuncDecl_unsupported _ _ _ _ _ _ hv])]

/-- Witness of C14 on
`type Fetcher interface { Name() string; Body() io.Reader }`. -/
theorem Pour_unsupported_result_witness :
    (∀ fuel r, Pour parseFetcher fuel [] "Fetcher" "myStruct" { PreserveParamNames := true }
        ≠ .ret r) ∧
    Pour parseFetcher 2 [] "Fetcher" "myStruct" { PreserveParamNames := true }
      = .panic "could not get ident for field" :=
  ⟨(Pour_unsupported_result parseFetcher [] "Fetcher" "myStruct"
      { PreserveParamNames := true } fileFetcher (typeObj "Fetcher" 0) (by decide) rfl rfl).1
      ⟨1, Field.mk [NewIdent "Body"] (Expr.FuncType (FuncType.mk (some [])
          (some [Field.mk [] tIoReader]))),
        by simp [reachMembers, membersOf, fileFetcher, specFetcher, typeObj],
        _, rfl, by decide⟩,
    (Pour_unsupported_result parseFetcher [] "Fetcher" "myStruct"
      { PreserveParamNames := true } fileFetcher (typeObj "Fetcher" 0) (by decide) rfl rfl).2
      [Field.mk [NewIdent "Name"] (Expr.FuncType (FuncType.mk (some [])
        (some [Field.mk [] tString])))] (NewIdent "Body") [] _ [] 1
      [("Name", FuncType.mk (some []) (some [Field.mk [] tString]))] 2 rfl (by decide) rfl
      (by decide) (by decide) (by decide)⟩

/-- C16, as stated, fails on
`type ReadFlusher interface { io.Reader; Flush() error }`: `Pour` succeeds and
returns the one method `Flush`; the embedded `io.Reader` is passed over and
its methods are missing. -/
theorem Pour_members_counterexample :
    ∃ g fds, Pour parseReadFlusher 1 [] "ReadFlusher" "myStruct" { PreserveParamNames := false }
        = .ret (some g, fds, none) ∧
      fds.map (fun fd => fd.Name) = [NewIdent "Flush"] :=
  ⟨_, _, rfl, rfl⟩

/-- C16, amended: (a) whenever `Pour` returns without error, the walk has
selected an object `o`, `getFuncDecls` has returned on it, and every call of
`getFuncDecls` that returns, on `o` or on an interface it embeds, returns the
declarations of the members of the interface in the order of the members,
where a member is a direct method, which yields exactly one declaration, with
the name of the method; or an embedded identifier, which yields what the
recursive call returns for the interface it refers to; or a member of another
shape, which yields no declaration.  (b) A member of another shape is passed
over: the loop over the members goes on as if the member were not in the list,
whatever stands before and after it.  (c) Such a member does not make `Pour`
fail: when the file parses, the struct name is not empty and the interface
that the walk selects resolves, members of another shape left out, to the
methods `ms` with results of identifier type, `Pour` returns without error the
declarations of `ms`, which lack the methods of the members passed over. -/
theorem Pour_members (ParseFile : List Nat → Except Err File) (fuel : Nat) (src : List Nat)
    (interfaceName structName : String) (opts : Opts) :
    (∀ g fds, Pour ParseFile fuel src interfaceName structName opts = .ret (g, fds, none) →
      ∃ f o b, ParseFile src = .ok f ∧ inspectFile f interfaceName = some o ∧
        firstByte structName = .ret b ∧
        getFuncDecls f.Nodes (NewObj ObjKind.Typ structName)
          (NewObj ObjKind.Typ (byteToString b)) opts.PreserveParamNames fuel o = .ret fds ∧
        ∀ fuel2 o2 fds2,
          getFuncDecls f.Nodes (NewObj ObjKind.Typ structName)
            (NewObj ObjKind.Typ (byteToString b)) opts.PreserveParamNames fuel2 o2
              = .ret fds2 →
          ∃ k members parts, fuel2 = k + 1 ∧ membersOf f.Nodes o2 = some members ∧
            fds2 = parts.flatten ∧
            List.Forall₂ (fun field part =>
              (∃ v name more fd, field.Typ = Expr.FuncType v ∧ field.Names = name :: more ∧
                newFuncDecl (NewObj ObjKind.Typ (byteToString b))
                  (NewObj ObjKind.Typ structName)
                  name.Name v.Params v.Results opts.PreserveParamNames = .ret fd ∧
                fd.Name = NewIdent name.Name ∧ part = [fd]) ∨
              (∃ v o3, field.Typ = Expr.Ident v ∧ v.Obj = some o3 ∧
                getFuncDecls f.Nodes (NewObj ObjKind.Typ structName)
                  (NewObj ObjKind.Typ (byteToString b)) opts.PreserveParamNames k o3
                    = .ret part) ∨
              ((∀ v, field.Typ ≠ Expr.FuncType v) ∧ (∀ v, field.Typ ≠ Expr.Ident v) ∧
                part = [])) members parts) ∧
    (∀ (structObj recvObj : Object) (recur : Object → Outcome (List FuncDecl))
      (pre post : List Field) (names : List Ident) (typ : Expr) (acc : List FuncDecl),
      (∀ v, typ ≠ Expr.FuncType v) → (∀ v, typ ≠ Expr.Ident v) →
      rangeMethods structObj recvObj opts.PreserveParamNames recur
          (pre ++ Field.mk names typ :: post) acc
        = rangeMethods structObj recvObj opts.PreserveParamNames recur (pre ++ post) acc) ∧
    (∀ f o depth ms, interfaceName ≠ "" → structName ≠ "" → ParseFile src = .ok f →
      inspectFile f interfaceName = some o →
      resolveSupported f.Nodes depth o = some ms → SimpleResults ms → depth ≤ fuel →
      ∃ g fds, Pour ParseFile fuel src interfaceName structName opts
          = .ret (some g, fds, none) ∧
        fds.map (fun fd => fd.Name) = ms.map (fun m => NewIdent m.1)) := by
  refine ⟨?_, ?_, ?_⟩
  · intro g fds h
    obtain ⟨f, o, b, _, hparse, hfind, hb, hget, _⟩ := Pour_ok _ _ _ _ _ _ _ _ h
    refine ⟨f, o, b, hparse, hfind, hb, hget, ?_⟩
    intro fuel2 o2 fds2 h2
    obtain ⟨k, members, parts, hk, hmem, hf, hfl⟩ := (getFuncDecls_ret_iff _ _ _ _ _ _ _).mp h2
    refine ⟨k, members, parts, hk, hmem, hfl, ?_⟩
    refine hf.imp ?_
    intro field part hpart
    obtain ⟨names, typ⟩ := field
    cases typ with
    | FuncType v =>
      left
      cases names with
      | nil => simp [memberDecls, Field.Typ_mk, Field.Names_mk] at hpart
      | cons name more =>
        simp only [memberDecls, Field.Typ_mk, Field.Names_mk] at hpart
        split at hpart
        · rename_i fd hfd
          simp only [Outcome.ret.injEq] at hpart
          exact ⟨v, name, more, fd, rfl, rfl, hfd, (newFuncDecl_ret _ _ _ _ _ _ _ hfd).2.1,
            hpart.symm⟩
        · simp at hpart
        · simp at hpart
    | Ident v =>
      right; left
      simp only [memberDecls, Field.Typ_mk] at hpart
      split at hpart
      · simp at hpart
      · rename_i o3 ho3
        exact ⟨v, o3, rfl, ho3, hpart⟩
    | _ =>
      right; right
      simp only [memberDecls, Field.Typ_mk, Outcome.ret.injEq] at hpart
      exact ⟨fun v hv => Expr.noConfusion hv, fun v hv => Expr.noConfusion hv, hpart.symm⟩
  · intro structObj recvObj recur pre post names typ acc hfunc hident
    exact rangeMethods_pass_over structObj recvObj _ recur names typ hfunc hident post pre acc
  · intro f o depth ms hname hstruct hparse hfind hres hs hfuel
    obtain ⟨b, hb⟩ := firstByte_of_ne structName hstruct
    obtain ⟨fds, hget, hnames⟩ := getFuncDecls_supported f.Nodes
      (NewObj ObjKind.Typ structName) (NewObj ObjKind.Typ (byteToString b))
      opts.PreserveParamNames depth o ms hres hs fuel hfuel
    exact ⟨_, fds, Pour_of_getFuncDecls ParseFile fuel src interfaceName structName opts f o b
      fds hname hparse hfind hb hget, hnames⟩

/-- Witness of C16 on `type ReadFlusher interface { io.Reader; Flush() error }`:
with `io.Reader` left out the interface resolves to `Flush`, `Pour` returns
without error, what it returns is accounted for member by member, and the loop
over `[io.Reader, Flush]` does what the loop over `[Flush]` does. -/
theorem Pour_members_witness :
    resolveSupported fileReadFlusher.Nodes 1 (typeObj "ReadFlusher" 0)
      = some [("Flush", FuncType.mk (some []) (some [Field.mk [] tError]))] ∧
    (∃ g fds, Pour parseReadFlusher 1 [] "ReadFlusher" "myStruct" { PreserveParamNames := false }
        = .ret (some g, fds, none) ∧
      fds.map (fun fd => fd.Name) = [NewIdent "Flush"]) ∧
    (∀ recur acc, rangeMethods objMyStruct recvM false recur
        ([] ++ Field.mk [] tIoReader ::
          [Field.mk [NewIdent "Flush"] (Expr.FuncType (FuncType.mk (some [])
            (some [Field.mk [] tError])))]) acc
      = rangeMethods objMyStruct recvM false recur
        ([] ++ [Field.mk [NewIdent "Flush"] (Expr.FuncType (FuncType.mk (some [])
            (some [Field.mk [] tError])))]) acc) ∧
    (∃ g fds, Pour parseReadFlusher 1 [] "ReadFlusher" "myStruct" { PreserveParamNames := false }
        = .ret (g, fds, none) ∧
      ∃ f o b, parseReadFlusher [] = .ok f ∧ inspectFile f "ReadFlusher" = some o ∧
        firstByte "myStruct" = .ret b ∧
        getFuncDecls f.Nodes (NewObj ObjKind.Typ "myStruct")
          (NewObj ObjKind.Typ (byteToString b)) false 1 o = .ret fds ∧
        ∀ fuel2 o2 fds2,
          getFuncDecls f.Nodes (NewObj ObjKind.Typ "myStruct")
            (NewObj ObjKind.Typ (byteToString b)) false fuel2 o2 = .ret fds2 →
          ∃ k members parts, fuel2 = k + 1 ∧ membersOf f.Nodes o2 = some members ∧
            fds2 = parts.flatten ∧
            List.Forall₂ (fun field part =>
              (∃ v name more fd, field.Typ = Expr.FuncType v ∧ field.Names = name :: more ∧
                newFuncDecl (NewObj ObjKind.Typ (byteToString b))
                  (NewObj ObjKind.Typ "myStruct")
                  name.Name v.Params v.Results false = .ret fd ∧
                fd.Name = NewIdent name.Name ∧ part = [fd]) ∨
              (∃ v o3, field.Typ = Expr.Ident v ∧ v.Obj = some o3 ∧
                getFuncDecls f.Nodes (NewObj ObjKind.Typ "myStruct")
                  (NewObj ObjKind.Typ (byteToString b)) false k o3 = .ret part) ∨
              ((∀ v, field.Typ ≠ Expr.FuncType v) ∧ (∀ v, field.Typ ≠ Expr.Ident v) ∧
                part = [])) members parts) :=
  have h := Pour_members parseReadFlusher 1 [] "ReadFlusher" "myStruct"
    { PreserveParamNames := false }
  ⟨rfl,
    h.2.2 fileReadFlusher (typeObj "ReadFlusher" 0) 1 _ (by decide) (by decide) rfl rfl rfl
      (by decide) (Nat.le_refl 1),
    fun recur acc => h.2.1 objMyStruct recvM recur [] _ [] tIoReader acc
      (fun _ hv => Expr.noConfusion hv) (fun _ hv => Expr.noConfusion hv),
    ⟨_, _, rfl, h.1 _ _ rfl⟩⟩

/-! ## Lookup and the empty struct name (claims C11, C15, C17) -/

/-- C11: when the interface name is not empty, the source parses and no type
declaration of the file, at package level or local to a function body, has
that name, `Pour` returns the error `could not find interface`, no type
declaration and no method declaration, for every struct name, the empty one
included, every option value and every recursion budget. -/
theorem Pour_not_found (ParseFile : List Nat → Except Err File) (fuel : Nat) (src : List Nat)
    (interfaceName structName : String) (opts : Opts) (f : File)
    (hname : interfaceName ≠ "") (hparse : ParseFile src = .ok f)
    (hnone : interfaceName ∉ typeNames f) :
    Pour ParseFile fuel src interfaceName structName opts
      = .ret (none, [], some (Err.New "could not find interface")) := by
  simp [Pour, hname, hparse, inspectFile_none f interfaceName hnone]

/-- Witness of C11: `Stringer` is not declared in the file that declares
`ReadCloser`; the struct name is empty. -/
theorem Pour_not_found_witness :
    "Stringer" ∉ typeNames fileReadCloser ∧
    Pour parseReadCloser 0 [] "Stringer" "" { PreserveParamNames := false }
      = .ret (none, [], some (Err.New "could not find interface")) :=
  ⟨by decide, Pour_not_found parseReadCloser 0 [] "Stringer" "" { PreserveParamNames := false }
    fileReadCloser (by decide) rfl (by decide)⟩

/-- C15 at the interface `ReadCloser` and the empty struct name: `Pour` reads
`structName[0]` and panics with an index out of range. -/
theorem Pour_empty_structName :
    Pour parseReadCloser 2 [] "ReadCloser" "" { PreserveParamNames := false }
      = .panic "index out of range [0] with length 0" :=
  rfl

/-- C17, as stated, fails on
`type Shape interface { Area() int }; func render() { type Shape struct{} }`:
the package-level `Shape` is an interface with the method `Area`, and `Pour`
takes the local struct type that comes after it and panics. -/
theorem Pour_lookup_counterexample :
    fileShapeAfter.Decls.head? = some (Decl.GenDecl (GenDecl.mk Token.TYPE [specShape])) ∧
    resolveMethods fileShapeAfter.Nodes 1 (typeObj "Shape" 0)
      = some [("Area", FuncType.mk (some []) (some [Field.mk [] tInt]))] ∧
    inspectFile fileShapeAfter "Shape" = some (typeObj "Shape" 1) ∧
    Pour parseShapeAfter 1 [] "Shape" "myStruct" { PreserveParamNames := false }
      = .panic "not ok" :=
  ⟨rfl, rfl, rfl, rfl⟩

/-- C17, amended: let the file parse.  (a) The walk does not test the shape
of a declaration: a package-level type spec of the name `interfaceName`, of
whatever type, after which no type declaration of that name comes (in a later
spec, a later declaration or a later function body) is the one selected,
whatever comes before it.  (b) The walk goes into function bodies: a type spec
of that name among the statements of a function body, after which no type
declaration of that name comes (in a later spec, a later statement or a later
declaration), is the one selected.  (c) When the selected declaration is an
interface (its name object pointing to it, as the parser sets it) whose
members resolve to the methods `ms` with results of identifier type, `Pour`,
with a non-empty struct name and a recursion budget above the embedding depth,
returns without error the declarations of `ms`. -/
theorem Pour_lookup (ParseFile : List Nat → Except Err File) (src : List Nat)
    (interfaceName structName : String) (opts : Opts) (f : File)
    (hname : interfaceName ≠ "") (hparse : ParseFile src = .ok f) :
    (∀ (pre post : List Decl) (tok : Token) (specs1 specs2 : List Spec) (name : Ident)
      (typ : Expr),
      f.Decls = pre ++ Decl.GenDecl (GenDecl.mk tok
        (specs1 ++ Spec.TypeSpec name typ :: specs2)) :: post →
      name.Name = interfaceName → interfaceName ∉ typeNamesSpecs specs2 →
      interfaceName ∉ typeNamesDecls post →
      inspectFile f interfaceName = name.Obj) ∧
    (∀ (pre post : List Decl) (d : FuncDecl) (stmts1 stmts2 : List Stmt) (tok : Token)
      (specs1 specs2 : List Spec) (name : Ident) (typ : Expr),
      f.Decls = pre ++ Decl.FuncDecl d :: post →
      d.Body = some (stmts1 ++ Stmt.DeclStmt (GenDecl.mk tok
        (specs1 ++ Spec.TypeSpec name typ :: specs2)) :: stmts2) →
      name.Name = interfaceName → interfaceName ∉ typeNamesSpecs specs2 →
      interfaceName ∉ typeNamesStmts stmts2 → interfaceName ∉ typeNamesDecls post →
      inspectFile f interfaceName = name.Obj) ∧
    (∀ (name : Ident) (members : List Field) (o : Object) depth ms fuel,
      inspectFile f interfaceName = name.Obj → name.Obj = some o →
      o.Decl.bind (fun a => f.Nodes.get? a)
        = some (Node.Spec (Spec.TypeSpec name (Expr.InterfaceType members))) →
      flattenMembers (resolveMethods f.Nodes depth) members = some ms →
      SimpleResults ms → depth + 1 ≤ fuel → structName ≠ "" →
      ∃ g fds, Pour ParseFile fuel src interfaceName structName opts
          = .ret (some g, fds, none) ∧
        fds.map (fun fd => fd.Name) = ms.map (fun m => NewIdent m.1)) := by
  refine ⟨?_, ?_, ?_⟩
  · intro pre post tok specs1 specs2 name typ hdecls hn h2 hpost
    exact inspectFile_last f interfaceName pre post tok specs1 specs2 name typ hdecls hn h2 hpost
  · intro pre post d stmts1 stmts2 tok specs1 specs2 name typ hdecls hbody hn h2 hstmts hpost
    exact inspectFile_last_local f interfaceName pre post d stmts1 stmts2 tok specs1 specs2
      name typ hdecls hbody hn h2 hstmts hpost
  · intro name members o depth ms fuel hsel hobj hdecl hflat hs hfuel hstruct
    have hfind : inspectFile f interfaceName = some o := by rw [hsel, hobj]
    obtain ⟨b, hb⟩ := firstByte_of_ne structName hstruct
    have hres : resolveMethods f.Nodes (depth + 1) o = some ms := by
      simp only [resolveMethods, hdecl, hflat]
    obtain ⟨fds, hget, hnames⟩ := getFuncDecls_flatten f.Nodes (NewObj ObjKind.Typ structName)
      (NewObj ObjKind.Typ (byteToString b)) opts.PreserveParamNames (depth + 1) o ms hres hs
      fuel hfuel
    exact ⟨_, fds, Pour_of_getFuncDecls ParseFile fuel src interfaceName structName opts f o b
      fds hname hparse hfind hb hget, hnames⟩

/-- Witness of C17.  On
`func render() { type Shape struct{} }; type Shape interface { Area() int }`
the package-level interface, which comes last, is selected and `Pour` returns
its method `Area`.  On
`type Shape interface { Area() int }; func render() { type Shape struct{} }`
the local struct type, which comes last, is selected. -/
theorem Pour_lookup_witness :
    inspectFile fileShapeBefore "Shape" = some (typeObj "Shape" 0) ∧
    (∃ g fds, Pour parseShapeBefore 1 [] "Shape" "myStruct" { PreserveParamNames := false }
        = .ret (some g, fds, none) ∧
      fds.map (fun fd => fd.Name) = [NewIdent "Area"]) ∧
    inspectFile fileShapeAfter "Shape" = some (typeObj "Shape" 1) :=
  have h := Pour_lookup parseShapeBefore [] "Shape" "myStruct" { PreserveParamNames := false }
    fileShapeBefore (by decide) rfl
  have h2 := Pour_lookup parseShapeAfter [] "Shape" "myStruct" { PreserveParamNames := false }
    fileShapeAfter (by decide) rfl
  have ha : inspectFile fileShapeBefore "Shape" = some (typeObj "Shape" 0) :=
    h.1 [declRender] [] Token.TYPE [] []
      { Name := "Shape", Obj := some (typeObj "Shape" 0) }
      (Expr.InterfaceType [Field.mk [NewIdent "Area"] (Expr.FuncType (FuncType.mk (some [])
        (some [Field.mk [] tInt])))])
      rfl rfl (by decide) (by decide)
  ⟨ha,
    h.2.2 { Name := "Shape", Obj := some (typeObj "Shape" 0) }
      [Field.mk [NewIdent "Area"] (Expr.FuncType (FuncType.mk (some [])
        (some [Field.mk [] tInt])))]
      (typeObj "Shape" 0) 0 [("Area", FuncType.mk (some []) (some [Field.mk [] tInt]))] 1
      ha rfl rfl rfl (by decide) (by decide) (by decide),
    h2.2.1 [Decl.GenDecl (GenDecl.mk Token.TYPE [specShape])] []
      { Recv := none
        Name := NewIdent "render"
        Typ := FuncType.mk (some []) none
        Body := some [Stmt.DeclStmt (GenDecl.mk Token.TYPE [specShapeLocal])] }
      [] [] Token.TYPE [] [] { Name := "Shape", Obj := some (typeObj "Shape" 1) }
      (Expr.StructType []) rfl rfl rfl (by decide) (by decide) (by decide)⟩

/-! ## The option `PreserveParamNames` (claim C20) -/

/-- C20: for every parser, source, interface name, struct name and recursion
budget, the calls of `Pour` with `PreserveParamNames` true and false end in the
same way (the same panic, the same returned error, or both return
declarations) and what they return is the same once the parameter names are
left out: the same type declaration, the same methods in the same order with
the same names, receivers, parameter counts and parameter types, result lists
and bodies. -/
theorem Pour_preserve_frame (ParseFile : List Nat → Except Err File) (fuel : Nat)
    (src : List Nat) (interfaceName structName : String) :
    eraseResultParamNames
        (Pour ParseFile fuel src interfaceName structName { PreserveParamNames := true })
      = eraseResultParamNames
        (Pour ParseFile fuel src interfaceName structName { PreserveParamNames := false }) := by
  unfold Pour
  split
  · rfl
  · split
    · rfl
    · rename_i f _
      split
      · rfl
      · rename_i obj _
        simp only
        split
        · rfl
        · rfl
        · rename_i b _
          have h := getFuncDecls_erase f.Nodes (NewObj ObjKind.Typ structName)
            (NewObj ObjKind.Typ (byteToString b)) true false fuel obj
          cases hP : getFuncDecls f.Nodes (NewObj ObjKind.Typ structName)
              (NewObj ObjKind.Typ (byteToString b)) true fuel obj <;>
            cases hQ : getFuncDecls f.Nodes (NewObj ObjKind.Typ structName)
              (NewObj ObjKind.Typ (byteToString b)) false fuel obj <;>
            rw [hP, hQ] at h <;>
            simp_all [eraseDeclsParamNames, eraseResultParamNames]

/-! ## Termination (claim C18) -/

/-- C18: (a) in a file whose embedding relation is acyclic, `getFuncDecls`
terminates on every object: a recursion budget of one more than the number of
nodes of the file is not exhausted.  (b) The depth of the recursion is bounded
by the longest embedding chain: if every embedding chain that starts at the
declaration of `o` has at most `L` declarations, a budget of `L` nested calls
is not exhausted.  (c) A call that does not exhaust its budget returns the
same with every larger budget, so its result is the result of the source. -/
theorem getFuncDecls_terminates (nodes : List Node) (structObj recvObj : Object)
    (preserveParamNames : Bool) (o : Object) :
    (Acyclic nodes → ∀ fuel, nodes.length + 1 ≤ fuel →
      getFuncDecls nodes structObj recvObj preserveParamNames fuel o ≠ .nofuel) ∧
    (∀ L, (∀ l, EmbedChain nodes (o.Decl :: l) → l.length + 1 ≤ L) →
      ∀ fuel, L ≤ fuel →
        getFuncDecls nodes structObj recvObj preserveParamNames fuel o ≠ .nofuel) ∧
    (∀ fuel fuel2, getFuncDecls nodes structObj recvObj preserveParamNames fuel o ≠ .nofuel →
      fuel ≤ fuel2 →
      getFuncDecls nodes structObj recvObj preserveParamNames fuel2 o
        = getFuncDecls nodes structObj recvObj preserveParamNames fuel o) := by
  refine ⟨?_, ?_, ?_⟩
  · intro hac fuel hfuel h
    obtain ⟨l, hl, hchain⟩ := getFuncDecls_nofuel_chain nodes _ _ _ fuel o h
    have := EmbedChain.length_le nodes hac _ hchain
    simp only [List.length_cons] at this
    omega
  · intro L hL fuel hfuel h
    obtain ⟨l, hl, hchain⟩ := getFuncDecls_nofuel_chain nodes _ _ _ fuel o h
    have := hL l hchain
    omega
  · intro fuel fuel2 h hle
    exact getFuncDecls_mono nodes _ _ _ fuel o h fuel2 hle

/-- Witness of C18 on `ReadCloser { Reader; Flush(); Closer }`: the file is
acyclic, the longest chain from `ReadCloser` has two declarations, and a
budget of two nested calls is enough. -/
theorem getFuncDecls_terminates_witness :
    Acyclic fileReadCloser.Nodes ∧
    (∀ l, EmbedChain fileReadCloser.Nodes ((typeObj "ReadCloser" 2).Decl :: l) →
      l.length + 1 ≤ 2) ∧
    getFuncDecls fileReadCloser.Nodes objMyStruct recvM false 4 (typeObj "ReadCloser" 2)
      ≠ .nofuel ∧
    getFuncDecls fileReadCloser.Nodes objMyStruct recvM false 2 (typeObj "ReadCloser" 2)
      ≠ .nofuel ∧
    getFuncDecls fileReadCloser.Nodes objMyStruct recvM false 7 (typeObj "ReadCloser" 2)
      = getFuncDecls fileReadCloser.Nodes objMyStruct recvM false 2 (typeObj "ReadCloser" 2) :=
  have h := getFuncDecls_terminates fileReadCloser.Nodes objMyStruct recvM false
    (typeObj "ReadCloser" 2)
  have h2 := h.2.1 2 chains_ReadCloser 2 (Nat.le_refl 2)
  ⟨acyclic_ReadCloser, chains_ReadCloser, h.1 acyclic_ReadCloser 4 (by decide), h2,
    h.2.2 2 7 h2 (by decide)⟩

/-! ## Names bound in a synthesized method (claim C19) -/

/-- C19, as stated, fails with `PreserveParamNames = true` on
`type Sender interface { Send(m string) error; Set(val1 int) error; Move(x, x int) }`
and the struct name `myStruct`: the method `Send` binds `m` as receiver and as
parameter, the method `Set` binds `val1` as parameter and as local variable,
the method `Move` binds `x` twice. -/
theorem Pour_bound_names_counterexample :
    ∃ g fds, Pour parseSender 1 [] "Sender" "myStruct" { PreserveParamNames := true }
        = .ret (some g, fds, none) ∧
      fds.map boundNames = [["m", "m", "val1"], ["m", "val1", "val1"], ["m", "x", "x"]] ∧
      ¬ (nonBlank ["m", "m", "val1"]).Nodup ∧ ¬ (nonBlank ["m", "val1", "val1"]).Nodup ∧
      ¬ (nonBlank ["m", "x", "x"]).Nodup :=
  ⟨_, _, rfl, rfl, by decide, by decide, by decide⟩

/-- C19, amended: in every declaration that `newFuncDecl` returns for a
receiver name of one character (as `Pour` passes it), the identifiers bound in
the function scope, that is the receiver name, the parameter names and the
local variables `val1..valK`, `K` the number of results, are pairwise distinct
(a) when `PreserveParamNames` is false, and (b) when it is true and no
parameter of the method is named; (c) when it is true, they are pairwise
distinct, blank identifiers aside, exactly when the parameter names of the
synthesized method are pairwise distinct, blank identifiers aside, none of
them is the receiver name, a blank one aside, and none of them is one of
`val1..valK`; (d) for a method whose parameters are all named, these
parameter names are the parameter names of the interface. -/
theorem newFuncDecl_bound_names (recvObj structObj : Object) (funcName : String)
    (params results : Option (List Field)) (preserveParamNames : Bool) (fd : FuncDecl)
    (hrecv : recvObj.Name.length = 1)
    (hret : newFuncDecl recvObj structObj funcName params results preserveParamNames
      = .ret fd) :
    (preserveParamNames = false → (boundNames fd).Nodup) ∧
    (preserveParamNames = true → (∀ f ∈ params.getD [], f.Names = []) →
      (boundNames fd).Nodup) ∧
    (preserveParamNames = true →
      ((nonBlank (boundNames fd)).Nodup ↔
        (nonBlank (policyNames (params.getD []))).Nodup ∧
        recvObj.Name ∉ nonBlank (policyNames (params.getD [])) ∧
        ∀ j, 1 ≤ j → j ≤ NumFields results →
          Sprintf "val" j ∉ policyNames (params.getD []))) ∧
    ((∀ f ∈ params.getD [], f.Names ≠ []) →
      policyNames (params.getD []) = sourceParamNames (params.getD [])) := by
  have hb := boundNames_of_newFuncDecl _ _ _ _ _ _ _ hret
  have hgeneric : ([recvObj.Name]
      ++ (namedFrom false 0 (splitFields (params.getD []))).flatMap
          (fun f => f.Names.map Ident.Name)
      ++ (List.range (NumFields results)).map (fun k => Sprintf "val" (0 + k + 1))).Nodup := by
    rw [namedFrom_names_generic]
    apply nodup_three
    · exact sprintf_names_nodup "arg" 0 _
    · exact sprintf_names_nodup "val" 0 _
    · exact short_not_sprintf _ "arg" 0 _ (by rw [hrecv]; decide)
    · exact short_not_sprintf _ "val" 0 _ (by rw [hrecv]; decide)
    · intro x hx hx2
      obtain ⟨k, _, rfl⟩ := List.mem_map.mp hx
      obtain ⟨k2, _, hk2⟩ := List.mem_map.mp hx2
      exact Sprintf_arg_ne_val _ _ hk2.symm
  refine ⟨?_, ?_, ?_, policyNames_named _⟩
  · intro hp
    subst hp
    rw [hb]
    exact hgeneric
  · intro hp hun
    subst hp
    rw [hb, namedFrom_unnamed true _ (splitFields_unnamed _ hun)]
    exact hgeneric
  · intro hp
    subst hp
    rw [hb]
    have hiff := nodup_filter_three_iff (fun n => decide (n ≠ "_")) recvObj.Name
      (policyNames (params.getD []))
      ((List.range (NumFields results)).map (fun k => Sprintf "val" (0 + k + 1)))
      (sprintf_names_nodup "val" 0 _)
      (by
        intro x hx
        obtain ⟨k, _, rfl⟩ := List.mem_map.mp hx
        exact decide_eq_true (sprintf_ne_blank "val" _ (by decide)))
      (short_not_sprintf _ "val" 0 _ (by rw [hrecv]; decide))
    have hvals : (∀ x ∈ (List.range (NumFields results)).map
          (fun k => Sprintf "val" (0 + k + 1)), x ∉ policyNames (params.getD [])) ↔
        ∀ j, 1 ≤ j → j ≤ NumFields results →
          Sprintf "val" j ∉ policyNames (params.getD []) := by
      constructor
      · intro h j h1 hj
        apply h
        refine List.mem_map.mpr ⟨j - 1, List.mem_range.mpr (by omega), ?_⟩
        congr 1
        omega
      · intro h x hx
        obtain ⟨k, hk, rfl⟩ := List.mem_map.mp hx
        exact h _ (by omega) (by have := List.mem_range.mp hk; omega)
    rw [← hvals]
    exact hiff

/-- Witness of C19.  `Read(p []byte, _ int) (n int, err error)` with the
receiver `m` binds `m, arg1, arg2, val1, val2` without preserved names and
`m, p, _, val1, val2` with them.  `Set(val2 int) error` with preserved names
binds `m, val2, val1`, pairwise distinct, as the conditions of (c) say. -/
theorem newFuncDecl_bound_names_witness :
    recvM.Name.length = 1 ∧
    (∃ fd, newFuncDecl recvM objMyStruct "Read" (some fieldsRead) (some resultsNamed) false
        = .ret fd ∧ (boundNames fd).Nodup) ∧
    (∃ fd, newFuncDecl recvM objMyStruct "Read" (some fieldsRead) (some resultsNamed) true
        = .ret fd ∧ (nonBlank (boundNames fd)).Nodup) ∧
    (∃ fd, newFuncDecl recvM objMyStruct "Set" (some [Field.mk [NewIdent "val2"] tInt])
          (some [Field.mk [] tError]) true = .ret fd ∧
        boundNames fd = ["m", "val2", "val1"] ∧ (nonBlank (boundNames fd)).Nodup) :=
  ⟨by decide,
    ⟨_, rfl, (newFuncDecl_bound_names recvM objMyStruct "Read" (some fieldsRead)
      (some resultsNamed) false _ (by decide) rfl).1 rfl⟩,
    ⟨_, rfl, ((newFuncDecl_bound_names recvM objMyStruct "Read" (some fieldsRead)
      (some resultsNamed) true _ (by decide) rfl).2.2.1 rfl).mpr
      ⟨by decide, by decide, by decide⟩⟩,
    ⟨_, rfl, rfl, ((newFuncDecl_bound_names recvM objMyStruct "Set"
      (some [Field.mk [NewIdent "val2"] tInt]) (some [Field.mk [] tError]) true _
      (by decide) rfl).2.2.1 rfl).mpr ⟨by decide, by decide, by decide⟩⟩⟩

end Patrick
